import Mathlib

/-!
# GNU nano, `src/files.c`: reading, writing and locking

A shallow embedding of the file-reading, file-writing and locking code of
`files.c` (`encode_data`, `read_file`, `copy_file`, `get_next_filename`,
`real_dir_from_tilde`, `outside_of_confinement`, `write_file`,
`write_lockfile`, `delete_lockfile`, `do_lockfile`) together with the
properties of it that the specification states.

Conventions of the embedding:

* a byte (`char`) is a `UInt8`; `'\n'` is `10`, `'\r'` is `13`, NUL is `0`;
* a region of memory holding a C string is a `List UInt8`; the string it holds
  is the part before the first NUL (`cstring`), so a list without NUL holds
  itself;
* the line buffer `buf` of `read_file` is the list of its first `len` bytes;
* the linked list of `linestruct` nodes from `filetop` to `filebot` is the list
  of the `data` of its nodes;
* `size_t` counters that only count heap nodes (`num_lines`) are natural
  numbers: every counted line owns a node of memory, so the count stays below
  `2 ^ 64`; the counter `lineswritten`, which the code decrements at zero, is
  kept modulo `2 ^ 64`;
* a stream being read is the list of bytes it delivers before `EOF`; a stream
  being written is the list of bytes it has taken and the room it has left;
* a path name is a `String` each of whose characters stands for one byte
  (`bytes_of`), so that its `length` is the `strlen` of the C string;
* the file system is a map from path names to the contents of regular files;
  whatever else decides the outcome of a system call (permissions, signals,
  the disk, the user at a prompt) is a field of `System`;
* status-bar messages, the undo stack, syntax colouring and the umask are left
  out.
-/

namespace Nano

/-! ## C strings and the NUL sentinel -/

/-- The C string held at the start of `mem`: the bytes before the first NUL. -/
def cstring (mem : List UInt8) : List UInt8 :=
  mem.takeWhile (fun c => c ≠ 0)

/-- The C library's `strlen`: the length of the C string held at `mem`. -/
def strlen (mem : List UInt8) : Nat :=
  (cstring mem).length

/-- Modelled from the spec: `sunder` (utils.c, not part of files.c), which
"reverts" the sentinel to NUL "immediately before the write"; `write_file`
calls it with the comment "Decode LFs as the NULs that they are".  It walks the
string up to its terminating NUL and turns every LF into a NUL. -/
def sunder : List UInt8 → List UInt8
  | [] => []
  | c :: rest =>
    if c = 0 then c :: rest
    else (if c = 10 then 0 else c) :: sunder rest

/-- Modelled from the spec: `unsunder` (utils.c, not part of files.c), which
substitutes "a private sentinel" for every NUL byte; `write_file` calls it with
the comment "Re-encode any embedded NULs as LFs".  It turns every NUL among the
first `true_len` bytes into an LF. -/
def unsunder : List UInt8 → Nat → List UInt8
  | str, 0 => str
  | [], _ + 1 => []
  | c :: rest, true_len + 1 => (if c = 0 then 10 else c) :: unsunder rest true_len

/-- The function `encode_data(buf, buf_len)`: `unsunder(buf, buf_len)`, then
`buf[buf_len] = 0`, then a copy of the C string now held in `buf`. -/
def encode_data (buf : List UInt8) (buf_len : Nat) : List UInt8 :=
  cstring ((unsunder buf buf_len).take buf_len ++ [0])

/-! ## Flags, formats and the open buffer -/

/-- The global option flags that `files.c` tests with `ISSET`. -/
structure Flags where
  NO_CONVERT : Bool := false
  MAKE_IT_UNIX : Bool := false
  VIEW_MODE : Bool := false
  BACKUP_FILE : Bool := false
  INSECURE_BACKUP : Bool := false
  LOCKING : Bool := false
  NOREAD_MODE : Bool := false
  deriving DecidableEq

/-- The type `format_type` of `openfile->fmt`. -/
inductive format_type where
  | NIX_FILE
  | DOS_FILE
  | MAC_FILE
  deriving DecidableEq

/-- The type `kind_of_writing_type` of the `method` argument of `write_file`. -/
inductive kind_of_writing_type where
  | OVERWRITE
  | APPEND
  | PREPEND
  deriving DecidableEq

/-- The fields of `struct stat` that `files.c` reads. -/
structure Stat where
  st_dev : Nat := 0
  st_ino : Nat := 0
  st_mode : Nat := 0
  st_uid : Nat := 0
  st_gid : Nat := 0
  st_atime : Nat := 0
  st_mtime : Nat := 0
  deriving DecidableEq

/-- The fields of `openfilestruct` that reading and writing use.  `lines` is
the list from `filetop` to `filebot`; `current` is the index of the line the
cursor is on and `current_x` its column; `mark` tells whether `mark` is
non-NULL. -/
structure openfilestruct where
  filename : String
  lines : List (List UInt8)
  current : Nat
  current_x : Nat
  modified : Bool
  fmt : format_type
  mark : Bool
  current_stat : Option Stat
  lock_filename : Option String
  deriving DecidableEq

/-- The buffer that `make_new_buffer` initialises: no name, one empty line,
the cursor at its start, not modified, Unix format, no mark, no stat, no lock. -/
def new_buffer : openfilestruct :=
  { filename := "", lines := [[]], current := 0, current_x := 0,
    modified := false, fmt := format_type.NIX_FILE, mark := false,
    current_stat := none, lock_filename := none }

/-! ## `read_file` -/

/-- The local variables of `read_file` that its byte loop updates: the data of
the lines completed so far (`topline` up to the node before `bottomline`), the
first `len` bytes of `buf`, `num_lines` and `format`. -/
structure ReadLoop where
  stored : List (List UInt8)
  buf : List UInt8
  num_lines : Nat
  format : Nat
  deriving DecidableEq

/-- The test `len > 0 && buf[len - 1] == '\r'`. -/
def ends_in_cr (buf : List UInt8) : Bool :=
  buf.getLast? == some 13

/-- The tail of one pass through the loop body, lines 792-812: strip a final
`'\r'` unless conversion is off, store the line in `bottomline`, append a new
node, count the line, and start the next line with `input` unless `input` is
the newline. -/
def store_line (NO_CONVERT : Bool) (input : UInt8) (s : ReadLoop) : ReadLoop :=
  let buf := if ends_in_cr s.buf && !NO_CONVERT then s.buf.dropLast else s.buf
  { stored := s.stored ++ [encode_data buf buf.length],
    buf := if input ≠ 10 then [input] else [],
    num_lines := s.num_lines + 1,
    format := s.format }

/-- One pass through the body of the loop of `read_file` (lines 749-812) for
the byte `input`. -/
def read_byte (NO_CONVERT : Bool) (s : ReadLoop) (input : UInt8) : ReadLoop :=
  let cr_seen := (s.num_lines == 0 || s.format != 0) && !NO_CONVERT && ends_in_cr s.buf
  if input = 10 then
    store_line NO_CONVERT input
      { s with format :=
          if cr_seen && (s.format == 0 || s.format == 2) then s.format + 1 else s.format }
  else if cr_seen then
    store_line NO_CONVERT input
      { s with format :=
          if s.format == 0 || s.format == 1 then s.format + 2 else s.format }
  else
    { s with buf := s.buf ++ [input] }

/-- The loop `while ((input_int = getc_unlocked(f)) != EOF)` of `read_file`.
The stream is the list of bytes `getc_unlocked` delivers before it returns
`EOF`; `i` counts the bytes fetched so far, and `interrupt = some k` says that
`control_C_was_pressed` is found set when byte number `k` has been fetched, at
which point the loop breaks and that byte is dropped. -/
def read_loop (NO_CONVERT : Bool) (interrupt : Option Nat) :
    List UInt8 → Nat → ReadLoop → ReadLoop
  | [], _, s => s
  | input :: rest, i, s =>
    if interrupt = some i then s
    else read_loop NO_CONVERT interrupt rest (i + 1) (read_byte NO_CONVERT s input)

/-- The code after the loop, lines 842-873: the data of the last line.  The
result holds in `stored` the data of every node from `topline` to
`bottomline`. -/
def read_finish (NO_CONVERT : Bool) (s : ReadLoop) : ReadLoop :=
  if s.buf.length = 0 then
    { s with stored := s.stored ++ [[]] }
  else if ends_in_cr s.buf && !NO_CONVERT then
    let buf := s.buf.dropLast
    { stored := s.stored ++ [encode_data buf buf.length] ++ [[]],
      buf := buf,
      num_lines := s.num_lines + 1,
      format := if s.format < 2 then s.format + 2 else s.format }
  else
    { s with stored := s.stored ++ [encode_data s.buf s.buf.length],
             num_lines := s.num_lines + 1 }

/-- The lines, line count and format that `read_file` has built when it
reaches `ingraft_buffer(topline)`. -/
def read_lines (NO_CONVERT : Bool) (interrupt : Option Nat) (f : List UInt8) : ReadLoop :=
  read_finish NO_CONVERT (read_loop NO_CONVERT interrupt f 0 ⟨[], [], 0, 0⟩)

/-- Modelled from the spec: `ingraft_buffer` (cut.c, not part of files.c): "the
newly built LineStore is spliced into the current buffer's LineStore at the
current cursor position".  The text of the cursor line before column
`current_x` is joined to the first new line and the rest of the cursor line to
the last new line.  Only the line contents are modelled. -/
def ingraft_buffer (lines : List (List UInt8)) (current current_x : Nat)
    (topline : List (List UInt8)) : List (List UInt8) :=
  let here := lines.getD current []
  let before := here.take current_x
  let after := here.drop current_x
  match topline with
  | [] => lines
  | [only] => lines.take current ++ [before ++ only ++ after] ++ lines.drop (current + 1)
  | first :: more =>
    lines.take current ++ [before ++ first] ++ more.dropLast
      ++ [more.getLast?.getD [] ++ after] ++ lines.drop (current + 1)

/-- Lines 710 and 837-840 of `read_file`: the value of its local `writable`,
which starts `TRUE` and is recomputed from `access(filename, W_OK)` when the
file came with a descriptor and is not being inserted undoably. -/
def found_writable (flags : Flags) (fd : Int) (undoable access_w_ok : Bool) : Bool :=
  if fd > 0 && !undoable then (flags.VIEW_MODE || access_w_ok) else true

/-- What a call of `read_file` leaves behind: the buffer, the line count it
reports on the status bar, and the final value of its local `format`. -/
structure ReadOutcome where
  openfile : openfilestruct
  num_lines : Nat
  format : Nat
  deriving DecidableEq

/-- The function `read_file(f, fd, filename, undoable)` acting on the current
buffer.  `f` is the list of bytes the stream delivers, `interrupt` the moment
of a Ctrl-C (see `read_loop`), and `access_w_ok` the outcome of
`access(filename, W_OK) == 0`. -/
def read_file (flags : Flags) (f : List UInt8) (interrupt : Option Nat) (fd : Int)
    (undoable : Bool) (access_w_ok : Bool) (openfile : openfilestruct) : ReadOutcome :=
  let r := read_lines flags.NO_CONVERT interrupt f
  let writable := found_writable flags fd undoable access_w_ok
  let lines := ingraft_buffer openfile.lines openfile.current openfile.current_x r.stored
  let fmt :=
    if !writable then openfile.fmt
    else if r.format = 3 then openfile.fmt
    else if r.format = 2 then format_type.MAC_FILE
    else if r.format = 1 then format_type.DOS_FILE
    else openfile.fmt
  { openfile :=
      { openfile with
          lines := lines,
          fmt := if flags.MAKE_IT_UNIX then format_type.NIX_FILE else fmt },
    num_lines := r.num_lines,
    format := r.format }

/-! ## The line loop of `write_file` -/

/-- An output stream: the bytes it has accepted so far and the number of
further bytes it accepts before a write falls short (disk full, quota, broken
pipe). -/
structure OutStream where
  written : List UInt8
  room : Nat
  deriving DecidableEq

/-- The call `fwrite(ptr, sizeof(char), n, f)` for the `n` bytes `data`: the
number of bytes written and the stream afterwards. -/
def fwrite (data : List UInt8) (f : OutStream) : Nat × OutStream :=
  let size := min data.length f.room
  (size, { written := f.written ++ data.take size, room := f.room - size })

/-- The call `putc(c, f)`: whether it succeeded (did not return `EOF`), and the
stream afterwards. -/
def putc (c : UInt8) (f : OutStream) : Bool × OutStream :=
  if f.room = 0 then (false, f)
  else (true, { written := f.written ++ [c], room := f.room - 1 })

/-- What the line loop of `write_file` leaves behind: the data of the lines of
the buffer, the stream, the counter `lineswritten`, and whether the loop left
through one of its `goto cleanup_and_exit`. -/
structure LineLoop where
  lines : List (List UInt8)
  f : OutStream
  lineswritten : Nat
  failed : Bool
  deriving DecidableEq

/-- The loop `while (line != NULL)` of `write_file`, lines 1802-1850, started
at the node whose data heads the list; the last node of the list is
`openfile->filebot`.  `lineswritten` is a `size_t`. -/
def write_lines (fmt : format_type) : List (List UInt8) → OutStream → Nat → LineLoop
  | [], f, lineswritten =>
    { lines := [], f := f, lineswritten := lineswritten, failed := false }
  | data :: rest, f, lineswritten =>
    let data_len := strlen data
    let decoded := sunder data
    let w := fwrite (decoded.take data_len) f
    let data := unsunder decoded data_len
    if w.1 < data_len then
      { lines := data :: rest, f := w.2, lineswritten := lineswritten, failed := true }
    else
      let next (f : OutStream) (lineswritten : Nat) : LineLoop :=
        let r := write_lines fmt rest f ((lineswritten + 1) % 2 ^ 64)
        { r with lines := data :: r.lines }
      if rest = [] then
        if data.headD 0 = 0 then next w.2 ((lineswritten + (2 ^ 64 - 1)) % 2 ^ 64)
        else next w.2 lineswritten
      else
        let cr :=
          if fmt = format_type.DOS_FILE ∨ fmt = format_type.MAC_FILE then putc 13 w.2
          else (true, w.2)
        if !cr.1 then
          { lines := data :: rest, f := cr.2, lineswritten := lineswritten, failed := true }
        else
          let lf := if fmt ≠ format_type.MAC_FILE then putc 10 cr.2 else (true, cr.2)
          if !lf.1 then
            { lines := data :: rest, f := lf.2, lineswritten := lineswritten, failed := true }
          else next lf.2 lineswritten

/-! ## Files, streams and `copy_file` -/

/-- The file system as `files.c` sees it: the contents of the regular file
that each path names, if there is one.  Links, permissions and directories are
not modelled; a call that can fail for such a reason fails when `System` says
so. -/
abbrev FileSystem := String → Option (List UInt8)

/-- The file system with `data` as the contents of `path`. -/
def put_file (fs : FileSystem) (path : String) (data : List UInt8) : FileSystem :=
  fun q => if q = path then some data else fs q

/-- The file system after a successful `unlink(path)`. -/
def remove_file (fs : FileSystem) (path : String) : FileSystem :=
  fun q => if q = path then none else fs q

/-- Whether `stat(path, ...)` succeeds. -/
def file_present (fs : FileSystem) (path : String) : Bool :=
  (fs path).isSome

/-- An input stream: the bytes `fread` delivers before it returns 0, whether
`ferror` is set at that point, and whether `fclose` on it fails. -/
structure InStream where
  data : List UInt8
  error : Bool
  close_fails : Bool
  deriving DecidableEq

/-- The constant `BUFSIZ` of `<stdio.h>` (glibc's value). -/
def BUFSIZ : Nat := 8192

/-- The `do ... while (charsread > 0)` loop of `copy_file`, with the value it
leaves in `retval`.  `pending` is what `inn` has yet to deliver; every pass
but the last takes at least one byte of it, so `pending.length + 1` passes
suffice and `fuel` starts there. -/
def copy_loop (error : Bool) : Nat → List UInt8 → OutStream → Int × OutStream
  | 0, _, out => (0, out)
  | fuel + 1, pending, out =>
    let chunk := pending.take BUFSIZ
    let charsread := chunk.length
    if charsread = 0 ∧ error = true then (-1, out)
    else
      let w := fwrite chunk out
      if w.1 < charsread then (-2, w.2)
      else if charsread > 0 then copy_loop error fuel (pending.drop BUFSIZ) w.2
      else (0, w.2)

/-- The function `copy_file(inn, out, close_out)`: its return value and the
output stream afterwards.  `flush_fails` says whether the final `fclose(out)`
or `fflush(out)` returns `EOF`. -/
def copy_file (inn : InStream) (out : OutStream) (flush_fails : Bool) : Int × OutStream :=
  let r := copy_loop inn.error (inn.data.length + 1) inn.data out
  let retval := if inn.close_fails then -1 else r.1
  let retval := if flush_fails then -2 else retval
  (retval, r.2)

/-! ## Paths -/

/-- What the machine, the libraries and the user contribute to one call of
`write_file`: the globals it reads, the functions of other files it calls, and
the outcome of every system call that can fail for a reason the file system
above does not show. -/
structure System where
  /-- The global `homedir`, after `get_homedir()`. -/
  homedir : String
  /-- The account database that `getpwent` walks: `pw_name` and `pw_dir`. -/
  passwd : List (String × String)
  /-- Whether the build defines `HAVE_PWD_H`. -/
  HAVE_PWD_H : Bool
  /-- The global `operating_dir`; `none` is `NULL`. -/
  operating_dir : Option String
  /-- The global `backup_dir`; `none` is `NULL`. -/
  backup_dir : Option String
  /-- The result of `get_full_path`, which asks the kernel through `chdir` and
  `getcwd`; `none` is `NULL`. -/
  get_full_path : String → Option String
  /-- The function `tail` of utils.c. -/
  tail : String → String
  /-- Whether `geteuid() == NANO_ROOT_UID`. -/
  is_root : Bool
  /-- What `stat(realname, &st)` fills in when the file exists. -/
  st : Stat
  /-- What the `stat` of `stat_with_alloc` at line 1922 finds; `none` when it
  fails. -/
  st_after : Option Stat
  /-- What can be read from the caller's `stream`, when there is one. -/
  stream_in : InStream
  backup_fopen_fails : Bool
  backup_read_error : Bool
  backup_in_close_fails : Bool
  backup_unlink_fails : Bool
  /-- The answer of `prompt_failed_backupwrite`. -/
  backup_prompt : Int
  backup_open_fails : Bool
  backup_fdopen_fails : Bool
  backup_fchown_fails : Bool
  backup_fchmod_fails : Bool
  backup_room : Nat
  backup_flush_fails : Bool
  backup_futimens_fails : Bool
  prepend_open_fails : Bool
  prepend_read_error : Bool
  prepend_in_close_fails : Bool
  /-- The name `mkstemp` creates in `safe_tempfile`; `none` when it fails. -/
  tempname : Option String
  temp_room : Nat
  temp_close_fails : Bool
  target_open_fails : Bool
  target_fdopen_fails : Bool
  target_room : Nat
  target_close_fails : Bool
  temp_reopen_fails : Bool
  temp_read_error : Bool
  temp_in_close_fails : Bool
  /-- Whether `unlink(tempname)` fails (lines 1748, 1785 and 1879); the code
  does not look at its result. -/
  temp_unlink_fails : Bool

/-- The function `real_dir_from_tilde(path)`. -/
def real_dir_from_tilde (sys : System) (path : String) : String :=
  match path.data with
  | '~' :: after =>
    let name := after.takeWhile (fun c => c ≠ '/')
    let remainder := String.mk (after.dropWhile (fun c => c ≠ '/'))
    if name = [] then sys.homedir ++ remainder
    else if sys.HAVE_PWD_H then
      match sys.passwd.find? (fun userdata => userdata.1.data = name) with
      | some userdata => userdata.2 ++ remainder
      | none => String.mk ('~' :: name) ++ remainder
    else "" ++ remainder
  | _ => path

/-- The library function `strstr(haystack, needle)`: the offset of the first
occurrence of `needle` in `haystack`; `none` is `NULL`. -/
def strstr : List Char → List Char → Option Nat
  | [], needle => if needle = [] then some 0 else none
  | c :: rest, needle =>
    if needle.isPrefixOf (c :: rest) then some 0
    else (strstr rest needle).map (fun offset => offset + 1)

/-- The function `outside_of_confinement(currpath, allow_tabcomp)`; the
comparison `strstr(a, b) == a` asks whether the first occurrence is at offset 0. -/
def outside_of_confinement (sys : System) (currpath : String) (allow_tabcomp : Bool) : Bool :=
  match sys.operating_dir with
  | none => false
  | some operating_dir =>
    match sys.get_full_path currpath with
    | none => allow_tabcomp
    | some fullpath =>
      let is_inside := strstr fullpath.data operating_dir.data == some 0
      let begins_to_be :=
        allow_tabcomp && strstr operating_dir.data fullpath.data == some 0
      !is_inside && !begins_to_be

/-- The loop of `get_next_filename`: `buf` is the candidate name, `i` the
counter, `whole` the name plus the suffix; the loop makes at most 100000
passes, and `fuel` starts there. -/
def get_next_filename_loop (fs : FileSystem) (whole : String) : Nat → Nat → String → String
  | 0, _, _ => ""
  | fuel + 1, i, buf =>
    if !file_present fs buf then buf
    else if i + 1 = 100000 then ""
    else get_next_filename_loop fs whole fuel (i + 1) (whole ++ "." ++ toString (i + 1))

/-- The function `get_next_filename(name, suffix)`. -/
def get_next_filename (fs : FileSystem) (name suffix : String) : String :=
  get_next_filename_loop fs (name ++ suffix) 100000 0 (name ++ suffix)


/-- The strings that `sprintf(buf + wholenamelen, ".%lu", i)` writes, pass by
pass, in the loop of `get_next_filename`. -/
def get_next_filename_writes (fs : FileSystem) (whole : String) : Nat → Nat → String → List String
  | 0, _, _ => []
  | fuel + 1, i, buf =>
    if !file_present fs buf then []
    else if i + 1 = 100000 then []
    else
      ("." ++ toString (i + 1)) ::
        get_next_filename_writes fs whole fuel (i + 1) (whole ++ "." ++ toString (i + 1))

/-! ## `write_file` -/

/-- How a part of `write_file` ends: it falls through to the code below it with
a value, or it jumps to `cleanup_and_exit` with the file system as it is. -/
inductive Stage (α : Type) where
  | next : α → Stage α
  | cleanup_and_exit : FileSystem → Stage α

/-- The file system with which a part of `write_file` ends, either way. -/
def stage_fs : Stage FileSystem → FileSystem
  | Stage.next fs => fs
  | Stage.cleanup_and_exit fs => fs

/-- The name of the backup file, lines 1588-1628; `none` when
`get_next_filename` finds no free name. -/
def backup_name (sys : System) (fs : FileSystem) (realname : String) : Option String :=
  match sys.backup_dir with
  | some backup_dir =>
    let backuptemp :=
      match sys.get_full_path realname with
      | none => sys.tail realname
      | some full => String.mk (full.data.map (fun c => if c = '/' then '!' else c))
    let backupname := get_next_filename fs (backup_dir ++ backuptemp) "~"
    if backupname = "" then none else some backupname
  | none => some (realname ++ "~")

/-- The outcome of `if (prompt_failed_backupwrite(backupname)) goto skip_backup;`
followed by `goto cleanup_and_exit`. -/
def backup_ask (sys : System) (fs : FileSystem) : Stage FileSystem :=
  if sys.backup_prompt ≠ 0 then Stage.next fs else Stage.cleanup_and_exit fs

/-- Lines 1660-1706: give the new backup file the owner and mode of the
original, copy the original `f` into it, and set its times. -/
def fill_backup (flags : Flags) (sys : System) (fs : FileSystem) (f : InStream)
    (backupname : String) : Stage FileSystem :=
  if sys.is_root && sys.backup_fchown_fails && !flags.INSECURE_BACKUP then backup_ask sys fs
  else if sys.backup_fchmod_fails && !flags.INSECURE_BACKUP then backup_ask sys fs
  else
    let c := copy_file f ⟨(fs backupname).getD [], sys.backup_room⟩ sys.backup_flush_fails
    let fs := put_file fs backupname c.2.written
    if c.1 ≠ 0 then Stage.cleanup_and_exit fs
    else if sys.backup_futimens_fails && !flags.INSECURE_BACKUP then backup_ask sys fs
    else Stage.next fs

/-- Lines 1630-1658: unlink an existing backup and create the backup file,
with `O_EXCL` unless `INSECURE_BACKUP` is set; then fill it. -/
def create_backup (flags : Flags) (sys : System) (fs : FileSystem) (f : InStream)
    (backupname : String) : Stage FileSystem :=
  let unlink_failed := file_present fs backupname && sys.backup_unlink_fails
  if unlink_failed && !flags.INSECURE_BACKUP then backup_ask sys fs
  else
    let fs := if unlink_failed then fs else remove_file fs backupname
    if sys.backup_open_fails || (!flags.INSECURE_BACKUP && file_present fs backupname) then
      Stage.cleanup_and_exit fs
    else
      let fs := put_file fs backupname ((fs backupname).getD [])
      if sys.backup_fdopen_fails then Stage.cleanup_and_exit fs
      else fill_backup flags sys fs f backupname

/-- The block that makes the backup, lines 1565-1706, entered when the
condition of line 1562 holds.  `next` stands both for reaching the end of the
block and for `goto skip_backup`. -/
def make_backup (flags : Flags) (sys : System) (fs : FileSystem) (realname : String)
    (stream : Option String) : Stage FileSystem :=
  if stream.isNone && sys.backup_fopen_fails then Stage.next fs
  else
    let f : InStream :=
      match stream with
      | none => ⟨(fs realname).getD [], sys.backup_read_error, sys.backup_in_close_fails⟩
      | some _ => sys.stream_in
    match backup_name sys fs realname with
    | none => Stage.cleanup_and_exit fs
    | some backupname => create_backup flags sys fs f backupname

/-- The call `unlink(tempname)`, whose result `write_file` does not inspect:
the file is gone unless the call fails. -/
def unlink_tempfile (sys : System) (fs : FileSystem) (tempname : String) : FileSystem :=
  if sys.temp_unlink_fails then fs else remove_file fs tempname

/-- The block of lines 1719-1751 for `method == PREPEND`: copy the existing
file to a temporary file made by `safe_tempfile`, and hand on its name. -/
def copy_to_tempfile (sys : System) (fs : FileSystem) (realname : String) :
    Stage (FileSystem × String) :=
  if !file_present fs realname || sys.prepend_open_fails then Stage.cleanup_and_exit fs
  else
    let source : InStream :=
      ⟨(fs realname).getD [], sys.prepend_read_error, sys.prepend_in_close_fails⟩
    match sys.tempname with
    | none => Stage.cleanup_and_exit fs
    | some tempname =>
      if file_present fs tempname then Stage.cleanup_and_exit fs
      else
        let fs := put_file fs tempname []
        let c := copy_file source ⟨[], sys.temp_room⟩ sys.temp_close_fails
        let fs := put_file fs tempname c.2.written
        if c.1 ≠ 0 then Stage.cleanup_and_exit (unlink_tempfile sys fs tempname)
        else Stage.next (fs, tempname)

/-- The block of lines 1757-1797 for `stream == NULL`: open `realname` in place
with `O_APPEND`, `O_EXCL` or `O_TRUNC`, and associate a stream with it. -/
def open_in_place (sys : System) (fs : FileSystem) (realname : String) (tmp : Bool)
    (method : kind_of_writing_type) (tempname : Option String) : Stage FileSystem :=
  let o_excl := method ≠ kind_of_writing_type.APPEND && tmp
  if sys.target_open_fails || (o_excl && file_present fs realname) then
    match tempname with
    | some t => Stage.cleanup_and_exit (unlink_tempfile sys fs t)
    | none => Stage.cleanup_and_exit fs
  else
    let fs :=
      if method = kind_of_writing_type.APPEND then put_file fs realname ((fs realname).getD [])
      else put_file fs realname []
    if sys.target_fdopen_fails then Stage.cleanup_and_exit fs
    else Stage.next fs

/-- The block of lines 1854-1886 after the line loop: for `PREPEND`, append the
temporary file to what `f` (the stream on `path`, with `room` left) has taken
and call `unlink` on it; otherwise close `f`. -/
def finish_stream (sys : System) (fs : FileSystem) (path : String) (room : Nat)
    (method : kind_of_writing_type) (tempname : Option String) : Stage FileSystem :=
  if method = kind_of_writing_type.PREPEND then
    match tempname with
    | none => Stage.cleanup_and_exit fs
    | some t =>
      if sys.temp_reopen_fails || !file_present fs t then Stage.cleanup_and_exit fs
      else
        let source : InStream := ⟨(fs t).getD [], sys.temp_read_error, sys.temp_in_close_fails⟩
        let c := copy_file source ⟨(fs path).getD [], room⟩ sys.target_close_fails
        let fs := put_file fs path c.2.written
        if c.1 ≠ 0 then Stage.cleanup_and_exit fs
        else Stage.next (unlink_tempfile sys fs t)
  else if sys.target_close_fails then Stage.cleanup_and_exit fs
  else Stage.next fs

/-- What a call of `write_file` leaves behind: its return value, whether it
ended the process through `die`, the file system, the current buffer, and the
count of lines it reports. -/
structure WriteResult where
  retval : Bool
  died : Bool
  fs : FileSystem
  openfile : openfilestruct
  lineswritten : Nat

/-- The label `cleanup_and_exit` of `write_file`, reached with `retval` still
`FALSE`. -/
def cleanup_and_exit (fs : FileSystem) (openfile : openfilestruct) : WriteResult :=
  { retval := false, died := false, fs := fs, openfile := openfile, lineswritten := 0 }

/-- Lines 1799-1942 of `write_file`: the line loop on the stream `f`, which
writes to the file `path`; then the end of the stream (`finish_stream`); then
the administrivia of a full save. -/
def write_to_stream (sys : System) (fs : FileSystem) (openfile : openfilestruct)
    (realname path : String) (tmp : Bool) (method : kind_of_writing_type) (fullbuffer : Bool)
    (tempname : Option String) : WriteResult :=
  let r := write_lines openfile.fmt openfile.lines ⟨(fs path).getD [], sys.target_room⟩ 0
  let fs := put_file fs path r.f.written
  let openfile := { openfile with lines := r.lines }
  if r.failed then cleanup_and_exit fs openfile
  else
    match finish_stream sys fs path r.f.room method tempname with
    | Stage.cleanup_and_exit fs => cleanup_and_exit fs openfile
    | Stage.next fs =>
      let openfile :=
        if fullbuffer && method = kind_of_writing_type.OVERWRITE && !tmp then
          { openfile with
              filename := realname,
              current_stat := sys.st_after,
              modified := false }
        else openfile
      { retval := true, died := false, fs := fs, openfile := openfile,
        lineswritten := r.lineswritten }

/-- Lines 1757-1942 of `write_file`: open the file in place unless the caller
passed a stream, then write. -/
def write_in_place (sys : System) (fs : FileSystem) (openfile : openfilestruct)
    (realname : String) (stream : Option String) (tmp : Bool) (method : kind_of_writing_type)
    (fullbuffer : Bool) (tempname : Option String) : WriteResult :=
  match stream with
  | none =>
    match open_in_place sys fs realname tmp method tempname with
    | Stage.cleanup_and_exit fs => cleanup_and_exit fs openfile
    | Stage.next fs =>
      write_to_stream sys fs openfile realname realname tmp method fullbuffer tempname
  | some path =>
    write_to_stream sys fs openfile realname path tmp method fullbuffer tempname

/-- Lines 1711-1942 of `write_file`, the code after the label `skip_backup`:
when prepending, first copy the existing file to a temporary file. -/
def write_after_backup (sys : System) (fs : FileSystem) (openfile : openfilestruct)
    (realname : String) (stream : Option String) (tmp : Bool) (method : kind_of_writing_type)
    (fullbuffer : Bool) : WriteResult :=
  if method = kind_of_writing_type.PREPEND then
    match copy_to_tempfile sys fs realname with
    | Stage.cleanup_and_exit fs => cleanup_and_exit fs openfile
    | Stage.next (fs, tempname) =>
      write_in_place sys fs openfile realname stream tmp method fullbuffer (some tempname)
  else write_in_place sys fs openfile realname stream tmp method fullbuffer none

/-- The function `write_file(name, stream, tmp, method, fullbuffer)` acting on
the file system `fs` and the current buffer `openfile`.  `stream` is the path
of the file the caller's open stream writes to, or `none` for `NULL`. -/
def write_file (flags : Flags) (sys : System) (fs : FileSystem) (openfile : openfilestruct)
    (name : String) (stream : Option String) (tmp : Bool) (method : kind_of_writing_type)
    (fullbuffer : Bool) : WriteResult :=
  if name = "" then
    { retval := false, died := true, fs := fs, openfile := openfile, lineswritten := 0 }
  else
    let realname := real_dir_from_tilde sys name
    if !tmp && outside_of_confinement sys realname false then cleanup_and_exit fs openfile
    else if tmp && file_present fs realname && stream.isNone then cleanup_and_exit fs openfile
    else
      let isactualfile := !tmp && file_present fs realname
      let openfile :=
        if openfile.current_stat.isNone && isactualfile then
          { openfile with current_stat := some sys.st }
        else openfile
      let wants_backup :=
        flags.BACKUP_FILE && isactualfile &&
          (match openfile.current_stat with
           | none => false
           | some current_stat =>
             method ≠ kind_of_writing_type.OVERWRITE || openfile.mark ||
               current_stat.st_mtime == sys.st.st_mtime)
      if wants_backup then
        match make_backup flags sys fs realname stream with
        | Stage.cleanup_and_exit fs => cleanup_and_exit fs openfile
        | Stage.next fs =>
          write_after_backup sys fs openfile realname stream tmp method fullbuffer
      else write_after_backup sys fs openfile realname stream tmp method fullbuffer

/-- A machine on which no system call fails for a hidden reason: no confinement,
no backup directory, every path its own canonical form, room for 1000 bytes on
every stream, and `/tmp/nano.abcdef` as the name `mkstemp` makes. -/
def calm_system : System :=
  { homedir := "/home/user", passwd := [], HAVE_PWD_H := true,
    operating_dir := none, backup_dir := none,
    get_full_path := fun path => some path, tail := fun path => path,
    is_root := false, st := {}, st_after := some {},
    stream_in := ⟨[], false, false⟩,
    backup_fopen_fails := false, backup_read_error := false, backup_in_close_fails := false,
    backup_unlink_fails := false, backup_prompt := 0, backup_open_fails := false,
    backup_fdopen_fails := false, backup_fchown_fails := false, backup_fchmod_fails := false,
    backup_room := 1000, backup_flush_fails := false, backup_futimens_fails := false,
    prepend_open_fails := false, prepend_read_error := false, prepend_in_close_fails := false,
    tempname := some "/tmp/nano.abcdef", temp_room := 1000, temp_close_fails := false,
    target_open_fails := false, target_fdopen_fails := false, target_room := 1000,
    target_close_fails := false, temp_reopen_fails := false, temp_read_error := false,
    temp_in_close_fails := false, temp_unlink_fails := false }

/-- A file system holding the single file `path` with contents `data`. -/
def one_file (path : String) (data : List UInt8) : FileSystem :=
  put_file (fun _ => none) path data

/-! ## Lock files -/

/-- The bytes that hold a name or a text as a C string.  A name is a `String`
each of whose characters stands for one byte, so that `String.length` is its
`strlen`. -/
def bytes_of (text : String) : List UInt8 :=
  text.data.map (fun c => UInt8.ofNat c.toNat)

/-- The constant `LOCKBUFSIZE`. -/
def LOCKBUFSIZE : Nat := 8192

/-- The memory `mem` after a write through the pointer `&mem[offset]`, where
`write` takes what the region at the pointer holds to what it holds afterwards. -/
def at_offset (mem : List UInt8) (offset : Nat) (write : List UInt8 → List UInt8) :
    List UInt8 :=
  mem.take offset ++ write (mem.drop offset)

/-- The assignment `*dest = c`. -/
def store (c : UInt8) (dest : List UInt8) : List UInt8 :=
  c :: dest.drop 1

/-- The library function `strncpy(dest, src, n)`: the C string at `src`, cut
off after `n` bytes or padded with NULs to `n` bytes, goes to `dest`. -/
def strncpy (src : List UInt8) (n : Nat) (dest : List UInt8) : List UInt8 :=
  let copied := (cstring src).take n
  copied ++ List.replicate (n - copied.length) 0 ++ dest.drop n

/-- The library function `snprintf(dest, size, ...)` for the formatted `text`:
at most `size - 1` of its bytes, and a NUL, go to `dest`. -/
def snprintf (size : Nat) (text : List UInt8) (dest : List UInt8) : List UInt8 :=
  if size = 0 then dest
  else
    let written := (cstring text).take (size - 1) ++ [0]
    written ++ dest.drop written.length

/-- The 1024 bytes that `write_lockfile` builds in `lockdata`, lines 238-251,
for the process `mypid`; `origfilename` is `none` for `NULL`. -/
def lockdata (VERSION pw_name myhostname : List UInt8) (origfilename : Option (List UInt8))
    (mypid : Nat) (modified : Bool) : List UInt8 :=
  let lockdata := List.replicate 1024 (0 : UInt8)
  let lockdata := at_offset lockdata 0 (store 0x62)
  let lockdata := at_offset lockdata 1 (store 0x30)
  let lockdata := at_offset lockdata 24 (store (UInt8.ofNat (mypid % 256)))
  let lockdata := at_offset lockdata 25 (store (UInt8.ofNat ((mypid / 256) % 256)))
  let lockdata := at_offset lockdata 26 (store (UInt8.ofNat ((mypid / (256 * 256)) % 256)))
  let lockdata := at_offset lockdata 27 (store (UInt8.ofNat (mypid / (256 * 256 * 256))))
  let lockdata := at_offset lockdata 2 (snprintf 11 (bytes_of "nano " ++ VERSION))
  let lockdata := at_offset lockdata 28 (strncpy pw_name 16)
  let lockdata := at_offset lockdata 68 (strncpy myhostname 31)
  let lockdata :=
    match origfilename with
    | some origfilename => at_offset lockdata 108 (strncpy origfilename 768)
    | none => lockdata
  let lockdata := if modified = true then at_offset lockdata 1007 (store 0x55) else lockdata
  lockdata

/-- What the machine, the libraries and the user contribute to the locking
functions. -/
structure Locking where
  /-- Whether the build defines `HAVE_PWD_H`. -/
  HAVE_PWD_H : Bool
  /-- The globals `locking_prefix` and `locking_suffix`. -/
  locking_prefix : String
  locking_suffix : String
  /-- The macro `VERSION`. -/
  VERSION : String
  /-- The result of `getpid()`. -/
  mypid : Nat
  /-- The `pw_name` of `getpwuid(geteuid())`; `none` when it returns `NULL`. -/
  pw_name : Option String
  /-- The C string in `myhostname` after `gethostname(myhostname, 31)` and the
  repair on `ENAMETOOLONG`; `none` when the call fails for another reason. -/
  myhostname : Option String
  /-- Whether `dirname` answers `//` for a path with exactly two leading
  slashes and nothing or one component after them, as POSIX allows. -/
  double_slash : Bool
  /-- Whether `unlink` of an existing lock file fails. -/
  lock_unlink_fails : Bool
  /-- Whether the `open` that creates the lock file fails for a hidden reason. -/
  lock_create_fails : Bool
  lock_fdopen_fails : Bool
  lock_room : Nat
  lock_close_fails : Bool
  /-- Whether `open(lockfilename, O_RDONLY)` fails. -/
  lock_open_fails : Bool
  /-- The answer of `do_yesno_prompt`. -/
  choice : Int

/-- What `write_lockfile` and `delete_lockfile` leave behind: the return value,
the file system, the current buffer, and whether an error went to the status
bar. -/
structure LockResult where
  retval : Int
  fs : FileSystem
  openfile : openfilestruct
  reported : Bool

/-- The function `delete_lockfile(lockfilename)`. -/
def delete_lockfile (lk : Locking) (fs : FileSystem) (openfile : openfilestruct)
    (lockfilename : String) : LockResult :=
  if file_present fs lockfilename then
    if lk.lock_unlink_fails then ⟨-1, fs, openfile, true⟩
    else ⟨1, remove_file fs lockfilename, openfile, false⟩
  else ⟨1, fs, openfile, false⟩

/-- The function `write_lockfile(lockfilename, origfilename, modified)`. -/
def write_lockfile (flags : Flags) (lk : Locking) (fs : FileSystem) (openfile : openfilestruct)
    (lockfilename : String) (origfilename : Option String) (modified : Bool) : LockResult :=
  if !lk.HAVE_PWD_H then ⟨1, fs, openfile, false⟩
  else
    match lk.pw_name, lk.myhostname with
    | none, _ => ⟨0, fs, openfile, true⟩
    | some _, none => ⟨0, fs, openfile, true⟩
    | some pw_name, some myhostname =>
      let deleted :=
        if file_present fs lockfilename then delete_lockfile lk fs openfile lockfilename
        else ⟨1, fs, openfile, false⟩
      if deleted.retval < 0 then ⟨0, deleted.fs, openfile, true⟩
      else
        let fs := deleted.fs
        if lk.lock_create_fails || (!flags.INSECURE_BACKUP && file_present fs lockfilename) then
          ⟨0, fs, openfile, true⟩
        else
          let fs := put_file fs lockfilename ((fs lockfilename).getD [])
          if lk.lock_fdopen_fails then ⟨0, fs, openfile, true⟩
          else
            let data := lockdata (bytes_of lk.VERSION) (bytes_of pw_name) (bytes_of myhostname)
              (origfilename.map bytes_of) lk.mypid modified
            let w := fwrite (data.take 1024) ⟨(fs lockfilename).getD [], lk.lock_room⟩
            let fs := put_file fs lockfilename w.2.written
            if w.1 < 1024 then ⟨0, fs, openfile, true⟩
            else if lk.lock_close_fails then ⟨0, fs, openfile, true⟩
            else ⟨1, fs, { openfile with lock_filename := some lockfilename }, false⟩

/-- The library function `dirname` of `<libgen.h>`: strip the trailing slashes,
the last component and the slashes before it; `.` when no directory is named
and `/` when only slashes are left, or `//` for exactly two of them when
`double_slash` says so. -/
def dirname (double_slash : Bool) (path : String) : String :=
  let stripped := path.data.rdropWhile (fun c => c = '/')
  if path = "" then "."
  else if stripped = [] then (if double_slash && path.length = 2 then "//" else "/")
  else
    let upto := stripped.rdropWhile (fun c => c ≠ '/')
    if upto = [] then "."
    else
      let dir := upto.rdropWhile (fun c => c = '/')
      if dir = [] then (if double_slash && upto.length = 2 then "//" else "/")
      else String.mk dir

/-- The library function `basename` of `<libgen.h>`: the last component of the
path without its trailing slashes; `.` for the empty path and `/` for a path
of slashes. -/
def basename (path : String) : String :=
  let stripped := path.data.rdropWhile (fun c => c = '/')
  if path = "" then "."
  else if stripped = [] then "/"
  else String.mk (stripped.rtakeWhile (fun c => c ≠ '/'))

/-- The name that `do_lockfile` builds in `lockfilename`, lines 298-306:
`snprintf` keeps at most `locknamesize - 1` bytes of the formatted text. -/
def lock_file_name (lk : Locking) (filename : String) : String :=
  let locknamesize :=
    filename.length + lk.locking_prefix.length + lk.locking_suffix.length + 3
  String.mk ((dirname lk.double_slash filename ++ "/" ++ lk.locking_prefix ++
    basename filename ++ lk.locking_suffix).data.take (locknamesize - 1))

/-- What `do_lockfile` leaves behind: the return value, the file system, the
current buffer, whether an error went to the status bar, the static buffers
`lockprog` and `lockuser`, and the user, program and PID that the question put
to the user names, if one was put. -/
structure LockOutcome where
  retval : Int
  fs : FileSystem
  openfile : openfilestruct
  reported : Bool
  lockprog : List UInt8
  lockuser : List UInt8
  question : Option (List UInt8 × List UInt8 × Nat)

/-- The function `do_lockfile(filename)`, entered with `lockprog` and
`lockuser` in its static buffers.  The PID in the question is the value of
`(unsigned int)lockpid`. -/
def do_lockfile (flags : Flags) (lk : Locking) (fs : FileSystem) (openfile : openfilestruct)
    (filename : String) (lockprog lockuser : List UInt8) : LockOutcome :=
  let lockfilename := lock_file_name lk filename
  if file_present fs lockfilename then
    if lk.lock_open_fails then ⟨-1, fs, openfile, true, lockprog, lockuser, none⟩
    else
      let lockbuf := ((fs lockfilename).getD []).take LOCKBUFSIZE
      let readtot := lockbuf.length
      if readtot < 48 then ⟨-1, fs, openfile, true, lockprog, lockuser, none⟩
      else
        let lockprog := strncpy (lockbuf.drop 2) 10 lockprog
        let lockpid :=
          (((lockbuf.getD 27 0).toNat * 256 + (lockbuf.getD 26 0).toNat) * 256 +
            (lockbuf.getD 25 0).toNat) * 256 + (lockbuf.getD 24 0).toNat
        let lockuser := strncpy (lockbuf.drop 28) 16 lockuser
        let question := some (cstring lockuser, cstring lockprog, lockpid)
        if lk.choice < 1 then ⟨-1, fs, openfile, false, lockprog, lockuser, question⟩
        else
          let w := write_lockfile flags lk fs openfile lockfilename (some filename) false
          ⟨w.retval, w.fs, w.openfile, w.reported, lockprog, lockuser, question⟩
  else
    let w := write_lockfile flags lk fs openfile lockfilename (some filename) false
    ⟨w.retval, w.fs, w.openfile, w.reported, lockprog, lockuser, none⟩

/-- A machine on which no locking call fails: the prefix `.` and the suffix
`.swp`, user `user` on host `host`, process 4242, room for 2000 bytes. -/
def calm_locking : Locking :=
  { HAVE_PWD_H := true, locking_prefix := ".", locking_suffix := ".swp", VERSION := "4.9",
    mypid := 4242, pw_name := some "user", myhostname := some "host", double_slash := true,
    lock_unlink_fails := false, lock_create_fails := false, lock_fdopen_fails := false,
    lock_room := 2000, lock_close_fails := false, lock_open_fails := false, choice := 1 }

/-! ## The circular list of buffers -/

/-- An `openfilestruct` in memory: its links `prev` and `next`, which hold
addresses, and its other fields. -/
structure Node where
  prev : Nat
  next : Nat
  buffer : openfilestruct
  deriving DecidableEq

/-- The `openfilestruct`s that are allocated, by address (`none`: no live
struct there), and the globals `openfile` and `startfile` (`none` is `NULL`).
An operation on the list returns `none` when it reads through `NULL` or
through the address of a struct that is not live. -/
structure BufferList where
  heap : Nat → Option Node
  openfile : Option Nat
  startfile : Option Nat

/-- The state before the first `make_new_buffer`: nothing allocated, both
globals `NULL`. -/
def no_buffers : BufferList :=
  { heap := fun _ => none, openfile := none, startfile := none }

/-- The heap after a write to the struct at `p` that leaves `node` there. -/
def set_node (heap : Nat → Option Node) (p : Nat) (node : Node) : Nat → Option Node :=
  fun q => if q = p then some node else heap q

/-- The heap after `free(p)`. -/
def free_node (heap : Nat → Option Node) (p : Nat) : Nat → Option Node :=
  fun q => if q = p then none else heap q

/-- The function `make_new_buffer()`, built with `ENABLE_MULTIBUFFER`;
`newnode` is the address that `nmalloc` returns.  The fields set by lines
88-124 are those of `new_buffer`. -/
def make_new_buffer (bl : BufferList) (newnode : Nat) : Option BufferList :=
  match bl.openfile with
  | none =>
    some { heap := set_node bl.heap newnode ⟨newnode, newnode, new_buffer⟩,
           openfile := some newnode, startfile := some newnode }
  | some openfile =>
    match bl.heap openfile with
    | none => none
    | some current =>
      let heap := set_node bl.heap newnode ⟨openfile, current.next, new_buffer⟩
      match heap openfile with
      | none => none
      | some current =>
        match heap current.next with
        | none => none
        | some following =>
          let heap := set_node heap current.next { following with prev := newnode }
          match heap openfile with
          | none => none
          | some current =>
            some { heap := set_node heap openfile { current with next := newnode },
                   openfile := some newnode, startfile := bl.startfile }

/-- The test `openfile == openfile->next` that `redecorate_after_switch` and
`close_buffer` end with and that `open_buffer` makes, negated, before it calls
`close_buffer`: whether more than one buffer is open.  `none` when `openfile`
cannot be read through. -/
def more_than_one (bl : BufferList) : Option Bool :=
  match bl.openfile with
  | none => none
  | some openfile =>
    match bl.heap openfile with
    | none => none
    | some current => some (current.next != openfile)

/-- The function `switch_to_prev_buffer()`; of `redecorate_after_switch` only
the read through the new `openfile` is kept. -/
def switch_to_prev_buffer (bl : BufferList) : Option BufferList :=
  match bl.openfile with
  | none => none
  | some openfile =>
    match bl.heap openfile with
    | none => none
    | some current =>
      match more_than_one { bl with openfile := some current.prev } with
      | none => none
      | some _ => some { bl with openfile := some current.prev }

/-- The function `switch_to_next_buffer()`. -/
def switch_to_next_buffer (bl : BufferList) : Option BufferList :=
  match bl.openfile with
  | none => none
  | some openfile =>
    match bl.heap openfile with
    | none => none
    | some current =>
      match more_than_one { bl with openfile := some current.next } with
      | none => none
      | some _ => some { bl with openfile := some current.next }

/-- The function `close_buffer()`. -/
def close_buffer (bl : BufferList) : Option BufferList :=
  match bl.openfile with
  | none => none
  | some orphan =>
    match bl.heap orphan with
    | none => none
    | some node =>
      let startfile := if bl.startfile = some orphan then some node.next else bl.startfile
      match bl.heap node.prev with
      | none => none
      | some before =>
        let heap := set_node bl.heap node.prev { before with next := node.next }
        match heap orphan with
        | none => none
        | some node =>
          match heap node.next with
          | none => none
          | some after =>
            let heap := set_node heap node.next { after with prev := node.prev }
            match heap orphan with
            | none => none
            | some node =>
              let closed : BufferList :=
                { heap := free_node heap orphan, openfile := some node.prev,
                  startfile := startfile }
              match more_than_one closed with
              | none => none
              | some _ => some closed

/-! ## `open_buffer` -/

/-- The macros `S_ISDIR`, `S_ISCHR`, `S_ISBLK` and `S_ISFIFO` of
`<sys/stat.h>`: the file type is the four bits `S_IFMT` of `st_mode`. -/
def S_ISDIR (st_mode : Nat) : Bool := st_mode / 4096 % 16 == 4

def S_ISCHR (st_mode : Nat) : Bool := st_mode / 4096 % 16 == 2

def S_ISBLK (st_mode : Nat) : Bool := st_mode / 4096 % 16 == 6

def S_ISFIFO (st_mode : Nat) : Bool := st_mode / 4096 % 16 == 1

/-- What the machine contributes to one call of `open_buffer`, besides the
contents of the files. -/
structure Opening where
  /-- What `stat(path, &st)` fills in; `none` when it returns -1. -/
  stat : String → Option Stat
  /-- Whether `access(path, X_OK)` and `access(path, W_OK)` return 0. -/
  access_x_ok : String → Bool
  access_w_ok : String → Bool
  /-- Whether `open(full_filename, O_RDONLY)` fails for a reason the file
  system does not show, such as missing permission. -/
  open_fails : Bool
  /-- The descriptor that a successful `open` returns. -/
  fd : Nat
  fdopen_fails : Bool
  /-- The moment of a Ctrl-C while `read_file` runs (see `read_loop`). -/
  interrupt : Option Nat

/-- The function `has_valid_path(filename)`. -/
def has_valid_path (flags : Flags) (lk : Locking) (op : Opening) (filename : String) : Bool :=
  let parentdir := dirname lk.double_slash filename
  match op.stat parentdir with
  | none => false
  | some parentinfo =>
    if !S_ISDIR parentinfo.st_mode then false
    else if !op.access_x_ok parentdir then false
    else if flags.LOCKING && !op.access_w_ok parentdir then false
    else true

/-- Lines 928-935 of `open_file`: the name it opens. -/
def full_filename (sys : System) (op : Opening) (filename : String) : String :=
  match sys.get_full_path filename with
  | none => filename
  | some full =>
    if (op.stat full).isNone && (op.stat filename).isSome then filename else full

/-- The function `open_file(filename, newfie, &f)`, built without
`NANO_TINY`: the value it returns and the bytes that the stream `*f` will
deliver.  A FIFO only gets the message of line 950. -/
def open_file (sys : System) (op : Opening) (fs : FileSystem) (filename : String)
    (newfie : Bool) : Int × List UInt8 :=
  let full_filename := full_filename sys op filename
  match op.stat full_filename with
  | none => if newfie then (-2, []) else (-1, [])
  | some _ =>
    match (if op.open_fails then none else fs full_filename) with
    | none => (-1, [])
    | some data => if op.fdopen_fails then (-1, []) else ((op.fd : Int), data)

/-- A write through `openfile` to the fields of the current buffer; `none`
when `openfile` does not point to a live struct. -/
def edit_current (bl : BufferList) (change : openfilestruct → openfilestruct) :
    Option BufferList :=
  match bl.openfile with
  | none => none
  | some openfile =>
    match bl.heap openfile with
    | none => none
    | some node =>
      some { bl with
        heap := set_node bl.heap openfile { node with buffer := change node.buffer } }

/-- The fields of the current buffer; `none` when `openfile` does not point to
a live struct. -/
def current_buffer (bl : BufferList) : Option openfilestruct :=
  match bl.openfile with
  | none => none
  | some openfile => (bl.heap openfile).map Node.buffer

/-- What a call of `open_buffer` leaves behind: the value it returns, the list
of buffers, the file system, and the outcomes of its calls of `do_lockfile`
and `read_file`, `none` when it did not make the call. -/
structure OpenOutcome where
  retval : Bool
  bl : BufferList
  fs : FileSystem
  locked : Option LockOutcome
  read : Option ReadOutcome

/-- Lines 477-501 of `open_buffer`: opening and reading the file and naming
the buffer. -/
def open_and_read (flags : Flags) (sys : System) (op : Opening) (fs : FileSystem)
    (bl : BufferList) (locked : Option LockOutcome) (filename realname : String)
    (new_buffer : Bool) : Option OpenOutcome :=
  let opened :=
    if filename ≠ "" && !flags.NOREAD_MODE then open_file sys op fs realname new_buffer
    else (-2, [])
  let rc := opened.1
  let loaded : Option (BufferList × Option ReadOutcome) :=
    if rc > 0 then
      match current_buffer bl with
      | none => none
      | some openfile =>
        let r := read_file flags opened.2 op.interrupt rc (!new_buffer)
          (op.access_w_ok realname) openfile
        let current_stat :=
          if r.openfile.current_stat = none then op.stat realname
          else r.openfile.current_stat
        (edit_current bl (fun _ => { r.openfile with current_stat := current_stat })).map
          (fun bl => (bl, some r))
    else some (bl, none)
  match loaded with
  | none => none
  | some (bl, read) =>
    if rc ≠ -1 && new_buffer then
      (edit_current bl
        (fun openfile => { openfile with filename := realname, current := 0, current_x := 0 })).map
        (fun bl => ⟨true, bl, fs, locked, read⟩)
    else some ⟨true, bl, fs, locked, read⟩

/-- The function `open_buffer(filename, new_buffer)`, built with
`ENABLE_OPERATINGDIR` and `ENABLE_MULTIBUFFER` and without `NANO_TINY`, so
without lines 443-449.  `newnode` is the address that `nmalloc` returns in
`make_new_buffer`; `lockprog` and `lockuser` are the static buffers of
`do_lockfile`.  The result is `none` when the call reads through `NULL` or
through the address of a struct that is not live. -/
def open_buffer (flags : Flags) (sys : System) (lk : Locking) (op : Opening)
    (fs : FileSystem) (bl : BufferList) (newnode : Nat) (lockprog lockuser : List UInt8)
    (filename : String) (new_buffer : Bool) : Option OpenOutcome :=
  if outside_of_confinement sys filename false then some ⟨false, bl, fs, none, none⟩
  else
    let realname := real_dir_from_tilde sys filename
    let fileinfo := if filename ≠ "" then op.stat realname else none
    if (fileinfo.map (fun fileinfo => S_ISDIR fileinfo.st_mode)).getD false then
      some ⟨false, bl, fs, none, none⟩
    else if (fileinfo.map
        (fun fileinfo => S_ISCHR fileinfo.st_mode || S_ISBLK fileinfo.st_mode)).getD false then
      some ⟨false, bl, fs, none, none⟩
    else if new_buffer then
      match make_new_buffer bl newnode with
      | none => none
      | some bl =>
        if has_valid_path flags lk op realname && flags.LOCKING && filename ≠ "" then
          match current_buffer bl with
          | none => none
          | some openfile =>
            let l := do_lockfile flags lk fs openfile realname lockprog lockuser
            match edit_current bl (fun _ => l.openfile) with
            | none => none
            | some bl =>
              if l.retval < 0 then
                match more_than_one bl with
                | none => none
                | some true =>
                  (close_buffer bl).map (fun bl => ⟨false, bl, l.fs, some l, none⟩)
                | some false => some ⟨false, bl, l.fs, some l, none⟩
              else open_and_read flags sys op l.fs bl (some l) filename realname new_buffer
        else open_and_read flags sys op fs bl none filename realname new_buffer
    else open_and_read flags sys op fs bl none filename realname new_buffer

/-! ## The vocabulary of the specification -/

/-- The line terminator "implied by the buffer's recorded format": `\r\n` for
DOS, `\r` for Mac, `\n` otherwise. -/
def terminator : format_type → List UInt8
  | format_type.DOS_FILE => [13, 10]
  | format_type.MAC_FILE => [13]
  | format_type.NIX_FILE => [10]

/-- A stored line with every NUL sentinel (an LF) turned back into a NUL. -/
def decode_nul (line : List UInt8) : List UInt8 :=
  line.map (fun c => if c = 10 then 0 else c)

/-- The bytes of `lines` with the terminator `T` between consecutive lines and
none after the last: `l1 T l2 T ... ln`. -/
def serialise (T : List UInt8) (lines : List (List UInt8)) : List UInt8 :=
  List.intercalate T (lines.map decode_nul)



/-- Text in which `'\r'` and `'\n'` occur only paired as `"\r\n"`. -/
inductive DosText : List UInt8 → Prop
  | nil : DosText []
  | crlf {t : List UInt8} : DosText t → DosText (13 :: 10 :: t)
  | byte {c : UInt8} {t : List UInt8} : c ≠ 10 → c ≠ 13 → DosText t → DosText (c :: t)

/-- The text with each `"\r\n"` and each remaining `'\r'` replaced by `'\n'`. -/
def to_unix : List UInt8 → List UInt8
  | [] => []
  | [c] => if c = 13 then [10] else [c]
  | c :: d :: rest =>
    if c = 13 then
      if d = 10 then 10 :: to_unix rest else 10 :: to_unix (d :: rest)
    else c :: to_unix (d :: rest)

/-- The bookkeeping of a save: the outcome `r` of writing the buffer `before`
under the name `realname` has cleared the modified flag and taken the name when
it succeeded as a full save, and has left both alone otherwise. -/
def save_bookkeeping (before : openfilestruct) (realname : String) (full_save : Prop)
    (r : WriteResult) : Prop :=
  (r.retval = true ∧ full_save →
    r.openfile.modified = false ∧ r.openfile.filename = realname) ∧
  (¬ (r.retval = true ∧ full_save) →
    r.openfile.modified = before.modified ∧ r.openfile.filename = before.filename)

/-- The `k`-th name that `get_next_filename` tries for `whole = name + suffix`:
`whole` itself, then `whole.1`, `whole.2`, and so on. -/
def candidate (whole : String) (k : Nat) : String :=
  if k = 0 then whole else whole ++ "." ++ toString k

/-- The file system and the buffer after `n` successive full saves of the buffer
under `name`, each one the call
`write_file(name, NULL, FALSE, OVERWRITE, TRUE)`. -/
def successive_writes (flags : Flags) (sys : System) (name : String) :
    Nat → FileSystem × openfilestruct → FileSystem × openfilestruct
  | 0, start => start
  | n + 1, start =>
    let before := successive_writes flags sys name n start
    let r := write_file flags sys before.1 before.2 name none false
      kind_of_writing_type.OVERWRITE true
    (r.fs, r.openfile)

/-- The lock record as the specification lays it out, byte by byte: the magic
`0x62 0x30`, at most 10 bytes of the program name from offset 2, the PID in
little-endian order in bytes 24-27, at most 16 bytes of the user name from
offset 28, at most 31 bytes of the host name from offset 68, at most 768 bytes
of the path from offset 108, the marker `0x55` at offset 1007 when the file is
modified, and zero everywhere else. -/
def lock_layout (program user host path : List UInt8) (pid : Nat) (modified : Bool)
    (i : Nat) : UInt8 :=
  if i = 0 then 0x62
  else if i = 1 then 0x30
  else if 2 ≤ i ∧ i < 12 then (program.take 10).getD (i - 2) 0
  else if 24 ≤ i ∧ i < 28 then UInt8.ofNat (pid / 256 ^ (i - 24) % 256)
  else if 28 ≤ i ∧ i < 44 then (user.take 16).getD (i - 28) 0
  else if 68 ≤ i ∧ i < 99 then (host.take 31).getD (i - 68) 0
  else if 108 ≤ i ∧ i < 876 then (path.take 768).getD (i - 108) 0
  else if i = 1007 then (if modified = true then 0x55 else 0)
  else 0

/-- The static buffers `lockprog` and `lockuser` of `do_lockfile` after it has
decoded the lock buffers of `history` one after the other, starting from the
zeros that static storage holds at first. -/
def statics_after (history : List (List UInt8)) : List UInt8 × List UInt8 :=
  history.foldl
    (fun statics lockbuf =>
      (strncpy (lockbuf.drop 2) 10 statics.1, strncpy (lockbuf.drop 28) 16 statics.2))
    (List.replicate 11 0, List.replicate 17 0)

/-- The structs at `x` and `y` are neighbours: `x->next` is `y` and `y->prev`
is `x`. -/
def Link (heap : Nat → Option Node) (x y : Nat) : Prop :=
  ∃ nx ny, heap x = some nx ∧ heap y = some ny ∧ nx.next = y ∧ ny.prev = x

/-- The buffers form a circular list: the live structs are those at the
pairwise different addresses `current :: rest`, each one the neighbour of the
one after it and the last one the neighbour of `current`; `openfile` points to
`current` and `startfile` to one of them. -/
def Ring (bl : BufferList) (current : Nat) (rest : List Nat) : Prop :=
  (current :: rest).Nodup ∧ bl.openfile = some current ∧
  (∃ first ∈ current :: rest, bl.startfile = some first) ∧
  (∀ b, (bl.heap b).isSome = true ↔ b ∈ current :: rest) ∧
  List.Chain (Link bl.heap) current (rest ++ [current])

/-- The address reached from `p` by following `next` `k` times. -/
def follow (heap : Nat → Option Node) : Nat → Nat → Option Nat
  | 0, p => some p
  | k + 1, p =>
    match heap p with
    | none => none
    | some node => follow heap k node.next

/-- A call of one of the four functions that change the list of buffers;
`make` carries the address that `nmalloc` returns. -/
inductive BufferOp where
  | make (newnode : Nat)
  | next
  | prev
  | close
  deriving DecidableEq

/-- The list of buffers after the call `op`. -/
def step (bl : BufferList) : BufferOp → Option BufferList
  | BufferOp.make newnode => make_new_buffer bl newnode
  | BufferOp.next => switch_to_next_buffer bl
  | BufferOp.prev => switch_to_prev_buffer bl
  | BufferOp.close => close_buffer bl

/-- The list of buffers after the calls `ops`, one after the other. -/
def run : BufferList → List BufferOp → Option BufferList
  | bl, [] => some bl
  | bl, op :: ops =>
    match step bl op with
    | none => none
    | some after => run after ops

/-- Whether the call `op` may be made in the state `bl`: `nmalloc` returns an
address at which no struct is live, a switch needs an open buffer, and
`close_buffer` is called only when more than one buffer is open. -/
def allowed (bl : BufferList) : BufferOp → Bool
  | BufferOp.make newnode => (bl.heap newnode).isNone
  | BufferOp.next => bl.openfile.isSome
  | BufferOp.prev => bl.openfile.isSome
  | BufferOp.close => more_than_one bl == some true

/-- Whether each call of `ops` may be made in the state in which it is made. -/
def admissible : BufferList → List BufferOp → Bool
  | _, [] => true
  | bl, op :: ops =>
    allowed bl op &&
      match step bl op with
      | none => true
      | some after => admissible after ops

/-- The number of calls of `make_new_buffer` among `ops`. -/
def makes : List BufferOp → Nat
  | [] => 0
  | BufferOp.make _ :: ops => makes ops + 1
  | _ :: ops => makes ops

/-- The number of calls of `close_buffer` among `ops`. -/
def closes : List BufferOp → Nat
  | [] => 0
  | BufferOp.close :: ops => closes ops + 1
  | _ :: ops => closes ops

/-- The buffers of `bl` are those at `members`, in this cyclic order, the
first one current: no buffer and `openfile` `NULL` when `members` is empty, a
ring otherwise. -/
def Listed (bl : BufferList) : List Nat → Prop
  | [] => bl.openfile = none ∧ ∀ b, bl.heap b = none
  | current :: rest => Ring bl current rest

/-- Three open buffers `a`, `b`, `c` at the addresses 1, 2, 3, in this order;
the first is current and `startfile`. -/
def three_buffers : BufferList :=
  { heap := fun q =>
      if q = 1 then some ⟨3, 2, { new_buffer with filename := "a" }⟩
      else if q = 2 then some ⟨1, 3, { new_buffer with filename := "b" }⟩
      else if q = 3 then some ⟨2, 1, { new_buffer with filename := "c" }⟩
      else none,
    openfile := some 1, startfile := some 1 }

/-- A machine on which `path` is found with the mode `st_mode`, `/` is a
directory and nothing else exists; every `access` is granted, `open` and
`fdopen` succeed with descriptor 3, and no Ctrl-C comes. -/
def one_path (path : String) (st_mode : Nat) : Opening :=
  { stat := fun name =>
      if name = path then some { st_mode := st_mode }
      else if name = "/" then some { st_mode := 16877 }
      else none,
    access_x_ok := fun _ => true, access_w_ok := fun _ => true,
    open_fails := false, fd := 3, fdopen_fails := false, interrupt := none }

/-- The text with each `'\r'` that stands directly before a `'\n'` left out. -/
def without_cr_before_lf : List UInt8 → List UInt8
  | [] => []
  | [c] => [c]
  | c :: d :: rest =>
    if c = 13 ∧ d = 10 then 10 :: without_cr_before_lf rest
    else c :: without_cr_before_lf (d :: rest)

/-! ## Facts about the sentinel encoding -/

theorem cstring_of_no_nul {l : List UInt8} (h : (0 : UInt8) ∉ l) : cstring l = l := by
  unfold cstring
  rw [List.takeWhile_eq_self_iff]
  intro x hx
  have : x ≠ 0 := fun e => h (e ▸ hx)
  simpa using this

theorem cstring_append_nul {l : List UInt8} (m : List UInt8) (h : (0 : UInt8) ∉ l) :
    cstring (l ++ 0 :: m) = l := by
  unfold cstring
  rw [List.takeWhile_append_of_pos]
  · simp
  · intro x hx
    have : x ≠ 0 := fun e => h (e ▸ hx)
    simpa using this

theorem strlen_of_no_nul {l : List UInt8} (h : (0 : UInt8) ∉ l) : strlen l = l.length := by
  unfold strlen
  rw [cstring_of_no_nul h]

theorem unsunder_length (l : List UInt8) :
    unsunder l l.length = l.map (fun c => if c = 0 then 10 else c) := by
  induction l with
  | nil => rfl
  | cons c rest ih => simp [unsunder, ih]

theorem encode_data_eq (buf : List UInt8) :
    encode_data buf buf.length = buf.map (fun c => if c = 0 then 10 else c) := by
  unfold encode_data
  rw [unsunder_length]
  have hlen : (buf.map (fun c => if c = 0 then (10 : UInt8) else c)).length = buf.length := by simp
  rw [← hlen, List.take_length]
  apply cstring_append_nul
  intro h
  rcases List.mem_map.1 h with ⟨a, -, ha⟩
  by_cases h0 : a = 0 <;> simp [h0] at ha

theorem encode_data_no_nul (buf : List UInt8) : (0 : UInt8) ∉ encode_data buf buf.length := by
  rw [encode_data_eq]
  intro h
  rcases List.mem_map.1 h with ⟨a, -, ha⟩
  by_cases h0 : a = 0 <;> simp [h0] at ha

theorem sunder_of_no_nul {l : List UInt8} (h : (0 : UInt8) ∉ l) : sunder l = decode_nul l := by
  induction l with
  | nil => rfl
  | cons c rest ih =>
    have hc : c ≠ 0 := fun e => h (by simp [e])
    have hr : (0 : UInt8) ∉ rest := fun e => h (by simp [e])
    simp [sunder, hc, ih hr, decode_nul]

theorem decode_nul_length (l : List UInt8) : (decode_nul l).length = l.length := by
  simp [decode_nul]

theorem unsunder_decode_nul {l : List UInt8} (h : (0 : UInt8) ∉ l) :
    unsunder (decode_nul l) l.length = l := by
  induction l with
  | nil => rfl
  | cons c rest ih =>
    have hc : c ≠ 0 := fun e => h (by simp [e])
    have hr : (0 : UInt8) ∉ rest := fun e => h (by simp [e])
    have ih := ih hr
    simp only [decode_nul] at ih ⊢
    by_cases h10 : c = 10
    · simp [unsunder, h10, ih]
    · simp [unsunder, h10, hc, ih]

theorem decode_encode {buf : List UInt8} (h : (10 : UInt8) ∉ buf) :
    decode_nul (encode_data buf buf.length) = buf := by
  rw [encode_data_eq]
  induction buf with
  | nil => rfl
  | cons c rest ih =>
    have hc : c ≠ 10 := fun e => h (by simp [e])
    have hr : (10 : UInt8) ∉ rest := fun e => h (by simp [e])
    have ih := ih hr
    simp only [decode_nul] at ih ⊢
    by_cases h0 : c = 0
    · simp [h0, ih]
    · simp [h0, hc, ih]

/-! ## Facts about the line loop of `write_file` -/

theorem fwrite_fits (data : List UInt8) (f : OutStream) (h : data.length ≤ f.room) :
    fwrite data f = (data.length, ⟨f.written ++ data, f.room - data.length⟩) := by
  simp [fwrite, Nat.min_eq_left h]

theorem putc_fits (c : UInt8) (w : List UInt8) (r : Nat) (h : 0 < r) :
    putc c ⟨w, r⟩ = (true, ⟨w ++ [c], r - 1⟩) := by
  have : r ≠ 0 := by omega
  simp [putc, this]

theorem serialise_single (T : List UInt8) (l : List UInt8) :
    serialise T [l] = decode_nul l := by
  simp [serialise, List.intercalate, List.intersperse]

theorem serialise_cons_cons (T : List UInt8) (l l2 : List UInt8) (rest : List (List UInt8)) :
    serialise T (l :: l2 :: rest) = decode_nul l ++ T ++ serialise T (l2 :: rest) := by
  simp [serialise, List.intercalate, List.intersperse]

theorem serialise_concat (T : List UInt8) (ls : List (List UInt8)) (l : List UInt8) :
    serialise T (ls ++ [l]) = (ls.map (fun x => decode_nul x ++ T)).flatten ++ decode_nul l := by
  induction ls with
  | nil => simp [serialise_single]
  | cons a rest ih =>
    cases rest with
    | nil => simp [serialise_cons_cons, serialise_single]
    | cons b more =>
      have := serialise_cons_cons T a b (more ++ [l])
      simp only [List.cons_append] at this ih ⊢
      rw [this, ih]
      simp

theorem write_lines_last (fmt : format_type) (data : List UInt8) (f : OutStream) (lw : Nat)
    (h0 : (0 : UInt8) ∉ data) (hfit : data.length ≤ f.room) :
    write_lines fmt [data] f lw =
      { lines := [data],
        f := ⟨f.written ++ decode_nul data, f.room - data.length⟩,
        lineswritten :=
          ((if data = [] then (lw + (2 ^ 64 - 1)) % 2 ^ 64 else lw) + 1) % 2 ^ 64,
        failed := false } := by
  have hlen : (decode_nul data).length = data.length := decode_nul_length data
  have hfit2 : (decode_nul data).length ≤ f.room := by omega
  have hhead : (data.headD 0 = 0) ↔ data = [] := by
    cases data with
    | nil => simp
    | cons c rest =>
      have hc : c ≠ 0 := fun e => h0 (by simp [e])
      simp [hc]
  rw [write_lines]
  simp only [strlen_of_no_nul h0, sunder_of_no_nul h0, ← hlen, List.take_length,
    fwrite_fits _ _ hfit2]
  simp only [hlen, unsunder_decode_nul h0, lt_irrefl, if_false, if_true, hhead]
  by_cases he : data = []
  · simp [he, write_lines, decode_nul]
  · simp [he, write_lines]

theorem write_lines_more (fmt : format_type) (data : List UInt8) (rest : List (List UInt8))
    (f : OutStream) (lw : Nat) (hrest : rest ≠ [])
    (h0 : (0 : UInt8) ∉ data) (hfit : data.length + (terminator fmt).length ≤ f.room) :
    write_lines fmt (data :: rest) f lw =
      { write_lines fmt rest
          ⟨f.written ++ decode_nul data ++ terminator fmt,
            f.room - data.length - (terminator fmt).length⟩ ((lw + 1) % 2 ^ 64) with
        lines := data :: (write_lines fmt rest
          ⟨f.written ++ decode_nul data ++ terminator fmt,
            f.room - data.length - (terminator fmt).length⟩ ((lw + 1) % 2 ^ 64)).lines } := by
  have hlen : (decode_nul data).length = data.length := decode_nul_length data
  have hfit2 : (decode_nul data).length ≤ f.room := by omega
  rw [write_lines]
  simp only [strlen_of_no_nul h0, sunder_of_no_nul h0, ← hlen, List.take_length,
    fwrite_fits _ _ hfit2]
  simp only [hlen, unsunder_decode_nul h0, lt_irrefl, if_false, hrest]
  cases fmt with
  | NIX_FILE =>
    have h1 : 0 < f.room - data.length := by simp [terminator] at hfit; omega
    simp [putc_fits _ _ _ h1, terminator, Nat.sub_sub]
  | DOS_FILE =>
    have h1 : 0 < f.room - data.length := by simp [terminator] at hfit; omega
    have h2 : 0 < f.room - (data.length + 1) := by simp [terminator] at hfit; omega
    simp [putc_fits _ _ _ h1, putc_fits _ _ _ h2, terminator, Nat.sub_sub]
  | MAC_FILE =>
    have h1 : 0 < f.room - data.length := by simp [terminator] at hfit; omega
    simp [putc_fits _ _ _ h1, terminator, Nat.sub_sub]


theorem serialise_length_cons (T : List UInt8) (l l2 : List UInt8) (rest : List (List UInt8)) :
    (serialise T (l :: l2 :: rest)).length
      = l.length + T.length + (serialise T (l2 :: rest)).length := by
  rw [serialise_cons_cons]
  simp [decode_nul_length, Nat.add_assoc]

/-- The line loop on NUL-free lines that fit into the stream: it does not fail,
appends the serialisation, leaves the lines as they were and counts them. -/
theorem write_lines_emits (fmt : format_type) (lines : List (List UInt8)) :
    ∀ (f : OutStream) (lw : Nat), (∀ l ∈ lines, (0 : UInt8) ∉ l) →
      (serialise (terminator fmt) lines).length ≤ f.room →
      (write_lines fmt lines f lw).failed = false ∧
      (write_lines fmt lines f lw).f.written = f.written ++ serialise (terminator fmt) lines ∧
      (write_lines fmt lines f lw).lines = lines ∧
      (lines ≠ [] → (write_lines fmt lines f lw).lineswritten =
        (lw + lines.length + (if lines.getLast? = some [] then 2 ^ 64 - 1 else 0)) % 2 ^ 64) := by
  induction lines with
  | nil =>
    intro f lw _ _
    simp [write_lines, serialise, List.intercalate]
  | cons data rest ih =>
    intro f lw h0 hroom
    have hd : (0 : UInt8) ∉ data := h0 data (by simp)
    have hr : ∀ l ∈ rest, (0 : UInt8) ∉ l := fun l hl => h0 l (by simp [hl])
    cases rest with
    | nil =>
      rw [serialise_single, decode_nul_length] at hroom
      rw [write_lines_last fmt data f lw hd hroom, serialise_single]
      refine ⟨rfl, rfl, rfl, fun _ => ?_⟩
      by_cases he : data = []
      · subst he
        simp only [List.getLast?_singleton, if_true, List.length_singleton]
        omega
      · have hne : ¬ (some data = some ([] : List UInt8)) := by simpa using he
        simp only [List.getLast?_singleton, if_neg he, if_neg hne, List.length_singleton]
    | cons l2 more =>
      rw [serialise_length_cons] at hroom
      have hfit : data.length + (terminator fmt).length ≤ f.room := by omega
      rw [write_lines_more fmt data (l2 :: more) f lw (by simp) hd hfit]
      have hroom2 : (serialise (terminator fmt) (l2 :: more)).length
          ≤ f.room - data.length - (terminator fmt).length := by omega
      obtain ⟨i1, i2, i3, i4⟩ := ih ⟨f.written ++ decode_nul data ++ terminator fmt,
        f.room - data.length - (terminator fmt).length⟩ ((lw + 1) % 2 ^ 64) hr hroom2
      refine ⟨i1, ?_, ?_, fun _ => ?_⟩
      · simp only [i2, serialise_cons_cons]
        simp
      · simp only [i3]
      · simp only [i4 (by simp)]
        simp only [List.getLast?_cons_cons, List.length_cons]
        omega


theorem unsunder_sunder {data : List UInt8} (h0 : (0 : UInt8) ∉ data) :
    unsunder (sunder data) (strlen data) = data := by
  rw [strlen_of_no_nul h0, sunder_of_no_nul h0, unsunder_decode_nul h0]

/-- The line loop restores every line it has decoded, however it ends. -/
theorem write_lines_restores (fmt : format_type) (lines : List (List UInt8)) :
    ∀ (f : OutStream) (lw : Nat), (∀ l ∈ lines, (0 : UInt8) ∉ l) →
      (write_lines fmt lines f lw).lines = lines := by
  induction lines with
  | nil =>
    intro f lw _
    simp [write_lines]
  | cons data rest ih =>
    intro f lw h0
    have hd : (0 : UInt8) ∉ data := h0 data (by simp)
    have hr : ∀ l ∈ rest, (0 : UInt8) ∉ l := fun l hl => h0 l (by simp [hl])
    rw [write_lines]
    simp only [unsunder_sunder hd]
    split_ifs <;> simp only [ih _ _ hr]


/-! ## Facts about the byte loop of `read_file` -/

theorem read_loop_none (nc : Bool) (f : List UInt8) :
    ∀ (i : Nat) (s : ReadLoop), read_loop nc none f i s = f.foldl (read_byte nc) s := by
  induction f with
  | nil => intro i s; rfl
  | cons c rest ih =>
    intro i s
    simp [read_loop, ih]

theorem ends_in_cr_of_not_mem {buf : List UInt8} (h : (13 : UInt8) ∉ buf) :
    ends_in_cr buf = false := by
  unfold ends_in_cr
  rcases List.eq_nil_or_concat buf with rfl | ⟨l, b, rfl⟩
  · rfl
  · have hb : b ≠ 13 := fun e => h (by simp [e])
    simp [hb]

theorem ends_in_cr_concat (l : List UInt8) (b : UInt8) :
    ends_in_cr (l ++ [b]) = (b == 13) := by
  unfold ends_in_cr
  simp

/-- The bytes that the completed lines `stored` stand for when each is followed
by the terminator `T`. -/
theorem serialise_stored (T : List UInt8) (stored : List (List UInt8)) (buf : List UInt8)
    (h : (10 : UInt8) ∉ buf) :
    serialise T (stored ++ [encode_data buf buf.length])
      = (stored.map (fun x => decode_nul x ++ T)).flatten ++ buf := by
  rw [serialise_concat, decode_encode h]

theorem serialise_stored_nil (T : List UInt8) (stored : List (List UInt8)) :
    serialise T (stored ++ [[]]) = (stored.map (fun x => decode_nul x ++ T)).flatten := by
  rw [serialise_concat]
  simp [decode_nul]

/-- Reading a stream without `'\r'`: the format stays Unix and the lines joined
by `'\n'` are the bytes read. -/
theorem read_unix_inv (nc : Bool) (rest : List UInt8) :
    ∀ s : ReadLoop, (13 : UInt8) ∉ rest → (13 : UInt8) ∉ s.buf → (10 : UInt8) ∉ s.buf →
      s.format = 0 →
      (read_finish nc (rest.foldl (read_byte nc) s)).format = 0 ∧
      serialise [10] (read_finish nc (rest.foldl (read_byte nc) s)).stored
        = (s.stored.map (fun x => decode_nul x ++ [10])).flatten ++ s.buf ++ rest := by
  induction rest with
  | nil =>
    intro s _ h13 h10 hf
    have hcr := ends_in_cr_of_not_mem h13
    simp only [List.foldl_nil, read_finish, hcr, Bool.false_and]
    by_cases hb : s.buf.length = 0
    · have hnil : s.buf = [] := List.length_eq_zero.1 hb
      simp [hb, hf, serialise_stored_nil, hnil]
    · simp [hb, hf, serialise_stored _ _ _ h10]
  | cons c rest ih =>
    intro s hrest h13 h10 hf
    have hc : c ≠ 13 := fun e => hrest (by simp [e])
    have hr : (13 : UInt8) ∉ rest := fun e => hrest (by simp [e])
    have hcr := ends_in_cr_of_not_mem h13
    simp only [List.foldl_cons]
    by_cases h : c = 10
    · subst h
      have hs : read_byte nc s 10 =
          { stored := s.stored ++ [encode_data s.buf s.buf.length], buf := [],
            num_lines := s.num_lines + 1, format := s.format } := by
        simp [read_byte, store_line, hcr]
      rw [hs]
      obtain ⟨i1, i2⟩ := ih
        { stored := s.stored ++ [encode_data s.buf s.buf.length], buf := [],
          num_lines := s.num_lines + 1, format := s.format }
        hr (List.not_mem_nil _) (List.not_mem_nil _) hf
      refine ⟨i1, ?_⟩
      rw [i2]
      simp [decode_encode h10]
    · have hs : read_byte nc s c = { s with buf := s.buf ++ [c] } := by
        simp [read_byte, h, hcr]
      rw [hs]
      obtain ⟨i1, i2⟩ := ih { s with buf := s.buf ++ [c] } hr
        (by simp [h13, Ne.symm hc]) (by simp [h10, Ne.symm h]) hf
      refine ⟨i1, ?_⟩
      rw [i2]
      simp


theorem store_line_stored (nc : Bool) (c : UInt8) (s : ReadLoop) :
    ∃ b : List UInt8, (store_line nc c s).stored = s.stored ++ [encode_data b b.length] := by
  unfold store_line
  exact ⟨_, rfl⟩

theorem read_byte_stored (nc : Bool) (s : ReadLoop) (c : UInt8) :
    (read_byte nc s c).stored = s.stored ∨
      ∃ b : List UInt8, (read_byte nc s c).stored = s.stored ++ [encode_data b b.length] := by
  simp only [read_byte]
  by_cases h1 : c = 10
  · rw [if_pos h1]
    exact Or.inr (store_line_stored nc c _)
  · rw [if_neg h1]
    by_cases h2 : ((s.num_lines == 0 || s.format != 0) && !nc && ends_in_cr s.buf) = true
    · rw [if_pos h2]
      exact Or.inr (store_line_stored nc c _)
    · rw [if_neg h2]
      exact Or.inl rfl

theorem read_byte_no_nul (nc : Bool) (s : ReadLoop) (c : UInt8)
    (h : ∀ l ∈ s.stored, (0 : UInt8) ∉ l) : ∀ l ∈ (read_byte nc s c).stored, (0 : UInt8) ∉ l := by
  rcases read_byte_stored nc s c with e | ⟨b, e⟩
  · rw [e]; exact h
  · rw [e]
    intro l hl
    rcases List.mem_append.1 hl with h1 | h1
    · exact h l h1
    · rw [List.mem_singleton.1 h1]
      exact encode_data_no_nul b

theorem read_finish_stored (nc : Bool) (s : ReadLoop) :
    (read_finish nc s).stored = s.stored ++ [[]] ∨
      ∃ b : List UInt8, (read_finish nc s).stored = s.stored ++ [encode_data b b.length] ∨
        (read_finish nc s).stored = s.stored ++ [encode_data b b.length] ++ [[]] := by
  simp only [read_finish]
  by_cases h1 : s.buf.length = 0
  · rw [if_pos h1]
    exact Or.inl rfl
  · rw [if_neg h1]
    by_cases h2 : (ends_in_cr s.buf && !nc) = true
    · rw [if_pos h2]
      exact Or.inr ⟨_, Or.inr rfl⟩
    · rw [if_neg h2]
      exact Or.inr ⟨_, Or.inl rfl⟩

theorem read_finish_no_nul (nc : Bool) (s : ReadLoop)
    (h : ∀ l ∈ s.stored, (0 : UInt8) ∉ l) : ∀ l ∈ (read_finish nc s).stored, (0 : UInt8) ∉ l := by
  intro l hl
  rcases read_finish_stored nc s with e | ⟨b, e | e⟩ <;> rw [e] at hl
  · rcases List.mem_append.1 hl with h1 | h1
    · exact h l h1
    · rw [List.mem_singleton.1 h1]; simp
  · rcases List.mem_append.1 hl with h1 | h1
    · exact h l h1
    · rw [List.mem_singleton.1 h1]
      exact encode_data_no_nul _
  · rcases List.mem_append.1 hl with h1 | h1
    · rcases List.mem_append.1 h1 with h2 | h2
      · exact h l h2
      · rw [List.mem_singleton.1 h2]
        exact encode_data_no_nul _
    · rw [List.mem_singleton.1 h1]; simp

theorem read_loop_no_nul (nc : Bool) (intr : Option Nat) (f : List UInt8) :
    ∀ (i : Nat) (s : ReadLoop), (∀ l ∈ s.stored, (0 : UInt8) ∉ l) →
      ∀ l ∈ (read_loop nc intr f i s).stored, (0 : UInt8) ∉ l := by
  induction f with
  | nil => intro i s h; exact h
  | cons c rest ih =>
    intro i s h
    unfold read_loop
    split_ifs
    · exact h
    · exact ih _ _ (read_byte_no_nul nc s c h)

/-- Every line that `read_file` builds is a C string without NUL. -/
theorem read_lines_no_nul (nc : Bool) (intr : Option Nat) (f : List UInt8) :
    ∀ l ∈ (read_lines nc intr f).stored, (0 : UInt8) ∉ l := by
  unfold read_lines
  apply read_finish_no_nul
  apply read_loop_no_nul
  simp

theorem read_finish_ne_nil (nc : Bool) (s : ReadLoop) : (read_finish nc s).stored ≠ [] := by
  rcases read_finish_stored nc s with e | ⟨b, e | e⟩ <;> rw [e] <;> simp

theorem ingraft_fresh (topline : List (List UInt8)) (h : topline ≠ []) :
    ingraft_buffer [[]] 0 0 topline = topline := by
  unfold ingraft_buffer
  match topline, h with
  | [only], _ => simp
  | first :: second :: more, _ =>
    have hne : second :: more ≠ [] := by simp
    have hlast := List.dropLast_append_getLast hne
    simp only [List.take_zero, List.nil_append, List.getD_cons_zero, List.append_nil,
      List.drop_nil, List.singleton_append, List.take_nil, List.getLast?_eq_getLast _ hne,
      Option.getD_some, Nat.zero_add, List.drop_succ_cons, List.drop_zero, List.cons_append]
    rw [hlast]

/-- Reading into the buffer that `make_new_buffer` has just created leaves in
it exactly the lines built from the stream. -/
theorem read_file_fresh_lines (flags : Flags) (f : List UInt8) (intr : Option Nat) (fd : Int)
    (undoable access_w_ok : Bool) :
    (read_file flags f intr fd undoable access_w_ok new_buffer).openfile.lines
      = (read_lines flags.NO_CONVERT intr f).stored := by
  simp only [read_file, new_buffer]
  exact ingraft_fresh _ (read_finish_ne_nil _ _)

theorem read_file_format (flags : Flags) (f : List UInt8) (intr : Option Nat) (fd : Int)
    (undoable access_w_ok : Bool) (openfile : openfilestruct) :
    (read_file flags f intr fd undoable access_w_ok openfile).format
      = (read_lines flags.NO_CONVERT intr f).format := rfl

theorem read_file_num_lines (flags : Flags) (f : List UInt8) (intr : Option Nat) (fd : Int)
    (undoable access_w_ok : Bool) (openfile : openfilestruct) :
    (read_file flags f intr fd undoable access_w_ok openfile).num_lines
      = (read_lines flags.NO_CONVERT intr f).num_lines := rfl

/-- The format a fresh buffer has after `read_file` when the classifier ended
at Unix. -/
theorem read_file_fresh_fmt_unix (flags : Flags) (f : List UInt8) (intr : Option Nat) (fd : Int)
    (undoable access_w_ok : Bool) (h : (read_lines flags.NO_CONVERT intr f).format = 0) :
    (read_file flags f intr fd undoable access_w_ok new_buffer).openfile.fmt
      = format_type.NIX_FILE := by
  simp only [read_file, new_buffer, h]
  simp


/-- The two conditions "every LF is preceded by CR" and "every CR is followed
by LF", stated on positions, make a text DOS-shaped. -/
theorem dosText_of_positions : ∀ b : List UInt8,
    (∀ i : Nat, b[i]? = some (10 : UInt8) → ∃ j : Nat, i = j + 1 ∧ b[j]? = some (13 : UInt8)) →
    (∀ i : Nat, b[i]? = some (13 : UInt8) → b[i + 1]? = some (10 : UInt8)) → DosText b
  | [], _, _ => DosText.nil
  | [c], h1, h2 => by
    have hc10 : c ≠ 10 := by
      intro e
      obtain ⟨j, hj, -⟩ := h1 0 (by simp [e])
      omega
    have hc13 : c ≠ 13 := by
      intro e
      have := h2 0 (by simp [e])
      simp at this
    exact DosText.byte hc10 hc13 DosText.nil
  | c :: d :: t, h1, h2 => by
    have hc10 : c ≠ 10 := by
      intro e
      obtain ⟨j, hj, -⟩ := h1 0 (by simp [e])
      omega
    by_cases hc13 : c = 13
    · have hd : d = 10 := by
        have := h2 0 (by simp [hc13])
        simpa using this
      subst hc13 hd
      refine DosText.crlf (dosText_of_positions t ?_ ?_)
      · intro i hi
        obtain ⟨j, hj, hj2⟩ := h1 (i + 2) (by simpa using hi)
        have hji : j = i + 1 := by omega
        subst hji
        cases i with
        | zero => simp at hj2
        | succ k => exact ⟨k, rfl, by simpa using hj2⟩
      · intro i hi
        have := h2 (i + 2) (by simpa using hi)
        simpa using this
    · refine DosText.byte hc10 hc13 (dosText_of_positions (d :: t) ?_ ?_)
      · intro i hi
        obtain ⟨j, hj, hj2⟩ := h1 (i + 1) (by simpa using hi)
        have hji : j = i := by omega
        subst hji
        cases j with
        | zero => simp at hj2; exact absurd hj2 hc13
        | succ k => exact ⟨k, rfl, by simpa using hj2⟩
      · intro i hi
        have := h2 (i + 1) (by simpa using hi)
        simpa using this


/-- Reading DOS-shaped text: every `"\r\n"` ends a line, the format ends at 1
as soon as one pair was read, and the lines joined by `"\r\n"` are the bytes
read. -/
theorem read_dos_inv {rest : List UInt8} (hd : DosText rest) :
    ∀ s : ReadLoop, (13 : UInt8) ∉ s.buf → (10 : UInt8) ∉ s.buf →
      ((s.num_lines = 0 ∧ s.format = 0) ∨ s.format = 1) →
      (read_finish false (rest.foldl (read_byte false) s)).format
        = (if s.format = 1 ∨ (13 : UInt8) ∈ rest then 1 else 0) ∧
      serialise [13, 10] (read_finish false (rest.foldl (read_byte false) s)).stored
        = (s.stored.map (fun x => decode_nul x ++ [13, 10])).flatten ++ s.buf ++ rest := by
  induction hd with
  | nil =>
    intro s h13 h10 hf
    have hcr := ends_in_cr_of_not_mem h13
    simp only [List.foldl_nil, read_finish, hcr, Bool.false_and]
    by_cases hb : s.buf.length = 0
    · have hnil : s.buf = [] := List.length_eq_zero.1 hb
      rcases hf with ⟨-, hf⟩ | hf <;> simp [hb, hf, serialise_stored_nil, hnil]
    · rcases hf with ⟨-, hf⟩ | hf <;> simp [hb, hf, serialise_stored _ _ _ h10]
  | @crlf t _ ih =>
    intro s h13 h10 hf
    have hcr := ends_in_cr_of_not_mem h13
    have hs1 : read_byte false s 13 = { s with buf := s.buf ++ [13] } := by
      simp [read_byte, hcr]
    have hs2 : read_byte false { s with buf := s.buf ++ [13] } 10 =
        { stored := s.stored ++ [encode_data s.buf s.buf.length], buf := [],
          num_lines := s.num_lines + 1, format := 1 } := by
      rcases hf with ⟨hn, hf⟩ | hf
      · simp [read_byte, store_line, ends_in_cr_concat, hn, hf]
      · simp [read_byte, store_line, ends_in_cr_concat, hf]
    simp only [List.foldl_cons, hs1, hs2]
    obtain ⟨i1, i2⟩ := ih
      { stored := s.stored ++ [encode_data s.buf s.buf.length], buf := [],
        num_lines := s.num_lines + 1, format := 1 }
      (List.not_mem_nil _) (List.not_mem_nil _) (Or.inr rfl)
    refine ⟨?_, ?_⟩
    · rw [i1]; simp
    · rw [i2]; simp [decode_encode h10]
  | @byte c t hc10 hc13 _ ih =>
    intro s h13 h10 hf
    have hcr := ends_in_cr_of_not_mem h13
    have hs : read_byte false s c = { s with buf := s.buf ++ [c] } := by
      simp [read_byte, hc10, hcr]
    simp only [List.foldl_cons, hs]
    obtain ⟨i1, i2⟩ := ih { s with buf := s.buf ++ [c] }
      (by simp [h13, Ne.symm hc13]) (by simp [h10, Ne.symm hc10]) hf
    refine ⟨?_, ?_⟩
    · rw [i1]; simp [Ne.symm hc13]
    · rw [i2]; simp


theorem serialise_stored_cr (T : List UInt8) (stored : List (List UInt8)) (buf : List UInt8)
    (h : (10 : UInt8) ∉ buf) :
    serialise T (stored ++ [encode_data buf buf.length, []])
      = (stored.map (fun x => decode_nul x ++ T)).flatten ++ (buf ++ T) := by
  have e : stored ++ [encode_data buf buf.length, []]
      = (stored ++ [encode_data buf buf.length]) ++ [[]] := by simp
  rw [e, serialise_stored_nil]
  simp [decode_encode h]

/-- Reading LF-free text in which the classifier never missed a `'\r'`: every
`'\r'` ends a line, the format ends at 2 as soon as one was read, and the lines
joined by `'\r'` are the bytes read. -/
theorem read_mac_inv (rest : List UInt8) :
    ∀ s : ReadLoop, (10 : UInt8) ∉ rest → (10 : UInt8) ∉ s.buf → (13 : UInt8) ∉ s.buf.dropLast →
      ((s.num_lines = 0 ∧ s.format = 0) ∨ s.format = 2) →
      (read_finish false (rest.foldl (read_byte false) s)).format
        = (if s.format = 2 ∨ (13 : UInt8) ∈ s.buf ∨ (13 : UInt8) ∈ rest then 2 else 0) ∧
      serialise [13] (read_finish false (rest.foldl (read_byte false) s)).stored
        = (s.stored.map (fun x => decode_nul x ++ [13])).flatten ++ s.buf ++ rest := by
  induction rest with
  | nil =>
    intro s _ h10 h13 hf
    rcases List.eq_nil_or_concat s.buf with hnil | ⟨l, x, hl⟩
    · simp only [List.foldl_nil, read_finish, hnil, List.length_nil, if_true]
      rcases hf with ⟨-, hf⟩ | hf <;> simp [hf, serialise_stored_nil]
    · simp only [List.concat_eq_append] at hl
      have hl10 : (10 : UInt8) ∉ l := fun e => h10 (by simp [hl, e])
      have hl13 : (13 : UInt8) ∉ l := by simpa [hl] using h13
      have hlen : s.buf.length ≠ 0 := by simp [hl]
      simp only [List.foldl_nil, read_finish, if_neg hlen, hl, ends_in_cr_concat,
        List.dropLast_concat, Bool.not_false, Bool.and_true]
      by_cases hx : x = 13
      · subst hx
        rcases hf with ⟨-, hf⟩ | hf <;> simp [hf, serialise_stored_cr _ _ _ hl10]
      · have hx10 : (10 : UInt8) ∉ l ++ [x] := by rw [← hl]; exact h10
        have e : encode_data (l ++ [x]) (l.length + 1)
            = encode_data (l ++ [x]) (l ++ [x]).length := by simp
        rcases hf with ⟨-, hf⟩ | hf <;>
          simp [hf, hx, hl13, Ne.symm hx, e, serialise_stored _ _ _ hx10]
  | cons c rest ih =>
    intro s hrest h10 h13 hf
    have hc : c ≠ 10 := fun e => hrest (by simp [e])
    have hr : (10 : UInt8) ∉ rest := fun e => hrest (by simp [e])
    simp only [List.foldl_cons]
    rcases List.eq_nil_or_concat s.buf with hnil | ⟨l, x, hl⟩
    · have hs : read_byte false s c = { s with buf := [c] } := by
        simp [read_byte, hc, hnil, ends_in_cr]
      rw [hs]
      obtain ⟨i1, i2⟩ := ih { s with buf := [c] } hr (by simp [Ne.symm hc]) (by simp) hf
      refine ⟨?_, ?_⟩
      · rw [i1]; simp [hnil]
      · rw [i2]; simp [hnil]
    · simp only [List.concat_eq_append] at hl
      have hl10 : (10 : UInt8) ∉ l := fun e => h10 (by simp [hl, e])
      have hl13 : (13 : UInt8) ∉ l := by simpa [hl] using h13
      by_cases hx : x = 13
      · subst hx
        have hs : read_byte false s c =
            { stored := s.stored ++ [encode_data l l.length], buf := [c],
              num_lines := s.num_lines + 1, format := 2 } := by
          rcases hf with ⟨hn, hf⟩ | hf
          · simp [read_byte, store_line, hc, hl, ends_in_cr_concat, hn, hf]
          · simp [read_byte, store_line, hc, hl, ends_in_cr_concat, hf]
        rw [hs]
        obtain ⟨i1, i2⟩ := ih
          { stored := s.stored ++ [encode_data l l.length], buf := [c],
            num_lines := s.num_lines + 1, format := 2 }
          hr (by simp [Ne.symm hc]) (by simp) (Or.inr rfl)
        refine ⟨?_, ?_⟩
        · rw [i1]; simp [hl]
        · rw [i2]; simp [hl, decode_encode hl10]
      · have hs : read_byte false s c = { s with buf := s.buf ++ [c] } := by
          simp [read_byte, hc, hl, ends_in_cr_concat, hx]
        rw [hs]
        obtain ⟨i1, i2⟩ := ih { s with buf := s.buf ++ [c] } hr
          (by simp [h10, Ne.symm hc]) (by simp [hl, hl13, Ne.symm hx]) hf
        refine ⟨?_, ?_⟩
        · rw [i1]
          simp only [List.mem_append, List.mem_singleton, List.mem_cons]
          by_cases h1 : s.format = 2 <;> by_cases h2 : (13 : UInt8) ∈ s.buf <;>
            by_cases h3 : (13 : UInt8) ∈ rest <;> by_cases h4 : (13 : UInt8) = c <;>
            simp [h1, h2, h3, h4]
        · rw [i2]; simp


theorem to_unix_cons_of_ne {c : UInt8} (h : c ≠ 13) (t : List UInt8) :
    to_unix (c :: t) = c :: to_unix t := by
  cases t with
  | nil => simp [to_unix, h]
  | cons d rest => simp [to_unix, h]

theorem to_unix_append_of_not_mem {l : List UInt8} (h : (13 : UInt8) ∉ l) (x : List UInt8) :
    to_unix (l ++ x) = l ++ to_unix x := by
  induction l with
  | nil => rfl
  | cons c rest ih =>
    have hc : c ≠ 13 := fun e => h (by simp [e])
    have hr : (13 : UInt8) ∉ rest := fun e => h (by simp [e])
    rw [List.cons_append, to_unix_cons_of_ne hc, ih hr, List.cons_append]

theorem to_unix_crlf (t : List UInt8) : to_unix (13 :: 10 :: t) = 10 :: to_unix t := by
  simp [to_unix]

theorem to_unix_cr {c : UInt8} (h : c ≠ 10) (t : List UInt8) :
    to_unix (13 :: c :: t) = 10 :: to_unix (c :: t) := by
  simp [to_unix, h]

/-- Once a line was stored while the classifier was at Unix, it can only end
at Unix or Mac. -/
theorem read_format_after_unix_line (rest : List UInt8) :
    ∀ s : ReadLoop, s.format = 0 → s.num_lines ≠ 0 →
      (read_finish false (rest.foldl (read_byte false) s)).format ≠ 3 := by
  induction rest with
  | nil =>
    intro s hf _
    simp only [List.foldl_nil, read_finish]
    split_ifs <;> simp [hf]
  | cons c rest ih =>
    intro s hf hn
    simp only [List.foldl_cons]
    by_cases hc : c = 10
    · have hs : (read_byte false s c).format = 0 ∧ (read_byte false s c).num_lines ≠ 0 := by
        simp [read_byte, store_line, hc, hf, hn]
      exact ih _ hs.1 hs.2
    · have hs : (read_byte false s c).format = 0 ∧ (read_byte false s c).num_lines ≠ 0 := by
        simp [read_byte, hc, hf, hn]
      exact ih _ hs.1 hs.2


theorem read_byte_lf_after_cr (s : ReadLoop) (l : List UInt8) (hl : s.buf = l ++ [13])
    (hf : (s.num_lines = 0 ∧ s.format = 0) ∨ s.format ≠ 0) :
    read_byte false s 10 =
      { stored := s.stored ++ [encode_data l l.length], buf := [],
        num_lines := s.num_lines + 1,
        format := if s.format = 0 ∨ s.format = 2 then s.format + 1 else s.format } := by
  rcases hf with ⟨hn, hf⟩ | hf
  · simp [read_byte, store_line, hl, ends_in_cr_concat, hn, hf]
  · simp [read_byte, store_line, hl, ends_in_cr_concat, hf]

theorem read_byte_lf_plain (nc : Bool) (s : ReadLoop) (h : ends_in_cr s.buf = false) :
    read_byte nc s 10 =
      { stored := s.stored ++ [encode_data s.buf s.buf.length], buf := [],
        num_lines := s.num_lines + 1, format := s.format } := by
  simp [read_byte, store_line, h]

theorem read_byte_after_cr (s : ReadLoop) (l : List UInt8) (c : UInt8) (hc : c ≠ 10)
    (hl : s.buf = l ++ [13]) (hf : (s.num_lines = 0 ∧ s.format = 0) ∨ s.format ≠ 0) :
    read_byte false s c =
      { stored := s.stored ++ [encode_data l l.length], buf := [c],
        num_lines := s.num_lines + 1,
        format := if s.format = 0 ∨ s.format = 1 then s.format + 2 else s.format } := by
  rcases hf with ⟨hn, hf⟩ | hf
  · simp [read_byte, store_line, hl, ends_in_cr_concat, hn, hf, hc]
  · simp [read_byte, store_line, hl, ends_in_cr_concat, hf, hc]

theorem read_byte_plain (nc : Bool) (s : ReadLoop) (c : UInt8) (hc : c ≠ 10)
    (h : ends_in_cr s.buf = false) :
    read_byte nc s c = { s with buf := s.buf ++ [c] } := by
  simp [read_byte, hc, h]

/-- Reading text while the classifier misses no `'\r'`: if the format ends at
3, the lines joined by `'\n'` are the bytes read with every terminator turned
into `'\n'`. -/
theorem read_to_unix_inv (rest : List UInt8) :
    ∀ s : ReadLoop, (10 : UInt8) ∉ s.buf → (13 : UInt8) ∉ s.buf.dropLast →
      ((s.num_lines = 0 ∧ s.format = 0) ∨ s.format ≠ 0) →
      (read_finish false (rest.foldl (read_byte false) s)).format = 3 →
      serialise [10] (read_finish false (rest.foldl (read_byte false) s)).stored
        = (s.stored.map (fun x => decode_nul x ++ [10])).flatten ++ to_unix (s.buf ++ rest) := by
  induction rest with
  | nil =>
    intro s h10 h13 _ _
    rcases List.eq_nil_or_concat s.buf with hnil | ⟨l, x, hl⟩
    · simp [read_finish, hnil, serialise_stored_nil, to_unix]
    · simp only [List.concat_eq_append] at hl
      have hl10 : (10 : UInt8) ∉ l := fun e => h10 (by simp [hl, e])
      have hl13 : (13 : UInt8) ∉ l := by simpa [hl] using h13
      have hlen : s.buf.length ≠ 0 := by simp [hl]
      simp only [List.foldl_nil, read_finish, if_neg hlen, hl, ends_in_cr_concat,
        List.dropLast_concat, Bool.not_false, Bool.and_true, List.append_nil]
      by_cases hx : x = 13
      · subst hx
        simp [serialise_stored_cr _ _ _ hl10, to_unix_append_of_not_mem hl13, to_unix]
      · have hx10 : (10 : UInt8) ∉ l ++ [x] := by rw [← hl]; exact h10
        have hx13 : (13 : UInt8) ∉ l ++ [x] := by simp [hl13, Ne.symm hx]
        have e : encode_data (l ++ [x]) (l.length + 1)
            = encode_data (l ++ [x]) (l ++ [x]).length := by simp
        have hu := to_unix_append_of_not_mem hx13 []
        simp only [List.append_nil] at hu
        simp [hx, e, serialise_stored _ _ _ hx10, hu, to_unix]
  | cons c rest ih =>
    intro s h10 h13 hf h3
    simp only [List.foldl_cons] at h3 ⊢
    rcases List.eq_nil_or_concat s.buf with hnil | ⟨l, x, hl⟩
    · -- the line buffer is empty
      have hcr : ends_in_cr s.buf = false := by simp [hnil, ends_in_cr]
      by_cases hc : c = 10
      · subst hc
        rw [read_byte_lf_plain false s hcr] at h3 ⊢
        rcases hf with ⟨hn, hf⟩ | hf
        · exact absurd h3 (read_format_after_unix_line rest _ hf (by simp))
        · rw [ih ⟨s.stored ++ [encode_data s.buf s.buf.length], [], s.num_lines + 1, s.format⟩
            (List.not_mem_nil _) (List.not_mem_nil _) (Or.inr hf) h3]
          simp [hnil, to_unix_cons_of_ne, encode_data, cstring, unsunder, decode_nul]
      · rw [read_byte_plain false s c hc hcr] at h3 ⊢
        rw [ih { s with buf := s.buf ++ [c] } (by simp [hnil, Ne.symm hc]) (by simp [hnil]) hf h3]
        simp [hnil]
    · simp only [List.concat_eq_append] at hl
      have hl10 : (10 : UInt8) ∉ l := fun e => h10 (by simp [hl, e])
      have hl13 : (13 : UInt8) ∉ l := by simpa [hl] using h13
      by_cases hx : x = 13
      · -- the line buffer ends in a carriage return
        subst hx
        by_cases hc : c = 10
        · subst hc
          rw [read_byte_lf_after_cr s l hl hf] at h3 ⊢
          have hf2 : (if s.format = 0 ∨ s.format = 2 then s.format + 1 else s.format) ≠ 0 := by
            split_ifs <;> omega
          rw [ih ⟨s.stored ++ [encode_data l l.length], [], s.num_lines + 1,
              if s.format = 0 ∨ s.format = 2 then s.format + 1 else s.format⟩
            (List.not_mem_nil _) (List.not_mem_nil _) (Or.inr hf2) h3]
          simp [hl, decode_encode hl10, to_unix_append_of_not_mem hl13, to_unix_crlf]
        · rw [read_byte_after_cr s l c hc hl hf] at h3 ⊢
          have hf2 : (if s.format = 0 ∨ s.format = 1 then s.format + 2 else s.format) ≠ 0 := by
            split_ifs <;> omega
          rw [ih ⟨s.stored ++ [encode_data l l.length], [c], s.num_lines + 1,
              if s.format = 0 ∨ s.format = 1 then s.format + 2 else s.format⟩
            (by simp [Ne.symm hc]) (by simp) (Or.inr hf2) h3]
          simp [hl, decode_encode hl10, to_unix_append_of_not_mem hl13, to_unix_cr hc]
      · -- the line buffer ends in an ordinary byte
        have hcr : ends_in_cr s.buf = false := by simp [hl, ends_in_cr_concat, hx]
        have hb13 : (13 : UInt8) ∉ s.buf := by simp [hl, hl13, Ne.symm hx]
        by_cases hc : c = 10
        · subst hc
          rw [read_byte_lf_plain false s hcr] at h3 ⊢
          rcases hf with ⟨hn, hf⟩ | hf
          · exact absurd h3 (read_format_after_unix_line rest _ hf (by simp))
          · rw [ih ⟨s.stored ++ [encode_data s.buf s.buf.length], [], s.num_lines + 1, s.format⟩
              (List.not_mem_nil _) (List.not_mem_nil _) (Or.inr hf) h3]
            have h13ne : (10 : UInt8) ≠ 13 := by decide
            simp [decode_encode h10, to_unix_append_of_not_mem hb13, to_unix_cons_of_ne h13ne]
        · rw [read_byte_plain false s c hc hcr] at h3 ⊢
          rw [ih { s with buf := s.buf ++ [c] } (by simp [h10, Ne.symm hc]) (by simpa using hb13)
            hf h3]
          simp


/-! ## Round trips -/

/-- C1 (Unix round trip).  For every byte sequence `b` without a `'\r'` byte
(NUL bytes allowed), whatever the flags: `read_file` run to the end of the
stream on a buffer fresh from `make_new_buffer`, followed by the line loop of
`write_file` under the format the buffer then records, on a stream with room
for `b`, does not fail and emits exactly `b`. -/
theorem C1_unix_round_trip (flags : Flags) (b : List UInt8) (fd : Int)
    (undoable access_w_ok : Bool) (f : OutStream)
    (hcr : (13 : UInt8) ∉ b) (hroom : b.length ≤ f.room) :
    (write_lines (read_file flags b none fd undoable access_w_ok new_buffer).openfile.fmt
        (read_file flags b none fd undoable access_w_ok new_buffer).openfile.lines f 0).failed
      = false ∧
    (write_lines (read_file flags b none fd undoable access_w_ok new_buffer).openfile.fmt
        (read_file flags b none fd undoable access_w_ok new_buffer).openfile.lines f 0).f.written
      = f.written ++ b := by
  have hinv := read_unix_inv flags.NO_CONVERT b ⟨[], [], 0, 0⟩ hcr
    (List.not_mem_nil _) (List.not_mem_nil _) rfl
  simp only [List.map_nil, List.flatten_nil, List.nil_append] at hinv
  have hfmt0 : (read_lines flags.NO_CONVERT none b).format = 0 := by
    simp only [read_lines, read_loop_none]; exact hinv.1
  have hser : serialise [10] (read_lines flags.NO_CONVERT none b).stored = b := by
    simp only [read_lines, read_loop_none]; exact hinv.2
  rw [read_file_fresh_lines, read_file_fresh_fmt_unix _ _ _ _ _ _ hfmt0]
  have hw := write_lines_emits format_type.NIX_FILE (read_lines flags.NO_CONVERT none b).stored
    f 0 (read_lines_no_nul _ _ _) (by simp only [terminator]; rw [hser]; exact hroom)
  simp only [terminator] at hw
  rw [hser] at hw
  exact ⟨hw.1, hw.2.1⟩

/-- C1, at the input "a NUL LF b LF" read from a read-only file. -/
theorem C1_unix_round_trip_witness :
    (13 : UInt8) ∉ [97, 0, 10, 98, 10] ∧ [97, 0, 10, 98, 10].length ≤ (OutStream.mk [] 5).room ∧
    ((write_lines (read_file {} [97, 0, 10, 98, 10] none 3 false false new_buffer).openfile.fmt
        (read_file {} [97, 0, 10, 98, 10] none 3 false false new_buffer).openfile.lines
        ⟨[], 5⟩ 0).failed = false ∧
     (write_lines (read_file {} [97, 0, 10, 98, 10] none 3 false false new_buffer).openfile.fmt
        (read_file {} [97, 0, 10, 98, 10] none 3 false false new_buffer).openfile.lines
        ⟨[], 5⟩ 0).f.written = [] ++ [97, 0, 10, 98, 10]) :=
  ⟨by decide, by decide,
    C1_unix_round_trip {} [97, 0, 10, 98, 10] 3 false false ⟨[], 5⟩ (by decide) (by decide)⟩


theorem read_file_fresh_fmt (flags : Flags) (f : List UInt8) (intr : Option Nat) (fd : Int)
    (undoable access_w_ok : Bool) (hunix : flags.MAKE_IT_UNIX = false)
    (hw : found_writable flags fd undoable access_w_ok = true) :
    (read_file flags f intr fd undoable access_w_ok new_buffer).openfile.fmt
      = (if (read_lines flags.NO_CONVERT intr f).format = 2 then format_type.MAC_FILE
         else if (read_lines flags.NO_CONVERT intr f).format = 1 then format_type.DOS_FILE
         else format_type.NIX_FILE) := by
  simp only [read_file, new_buffer, hunix, hw]
  by_cases h3 : (read_lines flags.NO_CONVERT intr f).format = 3
  · simp [h3]
  · simp [h3]

theorem mem_of_infix_crlf {b : List UInt8} (h : [13, 10] <:+: b) : (13 : UInt8) ∈ b := by
  obtain ⟨p, q, rfl⟩ := h
  simp

/-- C2, as amended (DOS round trip).  For every byte sequence `b` that contains
a `"\r\n"`, in which every `'\n'` is immediately preceded by `'\r'` and every
`'\r'` immediately followed by `'\n'`: with conversion enabled, `MAKE_IT_UNIX`
unset and the file found writable, `read_file` on a fresh buffer records the
DOS format, and the line loop of `write_file` under that format, on a stream
with room for `b`, does not fail and emits exactly `b`. -/
theorem C2_dos_round_trip (flags : Flags) (b : List UInt8) (fd : Int)
    (undoable access_w_ok : Bool) (f : OutStream)
    (hconv : flags.NO_CONVERT = false) (hunix : flags.MAKE_IT_UNIX = false)
    (hw : found_writable flags fd undoable access_w_ok = true)
    (hpair : [13, 10] <:+: b)
    (hlf : ∀ i : Nat, b[i]? = some (10 : UInt8) → ∃ j : Nat, i = j + 1 ∧ b[j]? = some (13 : UInt8))
    (hcr : ∀ i : Nat, b[i]? = some (13 : UInt8) → b[i + 1]? = some (10 : UInt8))
    (hroom : b.length ≤ f.room) :
    (read_file flags b none fd undoable access_w_ok new_buffer).openfile.fmt
      = format_type.DOS_FILE ∧
    (write_lines (read_file flags b none fd undoable access_w_ok new_buffer).openfile.fmt
        (read_file flags b none fd undoable access_w_ok new_buffer).openfile.lines f 0).failed
      = false ∧
    (write_lines (read_file flags b none fd undoable access_w_ok new_buffer).openfile.fmt
        (read_file flags b none fd undoable access_w_ok new_buffer).openfile.lines f 0).f.written
      = f.written ++ b := by
  have hinv := read_dos_inv (dosText_of_positions b hlf hcr) ⟨[], [], 0, 0⟩
    (List.not_mem_nil _) (List.not_mem_nil _) (Or.inl ⟨rfl, rfl⟩)
  simp only [List.map_nil, List.flatten_nil, List.nil_append, mem_of_infix_crlf hpair,
    or_true, if_true] at hinv
  have hfmt1 : (read_lines flags.NO_CONVERT none b).format = 1 := by
    simp only [read_lines, read_loop_none, hconv]; exact hinv.1
  have hser : serialise [13, 10] (read_lines flags.NO_CONVERT none b).stored = b := by
    simp only [read_lines, read_loop_none, hconv]; exact hinv.2
  have hfmt : (read_file flags b none fd undoable access_w_ok new_buffer).openfile.fmt
      = format_type.DOS_FILE := by
    rw [read_file_fresh_fmt _ _ _ _ _ _ hunix hw, hfmt1]
    simp
  rw [read_file_fresh_lines, hfmt]
  have hwl := write_lines_emits format_type.DOS_FILE (read_lines flags.NO_CONVERT none b).stored
    f 0 (read_lines_no_nul _ _ _) (by simp only [terminator]; rw [hser]; exact hroom)
  simp only [terminator] at hwl
  rw [hser] at hwl
  exact ⟨rfl, hwl.1, hwl.2.1⟩


/-- In "a CR LF" the only LF, at position 2, follows a CR. -/
theorem a_crlf_lf_positions : ∀ i : Nat, ([97, 13, 10] : List UInt8)[i]? = some (10 : UInt8) →
    ∃ j : Nat, i = j + 1 ∧ ([97, 13, 10] : List UInt8)[j]? = some (13 : UInt8)
  | 0, h => by simp at h
  | 1, h => by simp at h
  | 2, _ => ⟨1, rfl, rfl⟩
  | _ + 3, h => by simp at h

/-- In "a CR LF" the only CR, at position 1, precedes an LF. -/
theorem a_crlf_cr_positions : ∀ i : Nat, ([97, 13, 10] : List UInt8)[i]? = some (13 : UInt8) →
    ([97, 13, 10] : List UInt8)[i + 1]? = some (10 : UInt8)
  | 0, h => by simp at h
  | 1, _ => rfl
  | 2, h => by simp at h
  | _ + 3, h => by simp at h

/-- C2 as amended, at the input "a CR LF" read from a writable file. -/
theorem C2_dos_round_trip_witness :
    (({} : Flags).NO_CONVERT = false ∧ ({} : Flags).MAKE_IT_UNIX = false ∧
      found_writable {} 3 false true = true ∧ [13, 10] <:+: ([97, 13, 10] : List UInt8) ∧
      [97, 13, 10].length ≤ (OutStream.mk [] 3).room) ∧
    ((read_file {} [97, 13, 10] none 3 false true new_buffer).openfile.fmt
      = format_type.DOS_FILE ∧
    (write_lines (read_file {} [97, 13, 10] none 3 false true new_buffer).openfile.fmt
        (read_file {} [97, 13, 10] none 3 false true new_buffer).openfile.lines ⟨[], 3⟩ 0).failed
      = false ∧
    (write_lines (read_file {} [97, 13, 10] none 3 false true new_buffer).openfile.fmt
        (read_file {} [97, 13, 10] none 3 false true new_buffer).openfile.lines ⟨[], 3⟩ 0).f.written
      = [] ++ [97, 13, 10]) :=
  ⟨⟨rfl, rfl, rfl, ⟨[97], [], rfl⟩, by decide⟩,
    C2_dos_round_trip {} [97, 13, 10] 3 false true ⟨[], 3⟩ rfl rfl rfl ⟨[97], [], rfl⟩
      a_crlf_lf_positions a_crlf_cr_positions (by decide)⟩

/-- C2 as stated fails: with conversion enabled and a fresh buffer, the DOS
text "a CR LF" is read under `MAKE_IT_UNIX` (line 915) as Unix, and is read
from a file found unwritable (line 883) without recording any format; in both
cases the buffer's format is not DOS and the line loop emits "a LF". -/
theorem C2_dos_round_trip_counterexample :
    (({ MAKE_IT_UNIX := true } : Flags).NO_CONVERT = false ∧
      [13, 10] <:+: ([97, 13, 10] : List UInt8) ∧
      (read_file { MAKE_IT_UNIX := true } [97, 13, 10] none 3 false true new_buffer).openfile.fmt
        ≠ format_type.DOS_FILE ∧
      (write_lines
        (read_file { MAKE_IT_UNIX := true } [97, 13, 10] none 3 false true new_buffer).openfile.fmt
        (read_file { MAKE_IT_UNIX := true } [97, 13, 10] none 3 false true new_buffer).openfile.lines
        ⟨[], 3⟩ 0).f.written = [97, 10]) ∧
    (({} : Flags).NO_CONVERT = false ∧
      (read_file {} [97, 13, 10] none 3 false false new_buffer).openfile.fmt
        ≠ format_type.DOS_FILE ∧
      (write_lines
        (read_file {} [97, 13, 10] none 3 false false new_buffer).openfile.fmt
        (read_file {} [97, 13, 10] none 3 false false new_buffer).openfile.lines
        ⟨[], 3⟩ 0).f.written = [97, 10]) :=
  ⟨⟨rfl, ⟨[97], [], rfl⟩, by decide, by decide⟩, rfl, by decide, by decide⟩


/-- C3, as amended (Mac round trip).  For every byte sequence `b` with at least
one `'\r'` and no `'\n'` (it may end in `'\r'` and hold consecutive `'\r'`):
with conversion enabled, `MAKE_IT_UNIX` unset and the file found writable,
`read_file` on a fresh buffer records the Mac format, and the line loop of
`write_file` under that format, on a stream with room for `b`, does not fail
and emits exactly `b`. -/
theorem C3_mac_round_trip (flags : Flags) (b : List UInt8) (fd : Int)
    (undoable access_w_ok : Bool) (f : OutStream)
    (hconv : flags.NO_CONVERT = false) (hunix : flags.MAKE_IT_UNIX = false)
    (hw : found_writable flags fd undoable access_w_ok = true)
    (hcr : (13 : UInt8) ∈ b) (hlf : (10 : UInt8) ∉ b) (hroom : b.length ≤ f.room) :
    (read_file flags b none fd undoable access_w_ok new_buffer).openfile.fmt
      = format_type.MAC_FILE ∧
    (write_lines (read_file flags b none fd undoable access_w_ok new_buffer).openfile.fmt
        (read_file flags b none fd undoable access_w_ok new_buffer).openfile.lines f 0).failed
      = false ∧
    (write_lines (read_file flags b none fd undoable access_w_ok new_buffer).openfile.fmt
        (read_file flags b none fd undoable access_w_ok new_buffer).openfile.lines f 0).f.written
      = f.written ++ b := by
  have hinv := read_mac_inv b ⟨[], [], 0, 0⟩ hlf
    (List.not_mem_nil _) (List.not_mem_nil _) (Or.inl ⟨rfl, rfl⟩)
  simp only [List.map_nil, List.flatten_nil, List.nil_append, hcr, or_true, if_true] at hinv
  have hfmt2 : (read_lines flags.NO_CONVERT none b).format = 2 := by
    simp only [read_lines, read_loop_none, hconv]; exact hinv.1
  have hser : serialise [13] (read_lines flags.NO_CONVERT none b).stored = b := by
    simp only [read_lines, read_loop_none, hconv]; exact hinv.2
  have hfmt : (read_file flags b none fd undoable access_w_ok new_buffer).openfile.fmt
      = format_type.MAC_FILE := by
    rw [read_file_fresh_fmt _ _ _ _ _ _ hunix hw, hfmt2]
    simp
  rw [read_file_fresh_lines, hfmt]
  have hwl := write_lines_emits format_type.MAC_FILE (read_lines flags.NO_CONVERT none b).stored
    f 0 (read_lines_no_nul _ _ _) (by simp only [terminator]; rw [hser]; exact hroom)
  simp only [terminator] at hwl
  rw [hser] at hwl
  exact ⟨rfl, hwl.1, hwl.2.1⟩

/-- C3 as amended, at the input "a CR CR b CR" read from a writable file. -/
theorem C3_mac_round_trip_witness :
    (({} : Flags).NO_CONVERT = false ∧ ({} : Flags).MAKE_IT_UNIX = false ∧
      found_writable {} 3 false true = true ∧ (13 : UInt8) ∈ [97, 13, 13, 98, 13] ∧
      (10 : UInt8) ∉ [97, 13, 13, 98, 13] ∧
      [97, 13, 13, 98, 13].length ≤ (OutStream.mk [] 5).room) ∧
    ((read_file {} [97, 13, 13, 98, 13] none 3 false true new_buffer).openfile.fmt
      = format_type.MAC_FILE ∧
    (write_lines (read_file {} [97, 13, 13, 98, 13] none 3 false true new_buffer).openfile.fmt
        (read_file {} [97, 13, 13, 98, 13] none 3 false true new_buffer).openfile.lines
        ⟨[], 5⟩ 0).failed = false ∧
    (write_lines (read_file {} [97, 13, 13, 98, 13] none 3 false true new_buffer).openfile.fmt
        (read_file {} [97, 13, 13, 98, 13] none 3 false true new_buffer).openfile.lines
        ⟨[], 5⟩ 0).f.written = [] ++ [97, 13, 13, 98, 13]) :=
  ⟨⟨rfl, rfl, rfl, by decide, by decide, by decide⟩,
    C3_mac_round_trip {} [97, 13, 13, 98, 13] 3 false true ⟨[], 5⟩ rfl rfl rfl
      (by decide) (by decide) (by decide)⟩

/-- C3 as stated fails: with conversion enabled and a fresh buffer, the Mac
text "a CR b" is read under `MAKE_IT_UNIX` (line 915) as Unix, and is read from
a file found unwritable (line 883) without recording any format; in both cases
the buffer's format is not Mac and the line loop emits "a LF b". -/
theorem C3_mac_round_trip_counterexample :
    (({ MAKE_IT_UNIX := true } : Flags).NO_CONVERT = false ∧
      (13 : UInt8) ∈ [97, 13, 98] ∧ (10 : UInt8) ∉ [97, 13, 98] ∧
      (read_file { MAKE_IT_UNIX := true } [97, 13, 98] none 3 false true new_buffer).openfile.fmt
        ≠ format_type.MAC_FILE ∧
      (write_lines
        (read_file { MAKE_IT_UNIX := true } [97, 13, 98] none 3 false true new_buffer).openfile.fmt
        (read_file { MAKE_IT_UNIX := true } [97, 13, 98] none 3 false true new_buffer).openfile.lines
        ⟨[], 3⟩ 0).f.written = [97, 10, 98]) ∧
    (({} : Flags).NO_CONVERT = false ∧
      (read_file {} [97, 13, 98] none 3 false false new_buffer).openfile.fmt
        ≠ format_type.MAC_FILE ∧
      (write_lines
        (read_file {} [97, 13, 98] none 3 false false new_buffer).openfile.fmt
        (read_file {} [97, 13, 98] none 3 false false new_buffer).openfile.lines
        ⟨[], 3⟩ 0).f.written = [97, 10, 98]) :=
  ⟨⟨rfl, by decide, by decide, by decide, by decide⟩, rfl, by decide, by decide⟩


/-! ## Format detection -/

theorem store_line_format (nc : Bool) (c : UInt8) (s : ReadLoop) :
    (store_line nc c s).format = s.format := rfl

theorem read_byte_format_mono (nc : Bool) (s : ReadLoop) (c : UInt8) :
    s.format ≤ (read_byte nc s c).format ∧
      (s.format ≤ 3 → (read_byte nc s c).format ≤ 3) := by
  simp only [read_byte]
  by_cases h1 : c = 10
  · rw [if_pos h1, store_line_format]
    split_ifs with h2
    · simp at h2
      dsimp only
      omega
    · exact ⟨le_refl _, fun h => h⟩
  · rw [if_neg h1]
    split_ifs with h2 h3
    · rw [store_line_format]
      simp at h3
      dsimp only
      omega
    · rw [store_line_format]
      exact ⟨le_refl _, fun h => h⟩
    · exact ⟨le_refl _, fun h => h⟩

theorem read_finish_format_mono (nc : Bool) (s : ReadLoop) :
    s.format ≤ (read_finish nc s).format ∧
      (s.format ≤ 3 → (read_finish nc s).format ≤ 3) := by
  simp only [read_finish]
  split_ifs with h1 h2 h3
  · exact ⟨le_refl _, fun h => h⟩
  · dsimp only
    omega
  · exact ⟨le_refl _, fun h => h⟩
  · exact ⟨le_refl _, fun h => h⟩

theorem read_fold_format_mono (nc : Bool) (q : List UInt8) :
    ∀ s : ReadLoop, s.format ≤ (q.foldl (read_byte nc) s).format ∧
      (s.format ≤ 3 → (q.foldl (read_byte nc) s).format ≤ 3) := by
  induction q with
  | nil => intro s; exact ⟨le_refl _, fun h => h⟩
  | cons c rest ih =>
    intro s
    obtain ⟨a1, a2⟩ := read_byte_format_mono nc s c
    obtain ⟨b1, b2⟩ := ih (read_byte nc s c)
    exact ⟨le_trans a1 b1, fun h => b2 (a2 h)⟩

/-- C5 (format detection).  With conversion enabled the classifier of
`read_file` ends at 0 (Unix) on "a LF b LF", at 1 (DOS) on "a CR LF b CR LF",
at 2 (Mac) on "a CR b CR" and at 3 (both) on "a CR LF b CR c LF"; it ends at 0
on every input without `'\r'`; and along every stream its value after a part
of the stream is at most its value after a longer part, which is at most its
final value, which is at most 3. -/
theorem C5_format_detection :
    ((read_file {} [97, 10, 98, 10] none 3 false true new_buffer).format = 0 ∧
      (read_file {} [97, 13, 10, 98, 13, 10] none 3 false true new_buffer).format = 1 ∧
      (read_file {} [97, 13, 98, 13] none 3 false true new_buffer).format = 2 ∧
      (read_file {} [97, 13, 10, 98, 13, 99, 10] none 3 false true new_buffer).format = 3) ∧
    (∀ (flags : Flags) (b : List UInt8) (fd : Int) (undoable access_w_ok : Bool)
        (openfile : openfilestruct), (13 : UInt8) ∉ b →
        (read_file flags b none fd undoable access_w_ok openfile).format = 0) ∧
    (∀ (flags : Flags) (p q : List UInt8) (fd : Int) (undoable access_w_ok : Bool)
        (openfile : openfilestruct),
        (read_loop flags.NO_CONVERT none p 0 ⟨[], [], 0, 0⟩).format
          ≤ (read_loop flags.NO_CONVERT none (p ++ q) 0 ⟨[], [], 0, 0⟩).format ∧
        (read_loop flags.NO_CONVERT none (p ++ q) 0 ⟨[], [], 0, 0⟩).format
          ≤ (read_file flags (p ++ q) none fd undoable access_w_ok openfile).format ∧
        (read_file flags (p ++ q) none fd undoable access_w_ok openfile).format ≤ 3) := by
  refine ⟨⟨by decide, by decide, by decide, by decide⟩, ?_, ?_⟩
  · intro flags b fd undoable access_w_ok openfile hb
    rw [read_file_format]
    simp only [read_lines, read_loop_none]
    exact (read_unix_inv flags.NO_CONVERT b ⟨[], [], 0, 0⟩ hb
      (List.not_mem_nil _) (List.not_mem_nil _) rfl).1
  · intro flags p q fd undoable access_w_ok openfile
    rw [read_file_format]
    simp only [read_lines, read_loop_none, List.foldl_append]
    have h0 := read_fold_format_mono flags.NO_CONVERT p ⟨[], [], 0, 0⟩
    have h1 := read_fold_format_mono flags.NO_CONVERT q
      (p.foldl (read_byte flags.NO_CONVERT) ⟨[], [], 0, 0⟩)
    have h2 := read_finish_format_mono flags.NO_CONVERT
      (q.foldl (read_byte flags.NO_CONVERT) (p.foldl (read_byte flags.NO_CONVERT) ⟨[], [], 0, 0⟩))
    exact ⟨h1.1, h2.1, h2.2 (h1.2 (h0.2 (by simp)))⟩


/-- C5, at the CR-free stream "a NUL LF b" read with conversion disabled. -/
theorem C5_format_detection_witness :
    (13 : UInt8) ∉ [97, 0, 10, 98] ∧
    (read_file { NO_CONVERT := true } [97, 0, 10, 98] none 3 false true new_buffer).format = 0 :=
  ⟨by decide,
    C5_format_detection.2.1 { NO_CONVERT := true } [97, 0, 10, 98] 3 false true new_buffer
      (by decide)⟩

/-! ## Line counts -/

theorem read_byte_count (nc : Bool) (s : ReadLoop) (c : UInt8)
    (h : s.num_lines = s.stored.length) :
    (read_byte nc s c).num_lines = (read_byte nc s c).stored.length := by
  simp only [read_byte]
  split_ifs <;> simp [store_line, h]

theorem read_fold_count (nc : Bool) (b : List UInt8) :
    ∀ s : ReadLoop, s.num_lines = s.stored.length →
      (b.foldl (read_byte nc) s).num_lines = (b.foldl (read_byte nc) s).stored.length := by
  induction b with
  | nil => intro s h; exact h
  | cons c rest ih => intro s h; exact ih _ (read_byte_count nc s c h)

theorem encode_data_length (buf : List UInt8) : (encode_data buf buf.length).length = buf.length := by
  rw [encode_data_eq]
  simp

/-- After the last line is stored, the count is the number of lines, less one
when the last line is empty. -/
theorem read_finish_count (nc : Bool) (s : ReadLoop) (h : s.num_lines = s.stored.length) :
    (read_finish nc s).num_lines =
      (if (read_finish nc s).stored.getLast? = some [] then (read_finish nc s).stored.length - 1
       else (read_finish nc s).stored.length) := by
  simp only [read_finish]
  by_cases h1 : s.buf.length = 0
  · simp [h1, h]
  · rw [if_neg h1]
    by_cases h2 : (ends_in_cr s.buf && !nc) = true
    · rw [if_pos h2]
      simp [h]
    · rw [if_neg h2]
      have hne : encode_data s.buf s.buf.length ≠ [] := by
        intro e
        have := encode_data_length s.buf
        rw [e] at this
        exact h1 this.symm
      simp [h, hne]

theorem read_byte_lf_buf (nc : Bool) (s : ReadLoop) : (read_byte nc s 10).buf = [] := by
  simp only [read_byte, if_true]
  simp [store_line]

theorem read_byte_cr_buf (s : ReadLoop) : ends_in_cr (read_byte false s 13).buf = true := by
  have h1 : ¬ ((13 : UInt8) = 10) := by decide
  simp only [read_byte, if_neg h1]
  split_ifs <;> simp [store_line, ends_in_cr]

theorem read_finish_of_buf_nil (nc : Bool) (s : ReadLoop) (h : s.buf = []) :
    (read_finish nc s).stored.getLast? = some [] := by
  simp [read_finish, h]

theorem read_finish_of_cr (s : ReadLoop) (h : ends_in_cr s.buf = true) :
    (read_finish false s).stored.getLast? = some [] := by
  have hne : s.buf.length ≠ 0 := by
    intro e
    rw [List.length_eq_zero.1 e] at h
    simp [ends_in_cr] at h
  simp [read_finish, hne, h]

/-- C6 (line count on read).  For every stream read without interrupt, the
count `read_file` reports is the number of lines it built less one when the
last of them is empty, and that number otherwise; and for the empty stream,
for a stream ending in `'\n'`, and with conversion enabled for a stream ending
in `'\r'`, the last line built is empty and the count is one less than the
number of lines. -/
theorem C6_read_line_count (flags : Flags) (b : List UInt8) (fd : Int)
    (undoable access_w_ok : Bool) (openfile : openfilestruct) :
    (read_file flags b none fd undoable access_w_ok openfile).num_lines =
      (if (read_lines flags.NO_CONVERT none b).stored.getLast? = some []
       then (read_lines flags.NO_CONVERT none b).stored.length - 1
       else (read_lines flags.NO_CONVERT none b).stored.length) ∧
    (b = [] ∨ b.getLast? = some 10 ∨ (flags.NO_CONVERT = false ∧ b.getLast? = some 13) →
      (read_lines flags.NO_CONVERT none b).stored.getLast? = some [] ∧
      (read_file flags b none fd undoable access_w_ok openfile).num_lines + 1
        = (read_lines flags.NO_CONVERT none b).stored.length) := by
  have hcount : (read_lines flags.NO_CONVERT none b).num_lines =
      (if (read_lines flags.NO_CONVERT none b).stored.getLast? = some []
       then (read_lines flags.NO_CONVERT none b).stored.length - 1
       else (read_lines flags.NO_CONVERT none b).stored.length) := by
    simp only [read_lines, read_loop_none]
    exact read_finish_count _ _ (read_fold_count _ b ⟨[], [], 0, 0⟩ rfl)
  have hpos : 0 < (read_lines flags.NO_CONVERT none b).stored.length := by
    have := read_finish_ne_nil flags.NO_CONVERT
      (read_loop flags.NO_CONVERT none b 0 ⟨[], [], 0, 0⟩)
    exact List.length_pos.2 this
  rw [read_file_num_lines]
  refine ⟨hcount, fun h => ?_⟩
  have hlast : (read_lines flags.NO_CONVERT none b).stored.getLast? = some [] := by
    simp only [read_lines, read_loop_none]
    rcases h with h | h | ⟨hnc, h⟩
    · subst h
      exact read_finish_of_buf_nil _ _ rfl
    · obtain ⟨p, rfl⟩ := List.getLast?_eq_some_iff.1 h
      rw [List.foldl_concat]
      exact read_finish_of_buf_nil _ _ (read_byte_lf_buf _ _)
    · obtain ⟨p, rfl⟩ := List.getLast?_eq_some_iff.1 h
      rw [List.foldl_concat, hnc]
      exact read_finish_of_cr _ (read_byte_cr_buf _)
  refine ⟨hlast, ?_⟩
  rw [hcount, if_pos hlast]
  omega

/-- C6, at the stream "a LF". -/
theorem C6_read_line_count_witness :
    (read_file {} [97, 10] none 3 false true new_buffer).num_lines = 1 ∧
    (read_lines false none [97, 10]).stored = [[97], []] :=
  ⟨by
    have h := (C6_read_line_count {} [97, 10] 3 false true new_buffer).2 (Or.inr (Or.inl rfl))
    have e : (read_lines ({} : Flags).NO_CONVERT none [97, 10]).stored.length = 2 := by decide
    rw [e] at h
    omega, by decide⟩

/-! ## Line serialisation -/

/-- C7 (line serialisation).  For every non-empty list of fewer than `2 ^ 64`
lines, each a C string (no NUL byte), and every recorded format, the line loop
of `write_file` on a stream with room for them does not fail and emits
`l1 T l2 T ... ln`, each line with its NUL sentinels decoded to NUL bytes, where
`T` is `"\r\n"` for DOS, `"\r"` for Mac and `"\n"` otherwise, with no
terminator after `ln`; and the line total it reports is `n - 1` when `ln` is
empty and `n` otherwise. -/
theorem C7_line_serialisation (fmt : format_type) (lines : List (List UInt8)) (f : OutStream)
    (hne : lines ≠ []) (hstr : ∀ l ∈ lines, (0 : UInt8) ∉ l) (hlen : lines.length < 2 ^ 64)
    (hroom : (List.intercalate (terminator fmt) (lines.map decode_nul)).length ≤ f.room) :
    (write_lines fmt lines f 0).failed = false ∧
    (write_lines fmt lines f 0).f.written
      = f.written ++ List.intercalate (terminator fmt) (lines.map decode_nul) ∧
    (write_lines fmt lines f 0).lineswritten
      = (if lines.getLast? = some [] then lines.length - 1 else lines.length) := by
  obtain ⟨h1, h2, -, h4⟩ := write_lines_emits fmt lines f 0 hstr hroom
  refine ⟨h1, h2, ?_⟩
  rw [h4 hne]
  have hpos : 0 < lines.length := List.length_pos.2 hne
  split_ifs <;> omega

/-- C7, at the three lines "a", "LF b" (a stored NUL, then b) and "" in DOS
format. -/
theorem C7_line_serialisation_witness :
    (write_lines format_type.DOS_FILE [[97], [10, 98], []] ⟨[], 7⟩ 0).failed = false ∧
    (write_lines format_type.DOS_FILE [[97], [10, 98], []] ⟨[], 7⟩ 0).f.written
      = [] ++ List.intercalate (terminator format_type.DOS_FILE)
          ([[97], [10, 98], []].map decode_nul) ∧
    (write_lines format_type.DOS_FILE [[97], [10, 98], []] ⟨[], 7⟩ 0).lineswritten
      = (if [[97], [10, 98], ([] : List UInt8)].getLast? = some [] then
          [[97], [10, 98], ([] : List UInt8)].length - 1
         else [[97], [10, 98], ([] : List UInt8)].length) :=
  C7_line_serialisation format_type.DOS_FILE [[97], [10, 98], []] ⟨[], 7⟩
    (by decide) (by decide) (by norm_num) (by decide)

/-- C8 (the write leaves the buffer unchanged).  For every list of lines
without NUL bytes, every format, every stream (with room or not, so whether
the loop completes or stops on a short write) and every starting count, the
lines are after the line loop of `write_file` what they were before it; and on
each of them `unsunder` over the original length undoes `sunder`. -/
theorem C8_write_restores_lines (fmt : format_type) (lines : List (List UInt8)) (f : OutStream)
    (lineswritten : Nat) (hstr : ∀ l ∈ lines, (0 : UInt8) ∉ l) :
    (write_lines fmt lines f lineswritten).lines = lines ∧
    ∀ l ∈ lines, unsunder (sunder l) (strlen l) = l :=
  ⟨write_lines_restores fmt lines f lineswritten hstr, fun l hl => unsunder_sunder (hstr l hl)⟩

/-- C8, at two lines holding a sentinel each, on a stream that takes one
byte. -/
theorem C8_write_restores_lines_witness :
    (write_lines format_type.NIX_FILE [[97, 10], [10, 98]] ⟨[], 1⟩ 0).failed = true ∧
    (write_lines format_type.NIX_FILE [[97, 10], [10, 98]] ⟨[], 1⟩ 0).lines
      = [[97, 10], [10, 98]] :=
  ⟨by decide,
    (C8_write_restores_lines format_type.NIX_FILE [[97, 10], [10, 98]] ⟨[], 1⟩ 0 (by decide)).1⟩


/-! ## Facts about `copy_file` and the stages of `write_file` -/

theorem BUFSIZ_pos : 0 < BUFSIZ := by decide

/-- When the copy loop ends with 0, everything pending has been appended. -/
theorem copy_loop_zero (error : Bool) :
    ∀ (fuel : Nat) (pending : List UInt8) (out : OutStream), pending.length < fuel →
      (copy_loop error fuel pending out).1 = 0 →
      (copy_loop error fuel pending out).2.written = out.written ++ pending := by
  intro fuel
  induction fuel with
  | zero => intro pending out h; omega
  | succ n ih =>
    intro pending out hlen h0
    rw [copy_loop] at h0 ⊢
    simp only at h0 ⊢
    by_cases h1 : (List.take BUFSIZ pending).length = 0 ∧ error = true
    · rw [if_pos h1] at h0
      simp at h0
    · rw [if_neg h1] at h0 ⊢
      by_cases h2 : (fwrite (List.take BUFSIZ pending) out).1 < (List.take BUFSIZ pending).length
      · rw [if_pos h2] at h0
        simp at h0
      · rw [if_neg h2] at h0 ⊢
        have hfit : (List.take BUFSIZ pending).length ≤ out.room := by
          simp only [fwrite] at h2
          omega
        rw [fwrite_fits _ _ hfit] at h0 ⊢
        by_cases h3 : (List.take BUFSIZ pending).length > 0
        · rw [if_pos h3] at h0 ⊢
          have hdrop : (List.drop BUFSIZ pending).length < n := by
            have hb := BUFSIZ_pos
            have hp : 0 < pending.length := by
              rcases pending with _ | ⟨a, t⟩
              · simp at h3
              · simp
            simp only [List.length_drop]
            omega
          rw [ih _ _ hdrop h0]
          simp only
          rw [List.append_assoc, List.take_append_drop]
        · rw [if_neg h3]
          have hnil : pending = [] := by
            have hb := BUFSIZ_pos
            rcases pending with _ | ⟨a, t⟩
            · rfl
            · exfalso
              apply h3
              simp only [List.length_take, List.length_cons]
              omega
          subst hnil
          simp

/-- When `copy_file` returns 0, the output stream has taken all of the input. -/
theorem copy_file_zero (inn : InStream) (out : OutStream) (flush_fails : Bool)
    (h : (copy_file inn out flush_fails).1 = 0) :
    (copy_file inn out flush_fails).2.written = out.written ++ inn.data := by
  simp only [copy_file] at h ⊢
  by_cases hf : flush_fails = true
  · simp [hf] at h
  · by_cases hc : inn.close_fails = true
    · simp [hf, hc] at h
    · simp only [hf, hc, if_false, Bool.false_eq_true] at h
      exact copy_loop_zero inn.error _ _ _ (Nat.lt_succ_self _) h


theorem write_lines_short_data (fmt : format_type) (data : List UInt8)
    (rest : List (List UInt8)) (f : OutStream) (lw : Nat)
    (h0 : (0 : UInt8) ∉ data) (hshort : ¬ data.length ≤ f.room) :
    (write_lines fmt (data :: rest) f lw).failed = true := by
  have hlen : (decode_nul data).length = data.length := decode_nul_length data
  rw [write_lines]
  simp only [strlen_of_no_nul h0, sunder_of_no_nul h0, ← hlen, List.take_length]
  have hlt : (fwrite (decode_nul data) f).1 < (decode_nul data).length := by
    simp only [fwrite]
    omega
  rw [if_pos hlt]

theorem write_lines_short_terminator (fmt : format_type) (data : List UInt8)
    (rest : List (List UInt8)) (f : OutStream) (lw : Nat) (hrest : rest ≠ [])
    (h0 : (0 : UInt8) ∉ data) (hfit : data.length ≤ f.room)
    (hshort : ¬ data.length + (terminator fmt).length ≤ f.room) :
    (write_lines fmt (data :: rest) f lw).failed = true := by
  have hlen : (decode_nul data).length = data.length := decode_nul_length data
  have hfit2 : (decode_nul data).length ≤ f.room := by omega
  rw [write_lines]
  simp only [strlen_of_no_nul h0, sunder_of_no_nul h0, ← hlen, List.take_length,
    fwrite_fits _ _ hfit2]
  simp only [hlen, unsunder_decode_nul h0, lt_irrefl, if_false, hrest]
  cases fmt with
  | NIX_FILE =>
    have h1 : f.room - data.length = 0 := by simp [terminator] at hshort; omega
    simp [putc, h1]
  | DOS_FILE =>
    by_cases h1 : f.room - data.length = 0
    · simp [putc, h1]
    · have h2 : f.room - data.length - 1 = 0 := by simp [terminator] at hshort; omega
      simp [putc, h1, h2]
  | MAC_FILE =>
    have h1 : f.room - data.length = 0 := by simp [terminator] at hshort; omega
    simp [putc, h1]

/-- A line loop that did not fail has emitted the whole serialisation. -/
theorem write_lines_complete (fmt : format_type) (lines : List (List UInt8)) :
    ∀ (f : OutStream) (lw : Nat), (∀ l ∈ lines, (0 : UInt8) ∉ l) →
      (write_lines fmt lines f lw).failed = false →
      (write_lines fmt lines f lw).f.written = f.written ++ serialise (terminator fmt) lines := by
  induction lines with
  | nil =>
    intro f lw _ _
    simp [write_lines, serialise, List.intercalate]
  | cons data rest ih =>
    intro f lw h0 hok
    have hd : (0 : UInt8) ∉ data := h0 data (by simp)
    have hr : ∀ l ∈ rest, (0 : UInt8) ∉ l := fun l hl => h0 l (by simp [hl])
    by_cases hfit : data.length ≤ f.room
    · cases rest with
      | nil =>
        rw [write_lines_last fmt data f lw hd hfit, serialise_single]
      | cons l2 more =>
        by_cases hfit2 : data.length + (terminator fmt).length ≤ f.room
        · rw [write_lines_more fmt data (l2 :: more) f lw (by simp) hd hfit2] at hok ⊢
          simp only at hok ⊢
          rw [ih _ _ hr hok, serialise_cons_cons]
          simp
        · rw [write_lines_short_terminator fmt data (l2 :: more) f lw (by simp) hd hfit hfit2]
            at hok
          exact absurd hok (by decide)
    · rw [write_lines_short_data fmt data rest f lw hd hfit] at hok
      exact absurd hok (by decide)


theorem put_file_same (fs : FileSystem) (p : String) (d : List UInt8) :
    put_file fs p d p = some d := by
  simp [put_file]

theorem put_file_other (fs : FileSystem) (p q : String) (d : List UInt8) (h : q ≠ p) :
    put_file fs p d q = fs q := by
  simp [put_file, h]

theorem remove_file_same (fs : FileSystem) (p : String) : remove_file fs p p = none := by
  simp [remove_file]

theorem remove_file_other (fs : FileSystem) (p q : String) (h : q ≠ p) :
    remove_file fs p q = fs q := by
  simp [remove_file, h]

/-- The name `get_next_filename` returns is empty or names no file. -/
theorem get_next_filename_loop_free (fs : FileSystem) (whole : String) :
    ∀ (fuel i : Nat) (buf : String),
      get_next_filename_loop fs whole fuel i buf = "" ∨
      file_present fs (get_next_filename_loop fs whole fuel i buf) = false := by
  intro fuel
  induction fuel with
  | zero => intro i buf; exact Or.inl rfl
  | succ n ih =>
    intro i buf
    rw [get_next_filename_loop]
    by_cases h1 : file_present fs buf = true
    · by_cases h2 : i + 1 = 100000
      · simp [h1, h2]
      · simp only [h1, h2, Bool.not_true, if_false, Bool.false_eq_true]
        exact ih _ _
    · simp only [Bool.not_eq_true] at h1
      simp [h1]

/-- The backup never goes by the name of the file being written. -/
theorem backup_name_ne (sys : System) (fs : FileSystem) (realname backupname : String)
    (hpresent : file_present fs realname = true)
    (h : backup_name sys fs realname = some backupname) : realname ≠ backupname := by
  unfold backup_name at h
  cases hb : sys.backup_dir with
  | none =>
    rw [hb] at h
    simp only [Option.some.injEq] at h
    intro e
    have hlen : backupname.length = realname.length + 1 := by
      rw [← h, String.length_append]
      rfl
    rw [e] at hlen
    omega
  | some d =>
    rw [hb] at h
    simp only at h
    split_ifs at h with h1
    simp only [Option.some.injEq] at h
    intro e
    rcases get_next_filename_loop_free fs _ 100000 0 _ with h2 | h2
    · exact h1 h2
    · unfold get_next_filename at h
      rw [h, ← e, hpresent] at h2
      exact absurd h2 (by decide)


theorem stage_fs_next (fs : FileSystem) : stage_fs (Stage.next fs) = fs := rfl

theorem stage_fs_cleanup (fs : FileSystem) : stage_fs (Stage.cleanup_and_exit fs) = fs := rfl

theorem backup_ask_fs (sys : System) (fs : FileSystem) : stage_fs (backup_ask sys fs) = fs := by
  unfold backup_ask
  split_ifs <;> rfl

theorem fill_backup_keeps (flags : Flags) (sys : System) (fs : FileSystem) (f : InStream)
    (b q : String) (hq : q ≠ b) : stage_fs (fill_backup flags sys fs f b) q = fs q := by
  unfold fill_backup
  generalize copy_file f ⟨(fs b).getD [], sys.backup_room⟩ sys.backup_flush_fails = c
  simp only
  split_ifs <;>
    simp only [backup_ask_fs, stage_fs_next, stage_fs_cleanup, put_file_other _ _ _ _ hq]

theorem create_backup_keeps (flags : Flags) (sys : System) (fs : FileSystem) (f : InStream)
    (b q : String) (hq : q ≠ b) : stage_fs (create_backup flags sys fs f b) q = fs q := by
  unfold create_backup
  simp only
  split_ifs <;>
    simp only [backup_ask_fs, stage_fs_next, stage_fs_cleanup,
      fill_backup_keeps _ _ _ _ _ _ hq, put_file_other _ _ _ _ hq, remove_file_other _ _ _ hq]

/-- Making the backup leaves the file being written as it is. -/
theorem make_backup_keeps (flags : Flags) (sys : System) (fs : FileSystem) (realname : String)
    (stream : Option String) (hp : file_present fs realname = true) :
    stage_fs (make_backup flags sys fs realname stream) realname = fs realname := by
  unfold make_backup
  split_ifs
  · rfl
  · cases hbn : backup_name sys fs realname with
    | none => rfl
    | some b =>
      have hne := backup_name_ne _ _ _ _ hp hbn
      exact create_backup_keeps _ _ _ _ _ _ hne


/-- A temporary copy that went through: the name is the one `mkstemp` made, it
named no file before, and the copy holds what `realname` holds. -/
theorem copy_to_tempfile_next (sys : System) (fs fs2 : FileSystem) (realname t : String)
    (h : copy_to_tempfile sys fs realname = Stage.next (fs2, t)) :
    sys.tempname = some t ∧ file_present fs t = false ∧
      fs2 = put_file (put_file fs t []) t ((fs realname).getD []) := by
  unfold copy_to_tempfile at h
  split_ifs at h with h1
  cases ht : sys.tempname with
  | none => rw [ht] at h; simp at h
  | some t2 =>
    rw [ht] at h
    simp only at h
    split_ifs at h with h2 h3
    simp only [Stage.next.injEq, Prod.mk.injEq] at h
    obtain ⟨hfs, htt⟩ := h
    subst htt
    have h0 : (copy_file ⟨(fs realname).getD [], sys.prepend_read_error,
        sys.prepend_in_close_fails⟩ ⟨[], sys.temp_room⟩ sys.temp_close_fails).1 = 0 := by
      simpa using h3
    have hw := copy_file_zero _ _ _ h0
    simp only [List.nil_append] at hw
    rw [hw] at hfs
    refine ⟨rfl, by simpa using h2, hfs.symm⟩

theorem open_in_place_next (sys : System) (fs fs2 : FileSystem) (realname : String)
    (tmp : Bool) (method : kind_of_writing_type) (tempname : Option String)
    (hm : method ≠ kind_of_writing_type.APPEND)
    (h : open_in_place sys fs realname tmp method tempname = Stage.next fs2) :
    fs2 = put_file fs realname [] := by
  unfold open_in_place at h
  simp only [if_neg hm] at h
  split_ifs at h
  · cases tempname <;> simp at h
  · simp only [Stage.next.injEq] at h
    exact h.symm

theorem unlink_tempfile_same (sys : System) (fs : FileSystem) (t : String) :
    unlink_tempfile sys fs t t = if sys.temp_unlink_fails then fs t else none := by
  unfold unlink_tempfile
  split_ifs
  · rfl
  · exact remove_file_same _ _

theorem unlink_tempfile_other (sys : System) (fs : FileSystem) (t q : String) (h : q ≠ t) :
    unlink_tempfile sys fs t q = fs q := by
  unfold unlink_tempfile
  split_ifs
  · rfl
  · exact remove_file_other _ _ _ h

/-- The end of a prepending write that went through: the stream has taken the
temporary copy after what it held, and `unlink` was called on the copy. -/
theorem finish_stream_prepend (sys : System) (fs fs2 : FileSystem) (path t : String)
    (room : Nat)
    (h : finish_stream sys fs path room kind_of_writing_type.PREPEND (some t) = Stage.next fs2) :
    fs2 = unlink_tempfile sys (put_file fs path ((fs path).getD [] ++ (fs t).getD [])) t := by
  unfold finish_stream at h
  simp only [if_true] at h
  split_ifs at h with h1 h2
  simp only [Stage.next.injEq] at h
  have h0 : (copy_file ⟨(fs t).getD [], sys.temp_read_error, sys.temp_in_close_fails⟩
      ⟨(fs path).getD [], room⟩ sys.target_close_fails).1 = 0 := by
    simpa using h2
  have hw := copy_file_zero _ _ _ h0
  rw [hw] at h
  exact h.symm


theorem cleanup_and_exit_retval (fs : FileSystem) (openfile : openfilestruct) :
    (cleanup_and_exit fs openfile).retval = false := rfl

theorem write_to_stream_prepend (sys : System) (fs : FileSystem) (openfile : openfilestruct)
    (realname path t : String) (tmp fullbuffer : Bool)
    (hstr : ∀ l ∈ openfile.lines, (0 : UInt8) ∉ l) (ht : t ≠ path)
    (hok : (write_to_stream sys fs openfile realname path tmp kind_of_writing_type.PREPEND
      fullbuffer (some t)).retval = true) :
    (write_to_stream sys fs openfile realname path tmp kind_of_writing_type.PREPEND
      fullbuffer (some t)).fs path
      = some ((fs path).getD [] ++ serialise (terminator openfile.fmt) openfile.lines
          ++ (fs t).getD []) ∧
    (write_to_stream sys fs openfile realname path tmp kind_of_writing_type.PREPEND
      fullbuffer (some t)).fs t = (if sys.temp_unlink_fails then fs t else none) := by
  unfold write_to_stream at hok ⊢
  simp only at hok ⊢
  by_cases hf : (write_lines openfile.fmt openfile.lines
      ⟨(fs path).getD [], sys.target_room⟩ 0).failed = true
  · rw [if_pos hf, cleanup_and_exit_retval] at hok
    exact absurd hok (by decide)
  · rw [if_neg hf] at hok ⊢
    have hw := write_lines_complete openfile.fmt openfile.lines
      ⟨(fs path).getD [], sys.target_room⟩ 0 hstr (by simpa using hf)
    simp only at hw
    cases hfin : finish_stream sys
        (put_file fs path (write_lines openfile.fmt openfile.lines
          ⟨(fs path).getD [], sys.target_room⟩ 0).f.written) path
        (write_lines openfile.fmt openfile.lines
          ⟨(fs path).getD [], sys.target_room⟩ 0).f.room
        kind_of_writing_type.PREPEND (some t) with
    | cleanup_and_exit fs2 =>
      rw [hfin] at hok
      simp only [cleanup_and_exit_retval] at hok
      exact absurd hok (by decide)
    | next fs2 =>
      simp only
      rw [finish_stream_prepend _ _ _ _ _ _ hfin, hw]
      refine ⟨?_, ?_⟩
      · rw [unlink_tempfile_other _ _ _ _ (Ne.symm ht), put_file_same, put_file_same,
          put_file_other _ _ _ _ ht]
        rfl
      · rw [unlink_tempfile_same, put_file_other _ _ _ _ ht, put_file_other _ _ _ _ ht]

theorem write_in_place_prepend (sys : System) (fs : FileSystem) (openfile : openfilestruct)
    (realname t : String) (tmp fullbuffer : Bool)
    (hstr : ∀ l ∈ openfile.lines, (0 : UInt8) ∉ l) (ht : t ≠ realname)
    (hok : (write_in_place sys fs openfile realname none tmp kind_of_writing_type.PREPEND
      fullbuffer (some t)).retval = true) :
    (write_in_place sys fs openfile realname none tmp kind_of_writing_type.PREPEND
      fullbuffer (some t)).fs realname
      = some (serialise (terminator openfile.fmt) openfile.lines ++ (fs t).getD []) ∧
    (write_in_place sys fs openfile realname none tmp kind_of_writing_type.PREPEND
      fullbuffer (some t)).fs t = (if sys.temp_unlink_fails then fs t else none) := by
  unfold write_in_place at hok ⊢
  simp only at hok ⊢
  cases hop : open_in_place sys fs realname tmp kind_of_writing_type.PREPEND (some t) with
  | cleanup_and_exit fs2 =>
    rw [hop] at hok
    simp only [cleanup_and_exit_retval] at hok
    exact absurd hok (by decide)
  | next fs2 =>
    rw [hop] at hok
    simp only at hok ⊢
    have hfs2 := open_in_place_next _ _ _ _ _ _ _ (by decide) hop
    obtain ⟨h1, h2⟩ := write_to_stream_prepend sys fs2 openfile realname realname t tmp
      fullbuffer hstr ht hok
    refine ⟨?_, ?_⟩
    · rw [h1, hfs2, put_file_same, put_file_other _ _ _ _ ht]
      rfl
    · rw [h2, hfs2, put_file_other _ _ _ _ ht]

theorem write_after_backup_prepend (sys : System) (fs : FileSystem) (openfile : openfilestruct)
    (realname : String) (tmp fullbuffer : Bool) (Y : List UInt8)
    (hstr : ∀ l ∈ openfile.lines, (0 : UInt8) ∉ l) (hY : fs realname = some Y)
    (hok : (write_after_backup sys fs openfile realname none tmp kind_of_writing_type.PREPEND
      fullbuffer).retval = true) :
    (write_after_backup sys fs openfile realname none tmp kind_of_writing_type.PREPEND
      fullbuffer).fs realname
      = some (serialise (terminator openfile.fmt) openfile.lines ++ Y) ∧
    ∀ t, sys.tempname = some t →
      (write_after_backup sys fs openfile realname none tmp kind_of_writing_type.PREPEND
        fullbuffer).fs t = (if sys.temp_unlink_fails then some Y else none) := by
  unfold write_after_backup at hok ⊢
  simp only [if_true] at hok ⊢
  cases hcp : copy_to_tempfile sys fs realname with
  | cleanup_and_exit fs2 =>
    rw [hcp] at hok
    simp only [cleanup_and_exit_retval] at hok
    exact absurd hok (by decide)
  | next pair =>
    obtain ⟨fs2, t⟩ := pair
    rw [hcp] at hok
    simp only at hok ⊢
    obtain ⟨htn, hfree, hfs2⟩ := copy_to_tempfile_next _ _ _ _ _ hcp
    have ht : t ≠ realname := by
      intro e
      rw [e, file_present, hY] at hfree
      simp at hfree
    obtain ⟨h1, h2⟩ := write_in_place_prepend sys fs2 openfile realname t tmp fullbuffer
      hstr ht hok
    refine ⟨?_, ?_⟩
    · rw [h1, hfs2, put_file_same]
      simp [hY]
    · intro t2 ht2
      rw [htn] at ht2
      cases ht2
      rw [h2, hfs2, put_file_same]
      simp [hY]


/-! ## Prepending -/

/-- C9, as the code has it: on a machine where `unlink(tempname)` fails, the
buffer "X LF" is prepended to the file `t` that holds "Y LF"; `write_file`
returns `TRUE`, `t` holds "X LF Y LF", and the temporary file is still there,
holding "Y LF". -/
theorem C9_prepend_counterexample :
    (write_file {} { calm_system with temp_unlink_fails := true } (one_file "t" [89, 10])
      { new_buffer with lines := [[88], []] } "t" none false kind_of_writing_type.PREPEND
      true).retval = true ∧
    (write_file {} { calm_system with temp_unlink_fails := true } (one_file "t" [89, 10])
      { new_buffer with lines := [[88], []] } "t" none false kind_of_writing_type.PREPEND
      true).fs "t" = some [88, 10, 89, 10] ∧
    calm_system.tempname = some "/tmp/nano.abcdef" ∧
    (write_file {} { calm_system with temp_unlink_fails := true } (one_file "t" [89, 10])
      { new_buffer with lines := [[88], []] } "t" none false kind_of_writing_type.PREPEND
      true).fs "/tmp/nano.abcdef" = some [89, 10] := by
  refine ⟨by decide, by decide, rfl, by decide⟩

/-- C9, amended (prepend correctness).  For every buffer (its lines C strings)
with serialisation `X` under its recorded format and every existing target
whose content is `Y`: when `write_file` with method `PREPEND`, no open stream
and `tmp` false returns `TRUE`, the target holds exactly `X` followed by `Y`;
the temporary file that `safe_tempfile` created no longer exists when
`unlink` removed it, and is still there, holding `Y`, when `unlink` failed. -/
theorem C9_prepend_amended (flags : Flags) (sys : System) (fs : FileSystem)
    (openfile : openfilestruct) (name : String) (fullbuffer : Bool) (Y : List UInt8)
    (hstr : ∀ l ∈ openfile.lines, (0 : UInt8) ∉ l)
    (hY : fs (real_dir_from_tilde sys name) = some Y)
    (hok : (write_file flags sys fs openfile name none false kind_of_writing_type.PREPEND
      fullbuffer).retval = true) :
    (write_file flags sys fs openfile name none false kind_of_writing_type.PREPEND
      fullbuffer).fs (real_dir_from_tilde sys name)
      = some (serialise (terminator openfile.fmt) openfile.lines ++ Y) ∧
    ∀ t, sys.tempname = some t →
      (sys.temp_unlink_fails = false →
        (write_file flags sys fs openfile name none false kind_of_writing_type.PREPEND
          fullbuffer).fs t = none) ∧
      (sys.temp_unlink_fails = true →
        (write_file flags sys fs openfile name none false kind_of_writing_type.PREPEND
          fullbuffer).fs t = some Y) := by
  obtain ⟨left, hleft⟩ : ∃ left : Option (List UInt8),
      left = (if sys.temp_unlink_fails then some Y else none) := ⟨_, rfl⟩
  have hkey : (write_file flags sys fs openfile name none false kind_of_writing_type.PREPEND
      fullbuffer).fs (real_dir_from_tilde sys name)
      = some (serialise (terminator openfile.fmt) openfile.lines ++ Y) ∧
    ∀ t, sys.tempname = some t →
      (write_file flags sys fs openfile name none false kind_of_writing_type.PREPEND
        fullbuffer).fs t = left := by
    have hpresent : file_present fs (real_dir_from_tilde sys name) = true := by
      simp [file_present, hY]
    unfold write_file at hok ⊢
    by_cases hname : name = ""
    · rw [if_pos hname] at hok
      simp at hok
    · rw [if_neg hname] at hok ⊢
      simp only at hok ⊢
      split_ifs at hok ⊢ with h1 h2 h3 h4
      · simp [cleanup_and_exit] at hok
      · simp [cleanup_and_exit] at hok
      · -- the buffer had no stat yet, and a backup is made first
        cases hmb : make_backup flags sys fs (real_dir_from_tilde sys name) none with
        | cleanup_and_exit fs1 =>
          rw [hmb] at hok
          simp [cleanup_and_exit] at hok
        | next fs1 =>
          rw [hmb] at hok
          simp only at hok ⊢
          have hkeep := make_backup_keeps flags sys fs (real_dir_from_tilde sys name) none
            hpresent
          rw [hmb, stage_fs_next, hY] at hkeep
          subst hleft
          exact write_after_backup_prepend sys fs1 _ _ false fullbuffer Y hstr hkeep hok
      · subst hleft
        exact write_after_backup_prepend sys fs _ _ false fullbuffer Y hstr hY hok
      · -- a backup is made first
        cases hmb : make_backup flags sys fs (real_dir_from_tilde sys name) none with
        | cleanup_and_exit fs1 =>
          rw [hmb] at hok
          simp [cleanup_and_exit] at hok
        | next fs1 =>
          rw [hmb] at hok
          simp only at hok ⊢
          have hkeep := make_backup_keeps flags sys fs (real_dir_from_tilde sys name) none
            hpresent
          rw [hmb, stage_fs_next, hY] at hkeep
          subst hleft
          exact write_after_backup_prepend sys fs1 _ _ false fullbuffer Y hstr hkeep hok
      · subst hleft
        exact write_after_backup_prepend sys fs _ _ false fullbuffer Y hstr hY hok
  refine ⟨hkey.1, fun t ht => ⟨fun hu => ?_, fun hu => ?_⟩⟩
  · rw [hkey.2 t ht, hleft, hu]
    rfl
  · rw [hkey.2 t ht, hleft, hu]
    rfl

/-- C9, amended, on a machine where `unlink(tempname)` fails: the buffer
"X LF" prepended to the file `t` that holds "Y LF". -/
theorem C9_prepend_amended_witness :
    (∀ l ∈ ({ new_buffer with lines := [[88], []] } : openfilestruct).lines, (0 : UInt8) ∉ l) ∧
    one_file "t" [89, 10]
      (real_dir_from_tilde { calm_system with temp_unlink_fails := true } "t")
      = some [89, 10] ∧
    (write_file {} { calm_system with temp_unlink_fails := true } (one_file "t" [89, 10])
      { new_buffer with lines := [[88], []] } "t" none false kind_of_writing_type.PREPEND
      true).retval = true ∧
    ((write_file {} { calm_system with temp_unlink_fails := true } (one_file "t" [89, 10])
      { new_buffer with lines := [[88], []] } "t" none false kind_of_writing_type.PREPEND
      true).fs (real_dir_from_tilde { calm_system with temp_unlink_fails := true } "t")
      = some (serialise (terminator ({ new_buffer with lines := [[88], []] } : openfilestruct).fmt)
          ({ new_buffer with lines := [[88], []] } : openfilestruct).lines ++ [89, 10]) ∧
    ∀ t, ({ calm_system with temp_unlink_fails := true } : System).tempname = some t →
      (({ calm_system with temp_unlink_fails := true } : System).temp_unlink_fails = false →
        (write_file {} { calm_system with temp_unlink_fails := true } (one_file "t" [89, 10])
          { new_buffer with lines := [[88], []] } "t" none false
          kind_of_writing_type.PREPEND true).fs t = none) ∧
      (({ calm_system with temp_unlink_fails := true } : System).temp_unlink_fails = true →
        (write_file {} { calm_system with temp_unlink_fails := true } (one_file "t" [89, 10])
          { new_buffer with lines := [[88], []] } "t" none false
          kind_of_writing_type.PREPEND true).fs t = some [89, 10])) :=
  ⟨by decide, by decide, by decide,
    C9_prepend_amended {} { calm_system with temp_unlink_fails := true } (one_file "t" [89, 10])
      { new_buffer with lines := [[88], []] } "t" true [89, 10] (by decide) (by decide)
      (by decide)⟩

/-! ## Save bookkeeping -/

theorem cleanup_bookkeeping (before openfile : openfilestruct) (realname : String)
    (full_save : Prop) (fs : FileSystem) (hm : openfile.modified = before.modified)
    (hn : openfile.filename = before.filename) :
    save_bookkeeping before realname full_save (cleanup_and_exit fs openfile) := by
  simp [save_bookkeeping, cleanup_and_exit, hm, hn]

theorem write_to_stream_bookkeeping (before : openfilestruct) (sys : System) (fs : FileSystem)
    (openfile : openfilestruct) (realname path : String) (tmp : Bool)
    (method : kind_of_writing_type) (fullbuffer : Bool) (tempname : Option String)
    (hm : openfile.modified = before.modified) (hn : openfile.filename = before.filename) :
    save_bookkeeping before realname
      (fullbuffer = true ∧ method = kind_of_writing_type.OVERWRITE ∧ tmp = false)
      (write_to_stream sys fs openfile realname path tmp method fullbuffer tempname) := by
  unfold write_to_stream
  simp only
  generalize write_lines openfile.fmt openfile.lines ⟨(fs path).getD [], sys.target_room⟩ 0 = r
  by_cases hf : r.failed = true
  · rw [if_pos hf]
    exact cleanup_bookkeeping _ _ _ _ _ hm hn
  · rw [if_neg hf]
    cases finish_stream sys (put_file fs path r.f.written) path r.f.room method tempname with
    | cleanup_and_exit fs2 => exact cleanup_bookkeeping _ _ _ _ _ hm hn
    | next fs2 =>
      simp only [save_bookkeeping]
      cases fullbuffer <;> cases tmp <;> cases method <;> simp [hm, hn]

theorem write_in_place_bookkeeping (before : openfilestruct) (sys : System) (fs : FileSystem)
    (openfile : openfilestruct) (realname : String) (stream : Option String) (tmp : Bool)
    (method : kind_of_writing_type) (fullbuffer : Bool) (tempname : Option String)
    (hm : openfile.modified = before.modified) (hn : openfile.filename = before.filename) :
    save_bookkeeping before realname
      (fullbuffer = true ∧ method = kind_of_writing_type.OVERWRITE ∧ tmp = false)
      (write_in_place sys fs openfile realname stream tmp method fullbuffer tempname) := by
  unfold write_in_place
  cases stream with
  | none =>
    simp only
    cases open_in_place sys fs realname tmp method tempname with
    | cleanup_and_exit fs2 => exact cleanup_bookkeeping _ _ _ _ _ hm hn
    | next fs2 => exact write_to_stream_bookkeeping _ _ _ _ _ _ _ _ _ _ hm hn
  | some path => exact write_to_stream_bookkeeping _ _ _ _ _ _ _ _ _ _ hm hn

theorem write_after_backup_bookkeeping (before : openfilestruct) (sys : System)
    (fs : FileSystem) (openfile : openfilestruct) (realname : String) (stream : Option String)
    (tmp : Bool) (method : kind_of_writing_type) (fullbuffer : Bool)
    (hm : openfile.modified = before.modified) (hn : openfile.filename = before.filename) :
    save_bookkeeping before realname
      (fullbuffer = true ∧ method = kind_of_writing_type.OVERWRITE ∧ tmp = false)
      (write_after_backup sys fs openfile realname stream tmp method fullbuffer) := by
  unfold write_after_backup
  split_ifs
  · cases copy_to_tempfile sys fs realname with
    | cleanup_and_exit fs2 => exact cleanup_bookkeeping _ _ _ _ _ hm hn
    | next pair => exact write_in_place_bookkeeping _ _ _ _ _ _ _ _ _ _ hm hn
  · exact write_in_place_bookkeeping _ _ _ _ _ _ _ _ _ _ hm hn

theorem write_file_bookkeeping (flags : Flags) (sys : System) (fs : FileSystem)
    (openfile : openfilestruct) (name : String) (stream : Option String) (tmp : Bool)
    (method : kind_of_writing_type) (fullbuffer : Bool) :
    save_bookkeeping openfile (real_dir_from_tilde sys name)
      (fullbuffer = true ∧ method = kind_of_writing_type.OVERWRITE ∧ tmp = false)
      (write_file flags sys fs openfile name stream tmp method fullbuffer) := by
  unfold write_file
  by_cases hname : name = ""
  · rw [if_pos hname]
    simp [save_bookkeeping]
  · rw [if_neg hname]
    simp only
    split_ifs
    · exact cleanup_bookkeeping _ _ _ _ _ rfl rfl
    · exact cleanup_bookkeeping _ _ _ _ _ rfl rfl
    · cases make_backup flags sys fs (real_dir_from_tilde sys name) stream with
      | cleanup_and_exit fs2 => exact cleanup_bookkeeping _ _ _ _ _ rfl rfl
      | next fs2 => exact write_after_backup_bookkeeping _ _ _ _ _ _ _ _ _ rfl rfl
    · exact write_after_backup_bookkeeping _ _ _ _ _ _ _ _ _ rfl rfl
    · cases make_backup flags sys fs (real_dir_from_tilde sys name) stream with
      | cleanup_and_exit fs2 => exact cleanup_bookkeeping _ _ _ _ _ rfl rfl
      | next fs2 => exact write_after_backup_bookkeeping _ _ _ _ _ _ _ _ _ rfl rfl
    · exact write_after_backup_bookkeeping _ _ _ _ _ _ _ _ _ rfl rfl

/-- C10 (save bookkeeping).  For every call of `write_file`: when it returns
`TRUE` with `fullbuffer` true, method `OVERWRITE` and `tmp` false, the buffer's
modified flag is cleared and its filename is the tilde-expanded name written;
in every other case (a successful append, prepend, temporary or partial write,
or any failed write) the buffer's filename and modified flag are what they
were before the call. -/
theorem C10_save_bookkeeping (flags : Flags) (sys : System) (fs : FileSystem)
    (openfile : openfilestruct) (name : String) (stream : Option String) (tmp : Bool)
    (method : kind_of_writing_type) (fullbuffer : Bool) :
    ((write_file flags sys fs openfile name stream tmp method fullbuffer).retval = true ∧
        (fullbuffer = true ∧ method = kind_of_writing_type.OVERWRITE ∧ tmp = false) →
      (write_file flags sys fs openfile name stream tmp method fullbuffer).openfile.modified
          = false ∧
      (write_file flags sys fs openfile name stream tmp method fullbuffer).openfile.filename
          = real_dir_from_tilde sys name) ∧
    (¬ ((write_file flags sys fs openfile name stream tmp method fullbuffer).retval = true ∧
        (fullbuffer = true ∧ method = kind_of_writing_type.OVERWRITE ∧ tmp = false)) →
      (write_file flags sys fs openfile name stream tmp method fullbuffer).openfile.modified
          = openfile.modified ∧
      (write_file flags sys fs openfile name stream tmp method fullbuffer).openfile.filename
          = openfile.filename) :=
  write_file_bookkeeping flags sys fs openfile name stream tmp method fullbuffer


/-- C10, on a calm machine: a full save of a modified, unnamed buffer as `t`
clears the flag and records the name, and the same save stopped by a failing
`open` leaves the flag set and the name empty. -/
theorem C10_save_bookkeeping_witness :
    ((write_file {} calm_system (one_file "t" [89])
        { new_buffer with lines := [[88], []], modified := true } "t" none false
        kind_of_writing_type.OVERWRITE true).openfile.modified = false ∧
      (write_file {} calm_system (one_file "t" [89])
        { new_buffer with lines := [[88], []], modified := true } "t" none false
        kind_of_writing_type.OVERWRITE true).openfile.filename
          = real_dir_from_tilde calm_system "t") ∧
    ((write_file {} { calm_system with target_open_fails := true } (one_file "t" [89])
        { new_buffer with lines := [[88], []], modified := true } "t" none false
        kind_of_writing_type.OVERWRITE true).openfile.modified = true ∧
      (write_file {} { calm_system with target_open_fails := true } (one_file "t" [89])
        { new_buffer with lines := [[88], []], modified := true } "t" none false
        kind_of_writing_type.OVERWRITE true).openfile.filename = "") :=
  ⟨(C10_save_bookkeeping {} calm_system (one_file "t" [89])
      { new_buffer with lines := [[88], []], modified := true } "t" none false
      kind_of_writing_type.OVERWRITE true).1 ⟨by decide, rfl, rfl, rfl⟩,
   (C10_save_bookkeeping {} { calm_system with target_open_fails := true } (one_file "t" [89])
      { new_buffer with lines := [[88], []], modified := true } "t" none false
      kind_of_writing_type.OVERWRITE true).2 (by decide)⟩

/-! ## Overwriting -/

theorem finish_stream_plain (sys : System) (fs fs2 : FileSystem) (path : String) (room : Nat)
    (method : kind_of_writing_type) (tempname : Option String)
    (hm : method ≠ kind_of_writing_type.PREPEND)
    (h : finish_stream sys fs path room method tempname = Stage.next fs2) : fs2 = fs := by
  unfold finish_stream at h
  rw [if_neg hm] at h
  split_ifs at h
  simp only [Stage.next.injEq] at h
  exact h.symm

theorem write_to_stream_overwrite (sys : System) (fs : FileSystem) (openfile : openfilestruct)
    (realname path : String) (tmp fullbuffer : Bool) (tempname : Option String)
    (hstr : ∀ l ∈ openfile.lines, (0 : UInt8) ∉ l)
    (hok : (write_to_stream sys fs openfile realname path tmp kind_of_writing_type.OVERWRITE
      fullbuffer tempname).retval = true) :
    (write_to_stream sys fs openfile realname path tmp kind_of_writing_type.OVERWRITE
      fullbuffer tempname).fs path
      = some ((fs path).getD [] ++ serialise (terminator openfile.fmt) openfile.lines) := by
  unfold write_to_stream at hok ⊢
  simp only at hok ⊢
  by_cases hf : (write_lines openfile.fmt openfile.lines
      ⟨(fs path).getD [], sys.target_room⟩ 0).failed = true
  · rw [if_pos hf, cleanup_and_exit_retval] at hok
    simp at hok
  · rw [if_neg hf] at hok ⊢
    have hw := write_lines_complete openfile.fmt openfile.lines
      ⟨(fs path).getD [], sys.target_room⟩ 0 hstr (by simpa using hf)
    simp only at hw
    cases hfin : finish_stream sys
        (put_file fs path (write_lines openfile.fmt openfile.lines
          ⟨(fs path).getD [], sys.target_room⟩ 0).f.written) path
        (write_lines openfile.fmt openfile.lines
          ⟨(fs path).getD [], sys.target_room⟩ 0).f.room
        kind_of_writing_type.OVERWRITE tempname with
    | cleanup_and_exit fs2 =>
      rw [hfin] at hok
      simp only [cleanup_and_exit_retval] at hok
      simp at hok
    | next fs2 =>
      simp only
      rw [finish_stream_plain _ _ _ _ _ _ _ (by decide) hfin, hw, put_file_same]

theorem write_after_backup_overwrite (sys : System) (fs : FileSystem)
    (openfile : openfilestruct) (realname : String) (tmp fullbuffer : Bool)
    (hstr : ∀ l ∈ openfile.lines, (0 : UInt8) ∉ l)
    (hok : (write_after_backup sys fs openfile realname none tmp kind_of_writing_type.OVERWRITE
      fullbuffer).retval = true) :
    (write_after_backup sys fs openfile realname none tmp kind_of_writing_type.OVERWRITE
      fullbuffer).fs realname
      = some (serialise (terminator openfile.fmt) openfile.lines) := by
  unfold write_after_backup at hok ⊢
  have hm : ¬ (kind_of_writing_type.OVERWRITE = kind_of_writing_type.PREPEND) := by decide
  rw [if_neg hm] at hok ⊢
  unfold write_in_place at hok ⊢
  simp only at hok ⊢
  cases hop : open_in_place sys fs realname tmp kind_of_writing_type.OVERWRITE none with
  | cleanup_and_exit fs2 =>
    rw [hop] at hok
    simp only [cleanup_and_exit_retval] at hok
    simp at hok
  | next fs2 =>
    rw [hop] at hok
    simp only at hok ⊢
    have hfs2 := open_in_place_next _ _ _ _ _ _ _ (by decide) hop
    rw [write_to_stream_overwrite sys fs2 openfile realname realname tmp fullbuffer none
      hstr hok, hfs2, put_file_same]
    rfl

/-- A successful overwrite leaves in the target exactly the serialisation of
the buffer under its recorded format. -/
theorem write_file_overwrite (flags : Flags) (sys : System) (fs : FileSystem)
    (openfile : openfilestruct) (name : String) (tmp fullbuffer : Bool)
    (hstr : ∀ l ∈ openfile.lines, (0 : UInt8) ∉ l)
    (hok : (write_file flags sys fs openfile name none tmp kind_of_writing_type.OVERWRITE
      fullbuffer).retval = true) :
    (write_file flags sys fs openfile name none tmp kind_of_writing_type.OVERWRITE
      fullbuffer).fs (real_dir_from_tilde sys name)
      = some (serialise (terminator openfile.fmt) openfile.lines) := by
  unfold write_file at hok ⊢
  by_cases hname : name = ""
  · rw [if_pos hname] at hok
    simp at hok
  · rw [if_neg hname] at hok ⊢
    simp only at hok ⊢
    split_ifs at hok ⊢
    · simp [cleanup_and_exit] at hok
    · simp [cleanup_and_exit] at hok
    · cases hmb : make_backup flags sys fs (real_dir_from_tilde sys name) none with
      | cleanup_and_exit fs1 =>
        rw [hmb] at hok
        simp [cleanup_and_exit] at hok
      | next fs1 =>
        rw [hmb] at hok
        simp only at hok ⊢
        exact write_after_backup_overwrite sys fs1 _ _ tmp fullbuffer hstr hok
    · exact write_after_backup_overwrite sys fs _ _ tmp fullbuffer hstr hok
    · cases hmb : make_backup flags sys fs (real_dir_from_tilde sys name) none with
      | cleanup_and_exit fs1 =>
        rw [hmb] at hok
        simp [cleanup_and_exit] at hok
      | next fs1 =>
        rw [hmb] at hok
        simp only at hok ⊢
        exact write_after_backup_overwrite sys fs1 _ _ tmp fullbuffer hstr hok
    · exact write_after_backup_overwrite sys fs _ _ tmp fullbuffer hstr hok


/-! ## Mixed files -/

theorem read_byte_no_convert_format (s : ReadLoop) (c : UInt8) :
    (read_byte true s c).format = s.format := by
  simp only [read_byte, Bool.not_true, Bool.and_false, Bool.false_and, Bool.false_eq_true,
    if_false]
  split_ifs <;> simp [store_line]

theorem read_no_convert_format (rest : List UInt8) :
    ∀ s : ReadLoop, (read_finish true (rest.foldl (read_byte true) s)).format = s.format := by
  induction rest with
  | nil =>
    intro s
    simp only [List.foldl_nil, read_finish, Bool.not_true, Bool.and_false, Bool.false_eq_true,
      if_false]
    split_ifs <;> simp
  | cons c rest ih =>
    intro s
    simp only [List.foldl_cons]
    rw [ih, read_byte_no_convert_format]

theorem read_file_fresh_fmt_mixed (flags : Flags) (f : List UInt8) (intr : Option Nat) (fd : Int)
    (undoable access_w_ok : Bool) (h : (read_lines flags.NO_CONVERT intr f).format = 3) :
    (read_file flags f intr fd undoable access_w_ok new_buffer).openfile.fmt
      = format_type.NIX_FILE := by
  simp only [read_file, new_buffer, h]
  simp

/-- C4, as amended (Mixed files are written back as Unix).  For every byte
sequence `b` that `read_file` classifies as Mixed (its classifier ends at 3):
reading `b` into a fresh buffer leaves the buffer's format at Unix, and when
`write_file` then writes the buffer under `OVERWRITE` (no open stream) and
returns `TRUE`, the target holds `b` with every `"\r\n"` and every remaining
`'\r'` replaced by `'\n'`. -/
theorem C4_mixed_written_as_unix (flags : Flags) (sys : System) (fs : FileSystem)
    (name : String) (b : List UInt8) (fd : Int) (undoable access_w_ok tmp fullbuffer : Bool)
    (hmixed : (read_file flags b none fd undoable access_w_ok new_buffer).format = 3)
    (hok : (write_file flags sys fs
      (read_file flags b none fd undoable access_w_ok new_buffer).openfile name none tmp
      kind_of_writing_type.OVERWRITE fullbuffer).retval = true) :
    (read_file flags b none fd undoable access_w_ok new_buffer).openfile.fmt
      = format_type.NIX_FILE ∧
    (write_file flags sys fs
      (read_file flags b none fd undoable access_w_ok new_buffer).openfile name none tmp
      kind_of_writing_type.OVERWRITE fullbuffer).fs (real_dir_from_tilde sys name)
      = some (to_unix b) := by
  rw [read_file_format] at hmixed
  have hconv : flags.NO_CONVERT = false := by
    cases hnc : flags.NO_CONVERT with
    | false => rfl
    | true =>
      rw [hnc] at hmixed
      simp only [read_lines, read_loop_none] at hmixed
      rw [read_no_convert_format] at hmixed
      exact absurd hmixed (by decide)
  have hfmt := read_file_fresh_fmt_mixed flags b none fd undoable access_w_ok hmixed
  have hstr : ∀ l ∈ (read_file flags b none fd undoable access_w_ok new_buffer).openfile.lines,
      (0 : UInt8) ∉ l := by
    rw [read_file_fresh_lines]
    exact read_lines_no_nul _ _ _
  refine ⟨hfmt, ?_⟩
  rw [write_file_overwrite flags sys fs _ name tmp fullbuffer hstr hok, hfmt,
    read_file_fresh_lines]
  rw [hconv] at hmixed ⊢
  simp only [read_lines, read_loop_none] at hmixed ⊢
  have hinv := read_to_unix_inv b ⟨[], [], 0, 0⟩ (List.not_mem_nil _) (List.not_mem_nil _)
    (Or.inl ⟨rfl, rfl⟩) hmixed
  simp only [List.map_nil, List.flatten_nil, List.nil_append] at hinv
  simp only [terminator]
  rw [hinv]

/-- C4 as amended, on a calm machine at the input "a CR LF b CR c LF". -/
theorem C4_mixed_written_as_unix_witness :
    ((read_file {} [97, 13, 10, 98, 13, 99, 10] none 3 false true new_buffer).format = 3 ∧
      (write_file {} calm_system (fun _ => none)
        (read_file {} [97, 13, 10, 98, 13, 99, 10] none 3 false true new_buffer).openfile
        "t" none false kind_of_writing_type.OVERWRITE true).retval = true) ∧
    ((read_file {} [97, 13, 10, 98, 13, 99, 10] none 3 false true new_buffer).openfile.fmt
      = format_type.NIX_FILE ∧
    (write_file {} calm_system (fun _ => none)
      (read_file {} [97, 13, 10, 98, 13, 99, 10] none 3 false true new_buffer).openfile
      "t" none false kind_of_writing_type.OVERWRITE true).fs (real_dir_from_tilde calm_system "t")
      = some (to_unix [97, 13, 10, 98, 13, 99, 10])) :=
  ⟨⟨by decide, by decide⟩,
    C4_mixed_written_as_unix {} calm_system (fun _ => none) "t" [97, 13, 10, 98, 13, 99, 10]
      3 false true false true (by decide) (by decide)⟩

/-- C4 as stated fails at "a CR LF b CR c LF": `read_file` classifies it as
Mixed, the fresh buffer keeps the Unix format, and the overwrite, which
succeeds, leaves "a LF b LF c LF" in the target, not the original bytes. -/
theorem C4_mixed_round_trip_counterexample :
    (read_file {} [97, 13, 10, 98, 13, 99, 10] none 3 false true new_buffer).format = 3 ∧
    (write_file {} calm_system (fun _ => none)
      (read_file {} [97, 13, 10, 98, 13, 99, 10] none 3 false true new_buffer).openfile
      "t" none false kind_of_writing_type.OVERWRITE true).retval = true ∧
    (write_file {} calm_system (fun _ => none)
      (read_file {} [97, 13, 10, 98, 13, 99, 10] none 3 false true new_buffer).openfile
      "t" none false kind_of_writing_type.OVERWRITE true).fs "t"
      = some [97, 10, 98, 10, 99, 10] ∧
    (write_file {} calm_system (fun _ => none)
      (read_file {} [97, 13, 10, 98, 13, 99, 10] none 3 false true new_buffer).openfile
      "t" none false kind_of_writing_type.OVERWRITE true).fs "t"
      ≠ some [97, 13, 10, 98, 13, 99, 10] := by
  refine ⟨by decide, by decide, by decide, by decide⟩


/-! ## Temporary files -/

/-- C11: a call of `write_file` for a temporary file (`tmp` true) with no
already-open stream whose target already exists returns `FALSE` at once: the
file system is the one it was given (nothing was opened, truncated or
written), the buffer is unchanged and no line was written.  The call does not
end the process either, the name being that of a file and so not empty. -/
theorem C11_tmp_never_clobbers (flags : Flags) (sys : System) (fs : FileSystem)
    (openfile : openfilestruct) (name : String) (method : kind_of_writing_type)
    (fullbuffer : Bool)
    (hexists : file_present fs (real_dir_from_tilde sys name) = true) :
    (write_file flags sys fs openfile name none true method fullbuffer).retval = false ∧
    (write_file flags sys fs openfile name none true method fullbuffer).fs = fs ∧
    (write_file flags sys fs openfile name none true method fullbuffer).openfile = openfile ∧
    (write_file flags sys fs openfile name none true method fullbuffer).lineswritten = 0 ∧
    (name ≠ "" →
      (write_file flags sys fs openfile name none true method fullbuffer).died = false) := by
  by_cases hname : name = ""
  · simp [write_file, hname]
  · simp [write_file, hname, hexists, cleanup_and_exit]

theorem C11_tmp_never_clobbers_witness :
    (write_file {} calm_system (one_file "/tmp/t" [97]) new_buffer "/tmp/t" none true
      kind_of_writing_type.OVERWRITE true).retval = false ∧
    (write_file {} calm_system (one_file "/tmp/t" [97]) new_buffer "/tmp/t" none true
      kind_of_writing_type.OVERWRITE true).fs = one_file "/tmp/t" [97] ∧
    (write_file {} calm_system (one_file "/tmp/t" [97]) new_buffer "/tmp/t" none true
      kind_of_writing_type.OVERWRITE true).openfile = new_buffer ∧
    (write_file {} calm_system (one_file "/tmp/t" [97]) new_buffer "/tmp/t" none true
      kind_of_writing_type.OVERWRITE true).lineswritten = 0 ∧
    ("/tmp/t" ≠ "" →
      (write_file {} calm_system (one_file "/tmp/t" [97]) new_buffer "/tmp/t" none true
        kind_of_writing_type.OVERWRITE true).died = false) :=
  C11_tmp_never_clobbers {} calm_system (one_file "/tmp/t" [97]) new_buffer "/tmp/t"
    kind_of_writing_type.OVERWRITE true (by decide)

/-! ## Confinement and tilde expansion -/

theorem strstr_zero_iff (haystack needle : List Char) :
    strstr haystack needle = some 0 ↔ needle <+: haystack := by
  cases haystack with
  | nil =>
    by_cases h : needle = []
    · simp [strstr, h]
    · simp [strstr, h]
  | cons c rest =>
    by_cases h : needle.isPrefixOf (c :: rest) = true
    · simp only [strstr, h, if_true, true_iff]
      exact List.isPrefixOf_iff_prefix.mp h
    · have h' : ¬ needle <+: c :: rest := fun hp => h (List.isPrefixOf_iff_prefix.mpr hp)
      simp only [strstr, h, if_false, Bool.false_eq_true]
      constructor
      · intro hs
        cases hr : strstr rest needle with
        | none => rw [hr] at hs; simp at hs
        | some offset => rw [hr] at hs; simp at hs
      · intro hp
        exact absurd hp h'

theorem strstr_beq_zero (haystack needle : List Char) :
    (strstr haystack needle == some 0) = decide (needle <+: haystack) := by
  by_cases hp : needle <+: haystack
  · simp [hp, (strstr_zero_iff haystack needle).mpr hp]
  · have hs : strstr haystack needle ≠ some 0 :=
      fun hs => hp ((strstr_zero_iff haystack needle).mp hs)
    simp [hp, hs]

theorem outside_of_confinement_resolved (sys : System) (r p currpath : String)
    (allow_tabcomp : Bool) (hroot : sys.operating_dir = some r)
    (hres : sys.get_full_path currpath = some p) :
    outside_of_confinement sys currpath allow_tabcomp = false ↔
      (r.data <+: p.data ∨ (allow_tabcomp = true ∧ p.data <+: r.data)) := by
  simp only [outside_of_confinement, hroot, hres, strstr_beq_zero]
  by_cases h1 : r.data <+: p.data <;> by_cases h2 : p.data <+: r.data <;>
    cases allow_tabcomp <;> simp [h1, h2]

/-- C18: with a confinement root `r` and `allow_tabcomp` false, a path whose
canonical form `p` resolves is accepted (`outside_of_confinement` returns
`FALSE`) exactly when `r` is a textual prefix of `p`, and is rejected (`TRUE`)
exactly when it is not; with no root every path is accepted. -/
theorem C18_confinement_finalized (sys : System) (r p currpath : String)
    (hres : sys.get_full_path currpath = some p) :
    (outside_of_confinement { sys with operating_dir := some r } currpath false = false ↔
      r.data <+: p.data) ∧
    (outside_of_confinement { sys with operating_dir := some r } currpath false = true ↔
      ¬ r.data <+: p.data) ∧
    (∀ (path : String) (allow_tabcomp : Bool),
      outside_of_confinement { sys with operating_dir := none } path allow_tabcomp = false) := by
  have h := outside_of_confinement_resolved { sys with operating_dir := some r } r p currpath
    false rfl hres
  have h2 : outside_of_confinement { sys with operating_dir := some r } currpath false = false ↔
      r.data <+: p.data := by
    rw [h]; simp
  refine ⟨h2, ?_, ?_⟩
  · rw [← h2]; simp
  · intro path allow_tabcomp
    simp [outside_of_confinement]

theorem C18_confinement_finalized_witness :
    (outside_of_confinement { calm_system with operating_dir := some "/home" } "/home/u/f"
      false = false ↔ "/home".data <+: "/home/u/f".data) ∧
    (outside_of_confinement { calm_system with operating_dir := some "/home" } "/home/u/f"
      false = true ↔ ¬ "/home".data <+: "/home/u/f".data) ∧
    (∀ (path : String) (allow_tabcomp : Bool),
      outside_of_confinement { calm_system with operating_dir := none } path allow_tabcomp
        = false) :=
  C18_confinement_finalized calm_system "/home" "/home/u/f" "/home/u/f" rfl

/-- C19: a resolvable canonical path `p` that is a proper textual prefix of the
root `r` is accepted when `allow_tabcomp` is true and rejected when it is
false; and whatever the root, a resolvable path accepted with `allow_tabcomp`
false is accepted with `allow_tabcomp` true. -/
theorem C19_confinement_tabcomp (sys : System) (r p currpath : String)
    (hres : sys.get_full_path currpath = some p) :
    (p.data <+: r.data → p.data ≠ r.data →
      outside_of_confinement { sys with operating_dir := some r } currpath true = false ∧
      outside_of_confinement { sys with operating_dir := some r } currpath false = true) ∧
    (outside_of_confinement sys currpath false = false →
      outside_of_confinement sys currpath true = false) := by
  constructor
  · intro hpre hne
    have ht := outside_of_confinement_resolved { sys with operating_dir := some r } r p
      currpath true rfl hres
    have hf := outside_of_confinement_resolved { sys with operating_dir := some r } r p
      currpath false rfl hres
    refine ⟨ht.mpr (Or.inr ⟨rfl, hpre⟩), ?_⟩
    cases hv : outside_of_confinement { sys with operating_dir := some r } currpath false with
    | true => rfl
    | false =>
      rcases hf.mp hv with h | h
      · exact absurd (List.IsPrefix.eq_of_length_le hpre h.length_le) hne
      · simp at h
  · intro hacc
    cases hroot : sys.operating_dir with
    | none => simp [outside_of_confinement, hroot]
    | some root =>
      have ht := outside_of_confinement_resolved sys root p currpath true hroot hres
      have hf := outside_of_confinement_resolved sys root p currpath false hroot hres
      rcases hf.mp hacc with h | h
      · exact ht.mpr (Or.inl h)
      · simp at h

theorem C19_confinement_tabcomp_witness :
    (outside_of_confinement { calm_system with operating_dir := some "/home" } "/ho" true
        = false ∧
      outside_of_confinement { calm_system with operating_dir := some "/home" } "/ho" false
        = true) ∧
    outside_of_confinement { calm_system with operating_dir := some "/home" } "/home/u" true
      = false :=
  ⟨(C19_confinement_tabcomp calm_system "/home" "/ho" "/ho" rfl).1 (by decide) (by decide),
    (C19_confinement_tabcomp { calm_system with operating_dir := some "/home" } "/home"
      "/home/u" "/home/u" rfl).2 (by decide)⟩

theorem takeWhile_name (name rest : List Char) (hname : '/' ∉ name)
    (hrest : rest = [] ∨ rest.head? = some '/') :
    (name ++ rest).takeWhile (fun c => c ≠ '/') = name ∧
    (name ++ rest).dropWhile (fun c => c ≠ '/') = rest := by
  induction name with
  | nil =>
    rcases hrest with h | h
    · subst h; simp
    · cases rest with
      | nil => simp
      | cons c t =>
        simp only [List.head?_cons, Option.some.injEq] at h
        subst h
        simp
  | cons c t ih =>
    have hc : c ≠ '/' := fun h => hname (by simp [h])
    have ht : '/' ∉ t := fun h => hname (by simp [h])
    obtain ⟨h1, h2⟩ := ih ht
    simp only [List.cons_append, List.takeWhile_cons, List.dropWhile_cons, ne_eq, hc,
      not_false_eq_true, decide_True, if_true]
    exact ⟨congrArg (List.cons c) h1, h2⟩

theorem real_dir_from_tilde_unknown (sys : System) (name rest : String)
    (hne : name ≠ "") (hname : '/' ∉ name.data)
    (hrest : rest = "" ∨ rest.data.head? = some '/')
    (hunknown : ∀ userdata ∈ sys.passwd, userdata.1 ≠ name) :
    real_dir_from_tilde sys ("~" ++ name ++ rest) =
      if sys.HAVE_PWD_H then "~" ++ name ++ rest else rest := by
  have hrest' : rest.data = [] ∨ rest.data.head? = some '/' := by
    rcases hrest with h | h
    · left; rw [h]
    · right; exact h
  obtain ⟨h1, h2⟩ := takeWhile_name name.data rest.data hname hrest'
  have hdata : ("~" ++ name ++ rest).data = '~' :: (name.data ++ rest.data) := by
    simp [String.data_append]
  have hnd : name.data ≠ [] := fun h => hne (String.ext h)
  have hfind : sys.passwd.find? (fun userdata => userdata.1.data = name.data) = none := by
    rw [List.find?_eq_none]
    intro userdata hmem
    have hx := hunknown userdata hmem
    simp only [decide_eq_true_eq]
    exact fun h => hx (String.ext h)
  unfold real_dir_from_tilde
  rw [hdata]
  simp only [h1, h2, hnd, if_false, hfind]
  cases sys.HAVE_PWD_H
  · simp only [Bool.false_eq_true, if_false]
    apply String.ext
    simp [String.data_append]
  · simp only [if_true]
    apply String.ext
    simp [String.data_append]

/-- C20, amended: for a path `"~name" + rest` (`rest` empty or starting with
`/`) whose non-empty `name` is not in the account database,
`real_dir_from_tilde` returns the path unchanged when the build has the
account database (`HAVE_PWD_H`), and exactly `rest` when it has not; it
returns a string in both cases, signalling no error. -/
theorem C20_unknown_user_amended (sys : System) (name rest : String)
    (hne : name ≠ "") (hname : '/' ∉ name.data)
    (hrest : rest = "" ∨ rest.data.head? = some '/')
    (hunknown : ∀ userdata ∈ sys.passwd, userdata.1 ≠ name) :
    (sys.HAVE_PWD_H = true → real_dir_from_tilde sys ("~" ++ name ++ rest)
      = "~" ++ name ++ rest) ∧
    (sys.HAVE_PWD_H = false → real_dir_from_tilde sys ("~" ++ name ++ rest) = rest) := by
  rw [real_dir_from_tilde_unknown sys name rest hne hname hrest hunknown]
  constructor
  · intro h; rw [h]; rfl
  · intro h; rw [h]; rfl

theorem C20_unknown_user_amended_witness :
    real_dir_from_tilde { calm_system with passwd := [("ann", "/home/ann")] }
      ("~" ++ "bob" ++ "/x") = "~" ++ "bob" ++ "/x" ∧
    real_dir_from_tilde
      { calm_system with passwd := [("ann", "/home/ann")], HAVE_PWD_H := false }
      ("~" ++ "bob" ++ "/x") = "/x" :=
  ⟨(C20_unknown_user_amended { calm_system with passwd := [("ann", "/home/ann")] } "bob" "/x"
      (by decide) (by decide) (by decide) (by decide)).1 rfl,
    (C20_unknown_user_amended
      { calm_system with passwd := [("ann", "/home/ann")], HAVE_PWD_H := false } "bob" "/x"
      (by decide) (by decide) (by decide) (by decide)).2 rfl⟩

/-- C20 as stated fails in a build with the account database: for `~bob/x`
with no account `bob`, `real_dir_from_tilde` returns `~bob/x`, not `/x`. -/
theorem C20_unknown_user_counterexample :
    (∀ userdata ∈ calm_system.passwd, userdata.1 ≠ "bob") ∧
    real_dir_from_tilde calm_system "~bob/x" = "~bob/x" ∧
    real_dir_from_tilde calm_system "~bob/x" ≠ "/x" := by
  refine ⟨by decide, by decide, by decide⟩

/-! ## Free names -/

theorem digitChar_toNat : ∀ m < 10, (Nat.digitChar m).toNat = 48 + m := by decide

/-- Reading the digits that `Nat.toDigitsCore` puts before `ds` gives `n` back. -/
theorem toDigitsCore_decode : ∀ (fuel n : Nat) (ds : List Char), n < fuel →
    (Nat.toDigitsCore 10 fuel n ds).foldl (fun acc c => acc * 10 + (c.toNat - 48)) 0 =
      ds.foldl (fun acc c => acc * 10 + (c.toNat - 48)) n := by
  intro fuel
  induction fuel with
  | zero => intro n ds h; omega
  | succ fuel ih =>
    intro n ds h
    have hd : (Nat.digitChar (n % 10)).toNat - 48 = n % 10 := by
      rw [digitChar_toNat _ (Nat.mod_lt _ (by decide))]; omega
    rw [Nat.toDigitsCore]
    by_cases h0 : n / 10 = 0
    · simp only [h0, if_true, List.foldl_cons, hd]
      congr 1
      omega
    · simp only [h0, if_false]
      rw [ih (n / 10) _ (by omega)]
      simp only [List.foldl_cons, hd]
      congr 1
      omega

theorem toString_nat_injective (j k : Nat) (h : toString j = toString k) : j = k := by
  have hj := toDigitsCore_decode (j + 1) j [] (Nat.lt_succ_self j)
  have hk := toDigitsCore_decode (k + 1) k [] (Nat.lt_succ_self k)
  have hd : Nat.toDigits 10 j = Nat.toDigits 10 k := by
    have h2 : (toString j).data = (toString k).data := by rw [h]
    exact h2
  simp only [List.foldl_nil] at hj hk
  rw [← hj, ← hk]
  exact congrArg (List.foldl (fun acc c => acc * 10 + (c.toNat - 48)) 0) hd

theorem candidate_zero (whole : String) : candidate whole 0 = whole := rfl

theorem candidate_succ (whole : String) (k : Nat) :
    candidate whole (k + 1) = whole ++ "." ++ toString (k + 1) := by
  simp [candidate]

theorem candidate_injective (whole : String) (j k : Nat) (h : candidate whole j = candidate whole k) :
    j = k := by
  have hlen : ∀ m : Nat, (whole ++ "." ++ toString m).length = whole.length + 1 + (toString m).length := by
    intro m
    have hdot : ".".length = 1 := rfl
    simp only [String.length_append, hdot]
  unfold candidate at h
  by_cases hj : j = 0 <;> by_cases hk : k = 0
  · rw [hj, hk]
  · simp only [hj, hk, if_true, if_false] at h
    have h2 := congrArg String.length h
    rw [hlen] at h2
    omega
  · simp only [hj, hk, if_true, if_false] at h
    have h2 := congrArg String.length h
    rw [hlen] at h2
    omega
  · simp only [hj, hk, if_false] at h
    apply toString_nat_injective
    have h2 := congrArg String.data h
    simp only [String.data_append, List.append_assoc] at h2
    exact String.ext (List.append_cancel_left (List.append_cancel_left h2))

theorem candidate_ne_empty (whole : String) (k : Nat) (h : whole ≠ "" ∨ k ≠ 0) :
    candidate whole k ≠ "" := by
  intro he
  unfold candidate at he
  by_cases hk : k = 0
  · simp only [hk, if_true] at he
    rcases h with h | h
    · exact h he
    · exact h hk
  · simp only [hk, if_false] at he
    have h2 := congrArg String.length he
    have hdot : ".".length = 1 := rfl
    have hemp : "".length = 0 := rfl
    simp only [String.length_append, hdot, hemp] at h2
    omega

theorem get_next_filename_loop_least (fs : FileSystem) (whole : String) (k : Nat)
    (hk : k < 100000) (hpresent : ∀ j < k, file_present fs (candidate whole j) = true)
    (habsent : file_present fs (candidate whole k) = false) :
    ∀ (fuel i : Nat), i + fuel = 100000 → i ≤ k →
      get_next_filename_loop fs whole fuel i (candidate whole i) = candidate whole k := by
  intro fuel
  induction fuel with
  | zero => intro i h1 h2; omega
  | succ fuel ih =>
    intro i h1 h2
    rw [get_next_filename_loop]
    by_cases hik : i = k
    · subst hik
      simp [habsent]
    · have hp := hpresent i (by omega)
      have hne : i + 1 ≠ 100000 := by omega
      simp only [hp, hne, Bool.not_true, Bool.false_eq_true, if_false]
      rw [← candidate_succ]
      exact ih (i + 1) (by omega) (by omega)

theorem get_next_filename_loop_full (fs : FileSystem) (whole : String)
    (hall : ∀ j < 100000, file_present fs (candidate whole j) = true) :
    ∀ (fuel i : Nat), i + fuel = 100000 →
      get_next_filename_loop fs whole fuel i (candidate whole i) = "" := by
  intro fuel
  induction fuel with
  | zero => intro i _; rfl
  | succ fuel ih =>
    intro i h1
    rw [get_next_filename_loop]
    have hp := hall i (by omega)
    by_cases hne : i + 1 = 100000
    · simp [hp, hne]
    · simp only [hp, hne, Bool.not_true, Bool.false_eq_true, if_false]
      rw [← candidate_succ]
      exact ih (i + 1) (by omega)

theorem toDigitsCore_ascii : ∀ (fuel n : Nat) (ds : List Char), (∀ c ∈ ds, c.toNat < 128) →
    ∀ c ∈ Nat.toDigitsCore 10 fuel n ds, c.toNat < 128 := by
  intro fuel
  induction fuel with
  | zero => intro n ds h; simpa [Nat.toDigitsCore] using h
  | succ fuel ih =>
    intro n ds h
    have hd : (Nat.digitChar (n % 10)).toNat < 128 := by
      rw [digitChar_toNat _ (Nat.mod_lt _ (by decide))]
      have := Nat.mod_lt n (show 10 > 0 by decide)
      omega
    have hds : ∀ c ∈ Nat.digitChar (n % 10) :: ds, c.toNat < 128 := by
      intro c hc
      rcases List.mem_cons.mp hc with h1 | h1
      · rw [h1]; exact hd
      · exact h c h1
    rw [Nat.toDigitsCore]
    by_cases h0 : n / 10 = 0
    · simp only [h0, if_true]
      exact hds
    · simp only [h0, if_false]
      exact ih _ _ hds

/-- The text that `".%lu"` makes of a number below 100000 has at most six
characters, each of one byte. -/
theorem extension_small (m : Nat) (hm : m < 100000) :
    ("." ++ toString m).length + 1 ≤ 7 ∧ ∀ c ∈ ("." ++ toString m).data, c.toNat < 128 := by
  constructor
  · have hdot : ".".length = 1 := rfl
    have hr : (toString m).length ≤ 5 := Nat.repr_length m 5 (by decide) (by omega)
    rw [String.length_append, hdot]
    omega
  · intro c hc
    rw [String.data_append] at hc
    rcases List.mem_append.mp hc with h1 | h1
    · have h2 : c = '.' := by simpa using h1
      rw [h2]; decide
    · exact toDigitsCore_ascii (m + 1) m [] (by simp) c h1

theorem get_next_filename_writes_small (fs : FileSystem) (whole : String) :
    ∀ (fuel i : Nat) (buf : String), i + fuel ≤ 100000 →
      ∀ ext ∈ get_next_filename_writes fs whole fuel i buf,
        ext.length + 1 ≤ 7 ∧ ∀ c ∈ ext.data, c.toNat < 128 := by
  intro fuel
  induction fuel with
  | zero => intro i buf _ ext hext; simp [get_next_filename_writes] at hext
  | succ fuel ih =>
    intro i buf h ext hext
    rw [get_next_filename_writes] at hext
    by_cases hp : file_present fs buf = true
    · by_cases hne : i + 1 = 100000
      · simp [hp, hne] at hext
      · simp only [hp, hne, Bool.not_true, Bool.false_eq_true, if_false] at hext
        rcases List.mem_cons.mp hext with h1 | h1
        · rw [h1]
          exact extension_small (i + 1) (by omega)
        · exact ih (i + 1) _ (by omega) ext h1
    · simp [hp] at hext

/-- C16, amended: `get_next_filename` returns the first of the 100000 candidates
`name+suffix`, `name+suffix.1`, ..., `name+suffix.99999` that does not exist;
when `name+suffix` is not empty, it returns the empty string if and only if
all 100000 candidates exist; and every `.k` extension it writes has at most
six one-byte characters, so that with its NUL it fits the 7 bytes reserved. -/
theorem C16_first_free_name_amended (fs : FileSystem) (name suffix : String) :
    (candidate (name ++ suffix) 0 = name ++ suffix ∧
      ∀ k, candidate (name ++ suffix) (k + 1) = name ++ suffix ++ "." ++ toString (k + 1)) ∧
    (∀ k < 100000, (∀ j < k, file_present fs (candidate (name ++ suffix) j) = true) →
      file_present fs (candidate (name ++ suffix) k) = false →
      get_next_filename fs name suffix = candidate (name ++ suffix) k) ∧
    (name ++ suffix ≠ "" →
      (get_next_filename fs name suffix = "" ↔
        ∀ k < 100000, file_present fs (candidate (name ++ suffix) k) = true)) ∧
    (∀ ext ∈ get_next_filename_writes fs (name ++ suffix) 100000 0 (name ++ suffix),
      ext.length + 1 ≤ 7 ∧ ∀ c ∈ ext.data, c.toNat < 128) := by
  have hleast : ∀ k < 100000, (∀ j < k, file_present fs (candidate (name ++ suffix) j) = true) →
      file_present fs (candidate (name ++ suffix) k) = false →
      get_next_filename fs name suffix = candidate (name ++ suffix) k := by
    intro k hk hpresent habsent
    exact get_next_filename_loop_least fs _ k hk hpresent habsent 100000 0 rfl (Nat.zero_le k)
  refine ⟨⟨rfl, candidate_succ _⟩, hleast, ?_, ?_⟩
  · intro hne
    constructor
    · intro hempty
      by_contra hall
      have hex : ∃ k, k < 100000 ∧ file_present fs (candidate (name ++ suffix) k) = false := by
        by_contra hno
        apply hall
        intro k hk
        cases hv : file_present fs (candidate (name ++ suffix) k) with
        | true => rfl
        | false => exact absurd ⟨k, hk, hv⟩ hno
      have hspec := Nat.find_spec hex
      have hmin : ∀ j < Nat.find hex, file_present fs (candidate (name ++ suffix) j) = true := by
        intro j hj
        cases hv : file_present fs (candidate (name ++ suffix) j) with
        | true => rfl
        | false => exact absurd ⟨Nat.lt_trans hj hspec.1, hv⟩ (Nat.find_min hex hj)
      have hres := hleast (Nat.find hex) hspec.1 hmin hspec.2
      rw [hempty] at hres
      exact candidate_ne_empty _ _ (Or.inl hne) hres.symm
    · intro hall
      exact get_next_filename_loop_full fs _ hall 100000 0 rfl
  · exact get_next_filename_writes_small fs _ 100000 0 _ (by omega)

theorem C16_first_free_name_amended_witness :
    get_next_filename (put_file (one_file "t~" []) "t~.1" []) "t" "~"
      = candidate ("t" ++ "~") 2 ∧
    (get_next_filename (put_file (one_file "t~" []) "t~.1" []) "t" "~" = "" ↔
      ∀ k < 100000,
        file_present (put_file (one_file "t~" []) "t~.1" []) (candidate ("t" ++ "~") k) = true) :=
  ⟨(C16_first_free_name_amended (put_file (one_file "t~" []) "t~.1" []) "t" "~").2.1 2
      (by decide) (by decide) (by decide),
    (C16_first_free_name_amended (put_file (one_file "t~" []) "t~.1" []) "t" "~").2.2.1
      (by decide)⟩

/-- C16 as stated fails for an empty `name+suffix`: no file has the empty name,
so `get_next_filename` returns its first candidate, which is the empty string,
although not one of the candidates exists. -/
theorem C16_first_free_name_counterexample :
    get_next_filename (fun _ => none) "" "" = "" ∧
    file_present (fun _ => none) ("" ++ "") = false ∧
    ¬ ∀ k < 100000, file_present (fun _ => none) (candidate ("" ++ "") k) = true := by
  refine ⟨by decide, by decide, ?_⟩
  intro h
  exact absurd (h 0 (by decide)) (by decide)

/-! ## Successive backups -/

theorem file_present_put_same (fs : FileSystem) (p : String) (d : List UInt8) :
    file_present (put_file fs p d) p = true := by
  simp [file_present, put_file]

theorem fill_backup_makes (flags : Flags) (sys : System) (fs : FileSystem) (f : InStream)
    (b : String) (hb : file_present fs b = true) :
    file_present (stage_fs (fill_backup flags sys fs f b)) b = true := by
  unfold fill_backup
  generalize copy_file f ⟨(fs b).getD [], sys.backup_room⟩ sys.backup_flush_fails = c
  simp only
  split_ifs <;>
    simp only [backup_ask_fs, stage_fs_next, stage_fs_cleanup, file_present_put_same, hb]

theorem create_backup_makes (flags : Flags) (sys : System) (fs : FileSystem) (f : InStream)
    (b : String) (hopen : sys.backup_open_fails = false) (hb : file_present fs b = false) :
    file_present (stage_fs (create_backup flags sys fs f b)) b = true := by
  have hr : file_present (remove_file fs b) b = false := by
    simp [file_present, remove_file]
  unfold create_backup
  simp only [hb, hopen, Bool.false_and, Bool.false_eq_true, if_false, hr, Bool.and_false,
    Bool.or_false]
  split_ifs
  · simp only [stage_fs_cleanup, file_present_put_same]
  · exact fill_backup_makes _ _ _ _ _ (file_present_put_same _ _ _)

theorem make_backup_makes (flags : Flags) (sys : System) (fs : FileSystem) (realname b : String)
    (hfopen : sys.backup_fopen_fails = false) (hopen : sys.backup_open_fails = false)
    (hname : backup_name sys fs realname = some b) (hb : file_present fs b = false) :
    file_present (stage_fs (make_backup flags sys fs realname none)) b = true ∧
    ∀ q, q ≠ b → stage_fs (make_backup flags sys fs realname none) q = fs q := by
  unfold make_backup
  simp only [hfopen, Bool.and_false, Bool.false_eq_true, if_false, hname]
  exact ⟨create_backup_makes _ _ _ _ _ hopen hb, fun q hq => create_backup_keeps _ _ _ _ _ _ hq⟩

theorem write_to_stream_plain_fs (sys : System) (fs : FileSystem) (openfile : openfilestruct)
    (realname path : String) (tmp fullbuffer : Bool) (method : kind_of_writing_type)
    (hm : method ≠ kind_of_writing_type.PREPEND) :
    (file_present (write_to_stream sys fs openfile realname path tmp method fullbuffer none).fs
      path = true ∧
    ∀ q, q ≠ path →
      (write_to_stream sys fs openfile realname path tmp method fullbuffer none).fs q = fs q) ∧
    ((write_to_stream sys fs openfile realname path tmp method fullbuffer none).openfile.current_stat
        = openfile.current_stat ∨
      (write_to_stream sys fs openfile realname path tmp method fullbuffer none).openfile.current_stat
        = sys.st_after) := by
  unfold write_to_stream finish_stream
  generalize write_lines openfile.fmt openfile.lines ⟨(fs path).getD [], sys.target_room⟩ 0 = r
  simp only [hm, if_false]
  split_ifs <;>
    simp [cleanup_and_exit, file_present_put_same, put_file_other]
  all_goals (intro q hq; exact put_file_other _ _ _ _ hq)

theorem write_after_backup_overwrite_fs (sys : System) (fs : FileSystem)
    (openfile : openfilestruct) (realname : String) (fullbuffer : Bool)
    (hp : file_present fs realname = true) :
    (file_present (write_after_backup sys fs openfile realname none false
      kind_of_writing_type.OVERWRITE fullbuffer).fs realname = true ∧
    ∀ q, q ≠ realname →
      (write_after_backup sys fs openfile realname none false
        kind_of_writing_type.OVERWRITE fullbuffer).fs q = fs q) ∧
    ((write_after_backup sys fs openfile realname none false
        kind_of_writing_type.OVERWRITE fullbuffer).openfile.current_stat = openfile.current_stat ∨
      (write_after_backup sys fs openfile realname none false
        kind_of_writing_type.OVERWRITE fullbuffer).openfile.current_stat = sys.st_after) := by
  have hm : kind_of_writing_type.OVERWRITE ≠ kind_of_writing_type.PREPEND := by decide
  have ha : kind_of_writing_type.OVERWRITE ≠ kind_of_writing_type.APPEND := by decide
  unfold write_after_backup write_in_place open_in_place
  simp only [hm, ha, if_false, Bool.and_false, Bool.false_and, Bool.or_false]
  by_cases ho : sys.target_open_fails = true
  · simp only [ho, if_true, cleanup_and_exit]
    exact ⟨⟨hp, fun _ _ => trivial⟩, Or.inl trivial⟩
  · by_cases hd : sys.target_fdopen_fails = true
    · simp only [ho, hd, if_true, if_false, cleanup_and_exit, Bool.false_eq_true]
      exact ⟨⟨file_present_put_same _ _ _, fun q hq => put_file_other _ _ _ _ hq⟩, Or.inl trivial⟩
    · simp only [ho, hd, if_false, Bool.false_eq_true]
      obtain ⟨⟨h1, h2⟩, h3⟩ := write_to_stream_plain_fs sys (put_file fs realname []) openfile
        realname realname false fullbuffer kind_of_writing_type.OVERWRITE hm
      refine ⟨⟨h1, fun q hq => ?_⟩, h3⟩
      rw [h2 q hq, put_file_other _ _ _ _ hq]

/-- One full save that has a backup to make under the free name `b`: afterwards
`b` and the target exist, every other file is as it was, and the buffer's stat
is the one it had, the one taken before the save, or the one taken after it. -/
theorem write_file_backup_step (flags : Flags) (sys : System) (fs : FileSystem)
    (openfile : openfilestruct) (name b : String) (hflag : flags.BACKUP_FILE = true)
    (hname : name ≠ "")
    (hconf : outside_of_confinement sys (real_dir_from_tilde sys name) false = false)
    (hfopen : sys.backup_fopen_fails = false) (hopen : sys.backup_open_fails = false)
    (hp : file_present fs (real_dir_from_tilde sys name) = true)
    (hstat : ∀ s, openfile.current_stat = some s → s.st_mtime = sys.st.st_mtime)
    (hb : backup_name sys fs (real_dir_from_tilde sys name) = some b)
    (habsent : file_present fs b = false) :
    file_present (write_file flags sys fs openfile name none false
      kind_of_writing_type.OVERWRITE true).fs (real_dir_from_tilde sys name) = true ∧
    file_present (write_file flags sys fs openfile name none false
      kind_of_writing_type.OVERWRITE true).fs b = true ∧
    (∀ q, q ≠ b → q ≠ real_dir_from_tilde sys name →
      (write_file flags sys fs openfile name none false
        kind_of_writing_type.OVERWRITE true).fs q = fs q) ∧
    ((write_file flags sys fs openfile name none false
        kind_of_writing_type.OVERWRITE true).openfile.current_stat = openfile.current_stat ∨
      (write_file flags sys fs openfile name none false
        kind_of_writing_type.OVERWRITE true).openfile.current_stat = some sys.st ∨
      (write_file flags sys fs openfile name none false
        kind_of_writing_type.OVERWRITE true).openfile.current_stat = sys.st_after) := by
  have hne : real_dir_from_tilde sys name ≠ b := backup_name_ne _ _ _ _ hp hb
  obtain ⟨hm1, hm2⟩ := make_backup_makes flags sys fs _ b hfopen hopen hb habsent
  have hmp : file_present (stage_fs (make_backup flags sys fs (real_dir_from_tilde sys name) none))
      (real_dir_from_tilde sys name) = true := by
    unfold file_present
    rw [hm2 _ hne]
    exact hp
  unfold write_file
  simp only [hname, if_false, hconf, Bool.not_false, Bool.true_and, Bool.false_eq_true, hp,
    Bool.false_and, hflag, Bool.and_true]
  cases hcs : openfile.current_stat with
  | none =>
    simp only [Option.isNone_none, if_true, beq_self_eq_true, Bool.or_true]
    cases hmb : make_backup flags sys fs (real_dir_from_tilde sys name) none with
    | cleanup_and_exit fs1 =>
      rw [hmb] at hm1 hm2 hmp
      simp only [stage_fs_cleanup] at hm1 hm2 hmp
      simp only [cleanup_and_exit]
      exact ⟨hmp, hm1, fun q hq _ => hm2 q hq, Or.inr (Or.inl trivial)⟩
    | next fs1 =>
      rw [hmb] at hm1 hm2 hmp
      simp only [stage_fs_next] at hm1 hm2 hmp
      simp only
      obtain ⟨⟨h1, h2⟩, h3⟩ := write_after_backup_overwrite_fs sys fs1
        { openfile with current_stat := some sys.st } (real_dir_from_tilde sys name) true hmp
      refine ⟨h1, ?_, fun q hq hq2 => ?_, ?_⟩
      · unfold file_present
        rw [h2 b (Ne.symm hne)]
        exact hm1
      · rw [h2 q hq2, hm2 q hq]
      · rcases h3 with h3 | h3
        · exact Or.inr (Or.inl h3)
        · exact Or.inr (Or.inr h3)
  | some s =>
    have hs := hstat s hcs
    simp only [Option.isNone_some, Bool.false_eq_true, if_false, hcs, hs, beq_self_eq_true,
      Bool.or_true, if_true]
    cases hmb : make_backup flags sys fs (real_dir_from_tilde sys name) none with
    | cleanup_and_exit fs1 =>
      rw [hmb] at hm1 hm2 hmp
      simp only [stage_fs_cleanup] at hm1 hm2 hmp
      simp only [cleanup_and_exit]
      exact ⟨hmp, hm1, fun q hq _ => hm2 q hq, Or.inl hcs⟩
    | next fs1 =>
      rw [hmb] at hm1 hm2 hmp
      simp only [stage_fs_next] at hm1 hm2 hmp
      simp only
      obtain ⟨⟨h1, h2⟩, h3⟩ := write_after_backup_overwrite_fs sys fs1 openfile
        (real_dir_from_tilde sys name) true hmp
      refine ⟨h1, ?_, fun q hq hq2 => ?_, ?_⟩
      · unfold file_present
        rw [h2 b (Ne.symm hne)]
        exact hm1
      · rw [h2 q hq2, hm2 q hq]
      · rcases h3 with h3 | h3
        · exact Or.inl (h3.trans hcs)
        · exact Or.inr (Or.inr h3)

theorem backup_name_candidate (sys : System) (fs : FileSystem) (realname d full : String)
    (k : Nat) (hdir : sys.backup_dir = some d) (hfull : sys.get_full_path realname = some full)
    (hk : k < 100000)
    (hpresent : ∀ j < k, file_present fs (candidate
      (d ++ String.mk (full.data.map (fun c => if c = '/' then '!' else c)) ++ "~") j) = true)
    (habsent : file_present fs (candidate
      (d ++ String.mk (full.data.map (fun c => if c = '/' then '!' else c)) ++ "~") k) = false) :
    backup_name sys fs realname = some (candidate
      (d ++ String.mk (full.data.map (fun c => if c = '/' then '!' else c)) ++ "~") k) := by
  have hres : get_next_filename fs
      (d ++ String.mk (full.data.map (fun c => if c = '/' then '!' else c))) "~" = candidate
      (d ++ String.mk (full.data.map (fun c => if c = '/' then '!' else c)) ++ "~") k :=
    get_next_filename_loop_least fs _ k hk hpresent habsent 100000 0 rfl (Nat.zero_le k)
  have hne : candidate
      (d ++ String.mk (full.data.map (fun c => if c = '/' then '!' else c)) ++ "~") k ≠ "" := by
    apply candidate_ne_empty
    left
    intro he
    have h2 := congrArg String.length he
    have htilde : "~".length = 1 := rfl
    have hemp : "".length = 0 := rfl
    simp only [String.length_append, htilde, hemp] at h2
    omega
  unfold backup_name
  simp only [hdir, hfull, hres, hne, if_false]

/-- The state after `k` of `n` successive saves: the target exists, the buffer's
stat has the time of the file, and of the first `n` candidate names exactly the
first `k` exist. -/
theorem successive_writes_inv (flags : Flags) (sys : System) (fs : FileSystem)
    (openfile : openfilestruct) (name d full : String) (n : Nat) (hn : n ≤ 100000)
    (hflag : flags.BACKUP_FILE = true) (hname : name ≠ "")
    (hconf : outside_of_confinement sys (real_dir_from_tilde sys name) false = false)
    (hdir : sys.backup_dir = some d)
    (hfull : sys.get_full_path (real_dir_from_tilde sys name) = some full)
    (hfopen : sys.backup_fopen_fails = false) (hopen : sys.backup_open_fails = false)
    (hafter : ∀ s, sys.st_after = some s → s.st_mtime = sys.st.st_mtime)
    (hstat : ∀ s, openfile.current_stat = some s → s.st_mtime = sys.st.st_mtime)
    (hp : file_present fs (real_dir_from_tilde sys name) = true)
    (hfree : ∀ j < n, file_present fs (candidate
      (d ++ String.mk (full.data.map (fun c => if c = '/' then '!' else c)) ++ "~") j) = false) :
    ∀ k ≤ n,
      file_present (successive_writes flags sys name k (fs, openfile)).1
        (real_dir_from_tilde sys name) = true ∧
      (∀ s, (successive_writes flags sys name k (fs, openfile)).2.current_stat = some s →
        s.st_mtime = sys.st.st_mtime) ∧
      (∀ j < n, file_present (successive_writes flags sys name k (fs, openfile)).1 (candidate
        (d ++ String.mk (full.data.map (fun c => if c = '/' then '!' else c)) ++ "~") j)
          = decide (j < k)) := by
  intro k
  induction k with
  | zero =>
    intro _
    refine ⟨hp, hstat, fun j hj => ?_⟩
    simp only [successive_writes, Nat.not_lt_zero, decide_False]
    exact hfree j hj
  | succ k ih =>
    intro hk
    obtain ⟨i1, i2, i3⟩ := ih (by omega)
    have hpres : ∀ j < k, file_present (successive_writes flags sys name k (fs, openfile)).1
        (candidate (d ++ String.mk (full.data.map (fun c => if c = '/' then '!' else c)) ++ "~")
          j) = true := by
      intro j hj
      rw [i3 j (by omega)]
      simp [hj]
    have habs : file_present (successive_writes flags sys name k (fs, openfile)).1
        (candidate (d ++ String.mk (full.data.map (fun c => if c = '/' then '!' else c)) ++ "~")
          k) = false := by
      rw [i3 k (by omega)]
      simp
    have hb := backup_name_candidate sys _ _ d full k hdir hfull (by omega) hpres habs
    obtain ⟨s1, s2, s3, s4⟩ := write_file_backup_step flags sys _
      (successive_writes flags sys name k (fs, openfile)).2 name _ hflag hname hconf hfopen hopen
      i1 i2 hb habs
    refine ⟨s1, ?_, fun j hj => ?_⟩
    · intro s hs
      simp only [successive_writes] at hs
      rcases s4 with h | h | h
      · exact i2 s (h.symm.trans hs)
      · rw [h] at hs
        simp only [Option.some.injEq] at hs
        rw [← hs]
      · exact hafter s (h.symm.trans hs)
    · simp only [successive_writes]
      by_cases hjk : j = k
      · rw [hjk, s2]
        simp
      · have hne1 : candidate
            (d ++ String.mk (full.data.map (fun c => if c = '/' then '!' else c)) ++ "~") j ≠
            candidate
            (d ++ String.mk (full.data.map (fun c => if c = '/' then '!' else c)) ++ "~") k :=
          fun h => hjk (candidate_injective _ _ _ h)
        have hne2 : candidate
            (d ++ String.mk (full.data.map (fun c => if c = '/' then '!' else c)) ++ "~") j ≠
            real_dir_from_tilde sys name := by
          intro h
          have h2 := hfree j hj
          rw [h, hp] at h2
          exact absurd h2 (by decide)
        unfold file_present
        rw [s3 _ hne1 hne2]
        have h3 := i3 j hj
        unfold file_present at h3
        rw [h3]
        have hiff : (j < k + 1) ↔ (j < k) := by omega
        simp only [hiff]

/-- C17, amended: with backups enabled and a backup directory `d` set, `n` (at
most 100000, so in particular 150) successive full saves of the same existing
target, whose canonical path is `full`, use the backup names `B~`, `B~.1`, ...,
`B~.(n-1)` in that order, where `B` is `d` followed by `full` with every `/`
replaced by `!`: the `k`-th save finds that name free and leaves a file under
it.  The names are pairwise distinct.  None of the names exists before the
first save, and the original and the backup file can be opened each time. -/
theorem C17_backup_names_amended (flags : Flags) (sys : System) (fs : FileSystem)
    (openfile : openfilestruct) (name d full : String) (n : Nat) (hn : n ≤ 100000)
    (hflag : flags.BACKUP_FILE = true) (hname : name ≠ "")
    (hconf : outside_of_confinement sys (real_dir_from_tilde sys name) false = false)
    (hdir : sys.backup_dir = some d)
    (hfull : sys.get_full_path (real_dir_from_tilde sys name) = some full)
    (hfopen : sys.backup_fopen_fails = false) (hopen : sys.backup_open_fails = false)
    (hafter : ∀ s, sys.st_after = some s → s.st_mtime = sys.st.st_mtime)
    (hstat : ∀ s, openfile.current_stat = some s → s.st_mtime = sys.st.st_mtime)
    (hp : file_present fs (real_dir_from_tilde sys name) = true)
    (hfree : ∀ j < n, file_present fs (candidate
      (d ++ String.mk (full.data.map (fun c => if c = '/' then '!' else c)) ++ "~") j) = false) :
    (∀ k < n,
      backup_name sys (successive_writes flags sys name k (fs, openfile)).1
        (real_dir_from_tilde sys name) = some (candidate
          (d ++ String.mk (full.data.map (fun c => if c = '/' then '!' else c)) ++ "~") k) ∧
      file_present (successive_writes flags sys name k (fs, openfile)).1 (candidate
        (d ++ String.mk (full.data.map (fun c => if c = '/' then '!' else c)) ++ "~") k)
          = false ∧
      file_present (successive_writes flags sys name (k + 1) (fs, openfile)).1 (candidate
        (d ++ String.mk (full.data.map (fun c => if c = '/' then '!' else c)) ++ "~") k)
          = true) ∧
    (∀ j k, j ≠ k →
      candidate (d ++ String.mk (full.data.map (fun c => if c = '/' then '!' else c)) ++ "~") j ≠
      candidate (d ++ String.mk (full.data.map (fun c => if c = '/' then '!' else c)) ++ "~") k) := by
  have hinv := successive_writes_inv flags sys fs openfile name d full n hn hflag hname hconf
    hdir hfull hfopen hopen hafter hstat hp hfree
  refine ⟨fun k hk => ?_, fun j k hjk h => hjk (candidate_injective _ _ _ h)⟩
  obtain ⟨_, _, i3⟩ := hinv k (by omega)
  obtain ⟨_, _, j3⟩ := hinv (k + 1) (by omega)
  have habs := i3 k hk
  have hmade := j3 k hk
  simp only [Nat.lt_irrefl, decide_False] at habs
  simp only [Nat.lt_succ_self, decide_True] at hmade
  refine ⟨?_, habs, hmade⟩
  apply backup_name_candidate sys _ _ d full k hdir hfull (by omega) _ habs
  intro j hj
  rw [i3 j (by omega)]
  simp [hj]

theorem C17_backup_names_amended_witness :
    (∀ k < 3,
      backup_name { calm_system with backup_dir := some "/b/" }
        (successive_writes { BACKUP_FILE := true } { calm_system with backup_dir := some "/b/" }
          "/d/f" k (one_file "/d/f" [97], new_buffer)).1
        (real_dir_from_tilde { calm_system with backup_dir := some "/b/" } "/d/f")
        = some (candidate
          ("/b/" ++ String.mk ("/d/f".data.map (fun c => if c = '/' then '!' else c)) ++ "~") k) ∧
      file_present
        (successive_writes { BACKUP_FILE := true } { calm_system with backup_dir := some "/b/" }
          "/d/f" k (one_file "/d/f" [97], new_buffer)).1
        (candidate
          ("/b/" ++ String.mk ("/d/f".data.map (fun c => if c = '/' then '!' else c)) ++ "~") k)
          = false ∧
      file_present
        (successive_writes { BACKUP_FILE := true } { calm_system with backup_dir := some "/b/" }
          "/d/f" (k + 1) (one_file "/d/f" [97], new_buffer)).1
        (candidate
          ("/b/" ++ String.mk ("/d/f".data.map (fun c => if c = '/' then '!' else c)) ++ "~") k)
          = true) ∧
    (∀ j k, j ≠ k →
      candidate
        ("/b/" ++ String.mk ("/d/f".data.map (fun c => if c = '/' then '!' else c)) ++ "~") j ≠
      candidate
        ("/b/" ++ String.mk ("/d/f".data.map (fun c => if c = '/' then '!' else c)) ++ "~") k) :=
  C17_backup_names_amended { BACKUP_FILE := true } { calm_system with backup_dir := some "/b/" }
    (one_file "/d/f" [97]) new_buffer "/d/f" "/b/" "/d/f" 3 (by decide) rfl (by decide)
    (by decide) rfl rfl rfl rfl (by decide) (by decide) (by decide) (by decide)

/-- C17 as stated fails when no backup directory is set: the first save of `t`
backs it up as `t~`, and the second save uses the name `t~` again, replacing
the first backup; no `t~.1` is made. -/
theorem C17_backup_names_counterexample :
    backup_name calm_system
      (successive_writes { BACKUP_FILE := true } calm_system "t" 0
        (one_file "t" [97], new_buffer)).1 "t" = some "t~" ∧
    (successive_writes { BACKUP_FILE := true } calm_system "t" 1
      (one_file "t" [97], new_buffer)).1 "t~" = some [97] ∧
    backup_name calm_system
      (successive_writes { BACKUP_FILE := true } calm_system "t" 1
        (one_file "t" [97], new_buffer)).1 "t" = some "t~" ∧
    file_present
      (successive_writes { BACKUP_FILE := true } calm_system "t" 2
        (one_file "t" [97], new_buffer)).1 "t~.1" = false := by
  refine ⟨by decide, by decide, by decide, by decide⟩

/-! ## Lock file names -/

theorem rdropWhile_append_rtakeWhile (p : Char → Bool) (l : List Char) :
    l.rdropWhile p ++ l.rtakeWhile p = l := by
  unfold List.rdropWhile List.rtakeWhile
  rw [← List.reverse_append, List.takeWhile_append_dropWhile, List.reverse_reverse]

theorem rdropWhile_length_le (p : Char → Bool) (l : List Char) :
    (l.rdropWhile p).length ≤ l.length :=
  (List.rdropWhile_prefix p l).length_le

/-- The directory and the last component of a non-empty path take, together, at
most one character more than the path. -/
theorem dirname_basename_length (double_slash : Bool) (path : String) (hne : path ≠ "") :
    (dirname double_slash path).length + (basename path).length ≤ path.length + 1 := by
  have hlen : 0 < path.length := by
    cases hl : path.data with
    | nil => exact absurd (String.ext hl) hne
    | cons c t =>
      show 0 < path.data.length
      rw [hl]
      exact Nat.succ_pos _
  have hdot : ".".length = 1 := rfl
  have hslash : "/".length = 1 := rfl
  have hslash2 : "//".length = 2 := rfl
  have hstrip := rdropWhile_length_le (fun c => c = '/') path.data
  have hsplit := rdropWhile_append_rtakeWhile (fun c => c ≠ '/')
    (path.data.rdropWhile (fun c => c = '/'))
  have hsum := congrArg List.length hsplit
  rw [List.length_append] at hsum
  have hdir := rdropWhile_length_le (fun c => c = '/')
    ((path.data.rdropWhile (fun c => c = '/')).rdropWhile (fun c => c ≠ '/'))
  have hpl : path.length = path.data.length := rfl
  unfold dirname basename
  simp only [hne, if_false]
  by_cases h1 : path.data.rdropWhile (fun c => c = '/') = []
  · simp only [h1, if_true]
    by_cases h2 : (double_slash && decide (path.length = 2)) = true
    · have h3 : path.length = 2 := by
        simp only [Bool.and_eq_true, decide_eq_true_eq] at h2
        exact h2.2
      simp only [h2, if_true, hslash, hslash2]
      omega
    · simp only [h2, if_false, hslash, Bool.false_eq_true]
      omega
  · simp only [h1, if_false]
    by_cases h2 : (path.data.rdropWhile (fun c => c = '/')).rdropWhile (fun c => c ≠ '/') = []
    · simp only [h2, if_true, hdot]
      rw [h2] at hsum
      simp only [List.length_nil, Nat.zero_add] at hsum
      show 1 + (List.rtakeWhile _ _).length ≤ _
      omega
    · simp only [h2, if_false]
      have hpos : 0 < ((path.data.rdropWhile (fun c => c = '/')).rdropWhile
          (fun c => c ≠ '/')).length := List.length_pos.mpr h2
      by_cases h3 : ((path.data.rdropWhile (fun c => c = '/')).rdropWhile
          (fun c => c ≠ '/')).rdropWhile (fun c => c = '/') = []
      · simp only [h3, if_true]
        by_cases h4 : (double_slash && decide (((path.data.rdropWhile (fun c => c = '/')).rdropWhile
            (fun c => c ≠ '/')).length = 2)) = true
        · have h5 : ((path.data.rdropWhile (fun c => c = '/')).rdropWhile
              (fun c => c ≠ '/')).length = 2 := by
            simp only [Bool.and_eq_true, decide_eq_true_eq] at h4
            exact h4.2
          simp only [h4, if_true, hslash2]
          show 2 + (List.rtakeWhile _ _).length ≤ _
          omega
        · simp only [h4, if_false, hslash, Bool.false_eq_true]
          show 1 + (List.rtakeWhile _ _).length ≤ _
          omega
      · simp only [h3, if_false]
        show (List.rdropWhile _ _).length + (List.rtakeWhile _ _).length ≤ _
        omega

/-- C15: for a non-empty target path the name that `do_lockfile` builds is
exactly `dirname(target) + "/" + locking_prefix + basename(target) +
locking_suffix`, and with its NUL it fits the buffer of
`strlen(target) + strlen(prefix) + strlen(suffix) + 3` bytes, so that
`snprintf` does not truncate it. -/
theorem C15_lock_file_name (lk : Locking) (filename : String) (hne : filename ≠ "") :
    lock_file_name lk filename =
      dirname lk.double_slash filename ++ "/" ++ lk.locking_prefix ++ basename filename ++
        lk.locking_suffix ∧
    (dirname lk.double_slash filename ++ "/" ++ lk.locking_prefix ++ basename filename ++
        lk.locking_suffix).length + 1 ≤
      filename.length + lk.locking_prefix.length + lk.locking_suffix.length + 3 := by
  have h := dirname_basename_length lk.double_slash filename hne
  have hslash : "/".length = 1 := rfl
  have hfit : (dirname lk.double_slash filename ++ "/" ++ lk.locking_prefix ++ basename filename ++
        lk.locking_suffix).length + 1 ≤
      filename.length + lk.locking_prefix.length + lk.locking_suffix.length + 3 := by
    simp only [String.length_append, hslash]
    omega
  refine ⟨?_, hfit⟩
  unfold lock_file_name
  apply String.ext
  show List.take _ _ = _
  apply List.take_of_length_le
  have hl : ∀ s : String, s.data.length = s.length := fun _ => rfl
  rw [hl]
  omega

theorem C15_lock_file_name_witness :
    lock_file_name calm_locking "/home/u/f.txt" =
      dirname calm_locking.double_slash "/home/u/f.txt" ++ "/" ++ calm_locking.locking_prefix ++
        basename "/home/u/f.txt" ++ calm_locking.locking_suffix ∧
    (dirname calm_locking.double_slash "/home/u/f.txt" ++ "/" ++ calm_locking.locking_prefix ++
        basename "/home/u/f.txt" ++ calm_locking.locking_suffix).length + 1 ≤
      "/home/u/f.txt".length + calm_locking.locking_prefix.length +
        calm_locking.locking_suffix.length + 3 :=
  C15_lock_file_name calm_locking "/home/u/f.txt" (by decide)

/-! ## The lock record -/

theorem getD_take_lt (l : List UInt8) (n i : Nat) (h : i < n) :
    (l.take n).getD i 0 = l.getD i 0 := by
  simp only [List.getD_eq_getElem?_getD, List.getElem?_take, h, if_true]

theorem getD_drop (l : List UInt8) (n i : Nat) : (l.drop n).getD i 0 = l.getD (n + i) 0 := by
  simp only [List.getD_eq_getElem?_getD, List.getElem?_drop]

theorem getD_replicate_zero (n i : Nat) : (List.replicate n (0 : UInt8)).getD i 0 = 0 := by
  by_cases h : i < n
  · rw [List.getD_eq_getElem _ _ (by simpa using h)]
    simp
  · rw [List.getD_eq_default _ _ (by simpa using h)]

theorem at_offset_getD (mem : List UInt8) (offset : Nat) (write : List UInt8 → List UInt8)
    (i : Nat) (h : offset ≤ mem.length) :
    (at_offset mem offset write).getD i 0 =
      if i < offset then mem.getD i 0 else (write (mem.drop offset)).getD (i - offset) 0 := by
  have hl : (mem.take offset).length = offset := by simp [h]
  unfold at_offset
  by_cases hi : i < offset
  · rw [if_pos hi, List.getD_append _ _ _ _ (by omega), getD_take_lt _ _ _ hi]
  · rw [if_neg hi, List.getD_append_right _ _ _ _ (by omega), hl]

theorem at_offset_length (mem : List UInt8) (offset : Nat) (write : List UInt8 → List UInt8)
    (h : offset ≤ mem.length)
    (hw : (write (mem.drop offset)).length = mem.length - offset) :
    (at_offset mem offset write).length = mem.length := by
  unfold at_offset
  rw [List.length_append, List.length_take, hw]
  omega

/-- The memory after `mem[offset] = c`. -/
theorem store_at (mem : List UInt8) (offset : Nat) (c : UInt8) (h : offset < mem.length) :
    (at_offset mem offset (store c)).length = mem.length ∧
    ∀ i, (at_offset mem offset (store c)).getD i 0 = if i = offset then c else mem.getD i 0 := by
  constructor
  · apply at_offset_length _ _ _ (by omega)
    simp only [store, List.length_cons, List.length_drop]
    omega
  · intro i
    rw [at_offset_getD _ _ _ _ (by omega)]
    by_cases h1 : i < offset
    · rw [if_pos h1, if_neg (by omega)]
    · rw [if_neg h1]
      by_cases h2 : i = offset
      · rw [if_pos h2, h2, Nat.sub_self]
        rfl
      · rw [if_neg h2]
        obtain ⟨j, hj⟩ : ∃ j, i - offset = j + 1 := ⟨i - offset - 1, by omega⟩
        rw [hj]
        show ((mem.drop offset).drop 1).getD j 0 = _
        rw [getD_drop, getD_drop]
        congr 1
        omega

/-- The memory after `strncpy(&mem[offset], src, n)`. -/
theorem strncpy_at (mem src : List UInt8) (offset n : Nat) (h : offset + n ≤ mem.length) :
    (at_offset mem offset (strncpy src n)).length = mem.length ∧
    ∀ i, (at_offset mem offset (strncpy src n)).getD i 0 =
      if offset ≤ i ∧ i < offset + n then ((cstring src).take n).getD (i - offset) 0
      else mem.getD i 0 := by
  have hc : ((cstring src).take n).length ≤ n := by
    rw [List.length_take]
    omega
  constructor
  · apply at_offset_length _ _ _ (by omega)
    simp only [strncpy, List.length_append, List.length_replicate, List.length_drop]
    omega
  · intro i
    rw [at_offset_getD _ _ _ _ (by omega)]
    by_cases h1 : i < offset
    · rw [if_pos h1, if_neg (by omega)]
    · rw [if_neg h1]
      unfold strncpy
      simp only
      by_cases h2 : i < offset + n
      · rw [if_pos ⟨by omega, h2⟩, List.getD_append _ _ _ _ (by
          rw [List.length_append, List.length_replicate]; omega)]
        by_cases h3 : i - offset < ((cstring src).take n).length
        · rw [List.getD_append _ _ _ _ h3]
        · rw [List.getD_append_right _ _ _ _ (by omega), getD_replicate_zero,
            List.getD_eq_default _ _ (by omega)]
      · rw [if_neg (by omega), List.getD_append_right _ _ _ _ (by
          rw [List.length_append, List.length_replicate]; omega)]
        rw [List.length_append, List.length_replicate, getD_drop, getD_drop]
        congr 1
        omega

/-- The memory after `snprintf(&mem[offset], size, ...)` into zeroed memory. -/
theorem snprintf_at (mem text : List UInt8) (offset size : Nat) (hs : 0 < size)
    (h : offset + size ≤ mem.length)
    (hz : ∀ i, offset ≤ i → i < offset + size → mem.getD i 0 = 0) :
    (at_offset mem offset (snprintf size text)).length = mem.length ∧
    ∀ i, (at_offset mem offset (snprintf size text)).getD i 0 =
      if offset ≤ i ∧ i < offset + (size - 1) then
        ((cstring text).take (size - 1)).getD (i - offset) 0
      else mem.getD i 0 := by
  have hc : ((cstring text).take (size - 1)).length ≤ size - 1 := by
    rw [List.length_take]
    omega
  have hne : size ≠ 0 := by omega
  constructor
  · apply at_offset_length _ _ _ (by omega)
    simp only [snprintf, hne, if_false, List.length_append, List.length_drop,
      List.length_singleton]
    omega
  · intro i
    rw [at_offset_getD _ _ _ _ (by omega)]
    by_cases h1 : i < offset
    · rw [if_pos h1, if_neg (by omega)]
    · rw [if_neg h1]
      unfold snprintf
      simp only [hne, if_false]
      by_cases h3 : i - offset < ((cstring text).take (size - 1)).length
      · rw [if_pos ⟨by omega, by omega⟩, List.getD_append _ _ _ _ (by
          rw [List.length_append]; omega), List.getD_append _ _ _ _ h3]
      · by_cases h4 : i - offset = ((cstring text).take (size - 1)).length
        · rw [List.getD_append _ _ _ _ (by
            rw [List.length_append, List.length_singleton]; omega),
            List.getD_append_right _ _ _ _ (by omega), h4, Nat.sub_self]
          by_cases h5 : i < offset + (size - 1)
          · rw [if_pos ⟨by omega, h5⟩, List.getD_eq_default _ _ (Nat.le_refl _)]
            rfl
          · rw [if_neg (by omega), hz i (by omega) (by omega)]
            rfl
        · rw [List.getD_append_right _ _ _ _ (by
            rw [List.length_append, List.length_singleton]; omega), getD_drop, getD_drop]
          have hi : offset + (((cstring text).take (size - 1) ++ [0]).length +
              (i - offset - ((cstring text).take (size - 1) ++ [0]).length)) = i := by
            rw [List.length_append, List.length_singleton]
            omega
          rw [hi]
          by_cases h5 : i < offset + (size - 1)
          · rw [if_pos ⟨by omega, h5⟩, hz i (by omega) (by omega),
              List.getD_eq_default _ _ (by omega)]
          · rw [if_neg (by omega)]

theorem store_rec (mem : List UInt8) (hl : mem.length = 1024) (offset : Nat) (c : UInt8)
    (h : offset < 1024) :
    (at_offset mem offset (store c)).length = 1024 ∧
    ∀ i, (at_offset mem offset (store c)).getD i 0 = if i = offset then c else mem.getD i 0 := by
  have s := store_at mem offset c (by omega)
  exact ⟨s.1.trans hl, s.2⟩

theorem strncpy_rec (mem : List UInt8) (hl : mem.length = 1024) (src : List UInt8)
    (offset n : Nat) (h : offset + n ≤ 1024) :
    (at_offset mem offset (strncpy src n)).length = 1024 ∧
    ∀ i, (at_offset mem offset (strncpy src n)).getD i 0 =
      if offset ≤ i ∧ i < offset + n then ((cstring src).take n).getD (i - offset) 0
      else mem.getD i 0 := by
  have s := strncpy_at mem src offset n (by omega)
  exact ⟨s.1.trans hl, s.2⟩

theorem ofNat_eq_of_mod (a b : Nat) (h : a % 256 = b % 256) : UInt8.ofNat a = UInt8.ofNat b := by
  apply UInt8.eq_of_val_eq
  apply Fin.eq_of_val_eq
  exact h

/-- The record after the stores that `write_lockfile` always makes, lines
238-248. -/
theorem lockdata_fixed (VERSION pw_name myhostname : List UInt8) (mypid : Nat) :
    (lockdata VERSION pw_name myhostname none mypid false).length = 1024 ∧
    ∀ i, (lockdata VERSION pw_name myhostname none mypid false).getD i 0 =
      lock_layout (cstring (bytes_of "nano " ++ VERSION)) (cstring pw_name) (cstring myhostname)
        [] mypid false i := by
  have s0 : (List.replicate 1024 (0 : UInt8)).length = 1024 := List.length_replicate _ _
  have s1 := store_rec _ s0 0 0x62 (by omega)
  have s2 := store_rec _ s1.1 1 0x30 (by omega)
  have s3 := store_rec _ s2.1 24 (UInt8.ofNat (mypid % 256)) (by omega)
  have s4 := store_rec _ s3.1 25 (UInt8.ofNat ((mypid / 256) % 256)) (by omega)
  have s5 := store_rec _ s4.1 26 (UInt8.ofNat ((mypid / (256 * 256)) % 256)) (by omega)
  have s6 := store_rec _ s5.1 27 (UInt8.ofNat (mypid / (256 * 256 * 256))) (by omega)
  have z6 : ∀ i, 2 ≤ i → i < 2 + 11 → (at_offset (at_offset (at_offset (at_offset (at_offset
      (at_offset (List.replicate 1024 (0 : UInt8)) 0 (store 0x62)) 1 (store 0x30)) 24
      (store (UInt8.ofNat (mypid % 256)))) 25 (store (UInt8.ofNat ((mypid / 256) % 256)))) 26
      (store (UInt8.ofNat ((mypid / (256 * 256)) % 256)))) 27
      (store (UInt8.ofNat (mypid / (256 * 256 * 256))))).getD i 0 = 0 := by
    intro i h1 h2
    rw [s6.2, s5.2, s4.2, s3.2, s2.2, s1.2, getD_replicate_zero]
    repeat rw [if_neg (by omega)]
  have s7 := snprintf_at _ (bytes_of "nano " ++ VERSION) 2 11 (by omega) (by rw [s6.1]; omega) z6
  have s8 := strncpy_rec _ (s7.1.trans s6.1) pw_name 28 16 (by omega)
  have s9 := strncpy_rec _ s8.1 myhostname 68 31 (by omega)
  unfold lockdata
  simp only [Bool.false_eq_true, if_false]
  refine ⟨s9.1, fun i => ?_⟩
  rw [s9.2, s8.2, s7.2, s6.2, s5.2, s4.2, s3.2, s2.2, s1.2, getD_replicate_zero]
  clear s9 s8 s7 z6 s6 s5 s4 s3 s2 s1 s0
  unfold lock_layout
  simp only [Bool.false_eq_true, if_false, ite_self, List.take_nil, List.getD_nil,
    Nat.reduceSub, Nat.reduceAdd]
  split_ifs <;> first
    | with_reducible rfl
    | omega
    | (subst_vars
       apply ofNat_eq_of_mod
       simp only [Nat.reduceSub, Nat.reducePow, Nat.reduceMul, Nat.mod_mod, Nat.pow_zero,
         Nat.div_one, Nat.pow_one])

theorem lockdata_optional (VERSION pw_name myhostname : List UInt8)
    (origfilename : Option (List UInt8)) (mypid : Nat) (modified : Bool) :
    lockdata VERSION pw_name myhostname origfilename mypid modified =
      if modified = true then
        at_offset
          (match origfilename with
           | some origfilename =>
             at_offset (lockdata VERSION pw_name myhostname none mypid false) 108
               (strncpy origfilename 768)
           | none => lockdata VERSION pw_name myhostname none mypid false)
          1007 (store 0x55)
      else
        match origfilename with
        | some origfilename =>
          at_offset (lockdata VERSION pw_name myhostname none mypid false) 108
            (strncpy origfilename 768)
        | none => lockdata VERSION pw_name myhostname none mypid false := by
  unfold lockdata
  simp only [Bool.false_eq_true, if_false]

theorem lock_layout_path (program user host path : List UInt8) (pid : Nat) (modified : Bool)
    (i : Nat) (h : 108 ≤ i ∧ i < 876) :
    lock_layout program user host path pid modified i = (path.take 768).getD (i - 108) 0 := by
  unfold lock_layout
  repeat rw [if_neg (by omega)]
  rw [if_pos h]

theorem lock_layout_marker (program user host path : List UInt8) (pid : Nat) (modified : Bool) :
    lock_layout program user host path pid modified 1007 = if modified = true then 0x55 else 0 := by
  unfold lock_layout
  repeat rw [if_neg (by omega)]
  rw [if_pos rfl]

theorem lock_layout_other (program user host path : List UInt8) (pid : Nat) (modified : Bool)
    (i : Nat) (h1 : ¬ (108 ≤ i ∧ i < 876)) (h2 : ¬ i = 1007) :
    lock_layout program user host path pid modified i =
      lock_layout program user host [] pid false i := by
  unfold lock_layout
  simp only [h1, h2, if_false]

/-- The record that `write_lockfile` builds has 1024 bytes, laid out as the
specification says. -/
theorem lockdata_layout (VERSION pw_name myhostname : List UInt8)
    (origfilename : Option (List UInt8)) (mypid : Nat) (modified : Bool) :
    (lockdata VERSION pw_name myhostname origfilename mypid modified).length = 1024 ∧
    ∀ i, (lockdata VERSION pw_name myhostname origfilename mypid modified).getD i 0 =
      lock_layout (cstring (bytes_of "nano " ++ VERSION)) (cstring pw_name) (cstring myhostname)
        (match origfilename with
         | some origfilename => cstring origfilename
         | none => []) mypid modified i := by
  obtain ⟨f1, f2⟩ := lockdata_fixed VERSION pw_name myhostname mypid
  have hpath : (match origfilename with
      | some origfilename =>
        at_offset (lockdata VERSION pw_name myhostname none mypid false) 108
          (strncpy origfilename 768)
      | none => lockdata VERSION pw_name myhostname none mypid false).length = 1024 ∧
      ∀ i, (match origfilename with
      | some origfilename =>
        at_offset (lockdata VERSION pw_name myhostname none mypid false) 108
          (strncpy origfilename 768)
      | none => lockdata VERSION pw_name myhostname none mypid false).getD i 0 =
      lock_layout (cstring (bytes_of "nano " ++ VERSION)) (cstring pw_name) (cstring myhostname)
        (match origfilename with
         | some origfilename => cstring origfilename
         | none => []) mypid false i := by
    cases origfilename with
    | none => exact ⟨f1, f2⟩
    | some o =>
      have t := strncpy_rec _ f1 o 108 768 (by omega)
      refine ⟨t.1, fun i => ?_⟩
      simp only
      rw [t.2, f2]
      by_cases h : 108 ≤ i ∧ i < 876
      · rw [if_pos (by omega), lock_layout_path _ _ _ _ _ _ _ h]
      · by_cases h2 : i = 1007
        · rw [if_neg (by omega), h2, lock_layout_marker, lock_layout_marker]
        · rw [if_neg (by omega), lock_layout_other _ _ _ (cstring o) _ _ _ h h2]
  rw [lockdata_optional]
  cases modified with
  | false =>
    simp only [Bool.false_eq_true, if_false]
    exact hpath
  | true =>
    simp only [if_true]
    have s := store_rec _ hpath.1 1007 0x55 (by omega)
    refine ⟨s.1, fun i => ?_⟩
    rw [s.2, hpath.2]
    by_cases h2 : i = 1007
    · rw [if_pos h2, h2, lock_layout_marker]
      rfl
    · rw [if_neg h2]
      by_cases h : 108 ≤ i ∧ i < 876
      · rw [lock_layout_path _ _ _ _ _ _ _ h, lock_layout_path _ _ _ _ _ _ _ h]
      · rw [lock_layout_other _ _ _ _ _ true _ h h2, lock_layout_other _ _ _ _ _ false _ h h2]

theorem fwrite_all (data : List UInt8) (room : Nat) (h : ¬ (fwrite data ⟨[], room⟩).1 < data.length) :
    (fwrite data ⟨[], room⟩).2.written = data := by
  unfold fwrite at h ⊢
  simp only at h ⊢
  have hm : min data.length room = data.length := by omega
  rw [hm, List.take_length, List.nil_append]

/-- A call of `write_lockfile` that returns 1 in a build with `HAVE_PWD_H`
leaves the record it built, whole, as the contents of the lock file. -/
theorem write_lockfile_success (flags : Flags) (lk : Locking) (fs : FileSystem)
    (openfile : openfilestruct) (lockfilename : String) (origfilename : Option String)
    (modified : Bool) (pw_name myhostname : String) (hpwd : lk.HAVE_PWD_H = true)
    (hpw : lk.pw_name = some pw_name) (hhost : lk.myhostname = some myhostname)
    (hok : (write_lockfile flags lk fs openfile lockfilename origfilename modified).retval = 1) :
    (write_lockfile flags lk fs openfile lockfilename origfilename modified).fs lockfilename =
      some (lockdata (bytes_of lk.VERSION) (bytes_of pw_name) (bytes_of myhostname)
        (origfilename.map bytes_of) lk.mypid modified) := by
  have hlen := (lockdata_layout (bytes_of lk.VERSION) (bytes_of pw_name) (bytes_of myhostname)
    (origfilename.map bytes_of) lk.mypid modified).1
  revert hok
  unfold write_lockfile
  simp only [hpwd, hpw, hhost, Bool.not_true, Bool.false_eq_true, if_false]
  generalize lockdata (bytes_of lk.VERSION) (bytes_of pw_name) (bytes_of myhostname)
    (origfilename.map bytes_of) lk.mypid modified = data at hlen ⊢
  have htake : data.take 1024 = data := by
    rw [← hlen, List.take_length]
  simp only [htake]
  have hkey : ∀ fs1 : FileSystem, fs1 lockfilename = none →
      (if (lk.lock_create_fails || (!flags.INSECURE_BACKUP && file_present fs1 lockfilename))
          = true then
        (⟨0, fs1, openfile, true⟩ : LockResult)
      else if lk.lock_fdopen_fails = true then
        ⟨0, put_file fs1 lockfilename ((fs1 lockfilename).getD []), openfile, true⟩
      else if (fwrite data ⟨((put_file fs1 lockfilename ((fs1 lockfilename).getD []))
          lockfilename).getD [], lk.lock_room⟩).1 < 1024 then
        ⟨0, put_file (put_file fs1 lockfilename ((fs1 lockfilename).getD [])) lockfilename
          (fwrite data ⟨((put_file fs1 lockfilename ((fs1 lockfilename).getD []))
            lockfilename).getD [], lk.lock_room⟩).2.written, openfile, true⟩
      else if lk.lock_close_fails = true then
        ⟨0, put_file (put_file fs1 lockfilename ((fs1 lockfilename).getD [])) lockfilename
          (fwrite data ⟨((put_file fs1 lockfilename ((fs1 lockfilename).getD []))
            lockfilename).getD [], lk.lock_room⟩).2.written, openfile, true⟩
      else
        ⟨1, put_file (put_file fs1 lockfilename ((fs1 lockfilename).getD [])) lockfilename
          (fwrite data ⟨((put_file fs1 lockfilename ((fs1 lockfilename).getD []))
            lockfilename).getD [], lk.lock_room⟩).2.written,
          { openfile with lock_filename := some lockfilename }, false⟩).retval = 1 →
      (if (lk.lock_create_fails || (!flags.INSECURE_BACKUP && file_present fs1 lockfilename))
          = true then
        (⟨0, fs1, openfile, true⟩ : LockResult)
      else if lk.lock_fdopen_fails = true then
        ⟨0, put_file fs1 lockfilename ((fs1 lockfilename).getD []), openfile, true⟩
      else if (fwrite data ⟨((put_file fs1 lockfilename ((fs1 lockfilename).getD []))
          lockfilename).getD [], lk.lock_room⟩).1 < 1024 then
        ⟨0, put_file (put_file fs1 lockfilename ((fs1 lockfilename).getD [])) lockfilename
          (fwrite data ⟨((put_file fs1 lockfilename ((fs1 lockfilename).getD []))
            lockfilename).getD [], lk.lock_room⟩).2.written, openfile, true⟩
      else if lk.lock_close_fails = true then
        ⟨0, put_file (put_file fs1 lockfilename ((fs1 lockfilename).getD [])) lockfilename
          (fwrite data ⟨((put_file fs1 lockfilename ((fs1 lockfilename).getD []))
            lockfilename).getD [], lk.lock_room⟩).2.written, openfile, true⟩
      else
        ⟨1, put_file (put_file fs1 lockfilename ((fs1 lockfilename).getD [])) lockfilename
          (fwrite data ⟨((put_file fs1 lockfilename ((fs1 lockfilename).getD []))
            lockfilename).getD [], lk.lock_room⟩).2.written,
          { openfile with lock_filename := some lockfilename }, false⟩).fs lockfilename
        = some data := by
    intro fs1 hnone
    rw [put_file_same, hnone]
    simp only [Option.getD_none, Option.getD_some]
    split_ifs with h1 h2 h3 h4
    · intro h; simp at h
    · intro h; simp at h
    · intro h; simp at h
    · intro h; simp at h
    · intro _
      simp only [put_file_same]
      rw [fwrite_all data lk.lock_room (by rw [hlen]; exact h3)]
  by_cases hp : file_present fs lockfilename = true
  · simp only [hp, if_true, delete_lockfile]
    by_cases hu : lk.lock_unlink_fails = true
    · simp only [hu, if_true]
      intro h
      simp at h
    · simp only [hu, if_false, Bool.false_eq_true]
      have hlt : ¬ ((1 : Int) < 0) := by decide
      simp only [hlt, if_false]
      exact hkey (remove_file fs lockfilename) (remove_file_same _ _)
  · have hn : fs lockfilename = none := by
      unfold file_present at hp
      cases hv : fs lockfilename with
      | none => rfl
      | some v => rw [hv] at hp; simp at hp
    have hlt : ¬ ((1 : Int) < 0) := by decide
    have hk := hkey fs hn
    simp only [hp, if_false, Bool.false_eq_true, hlt] at hk ⊢
    exact hk

theorem lock_layout_pid (program user host path : List UInt8) (pid : Nat) (modified : Bool)
    (i : Nat) (h : 24 ≤ i ∧ i < 28) :
    (lock_layout program user host path pid modified i).toNat = pid / 256 ^ (i - 24) % 256 := by
  unfold lock_layout
  repeat rw [if_neg (by omega)]
  rw [if_pos h]
  show pid / 256 ^ (i - 24) % 256 % 256 = _
  exact Nat.mod_mod _ _

/-- C12: the record that a successful `write_lockfile` leaves in the lock file
is the one it built; it has exactly 1024 bytes; byte for byte it is the layout
of the specification (`lock_layout`): `0x62 0x30`, at most 10 bytes of the
program name `nano VERSION` from offset 2, the PID in bytes 24-27, at most 16
bytes of the user name from offset 28, at most 31 bytes of the host name from
offset 68, at most 768 bytes of the path from offset 108, `0x55` or 0 in byte
1007, and zero in every other byte; and for a PID below `2 ^ 31` bytes 24-27
read in little-endian order give the PID back. -/
theorem C12_lock_record_layout (flags : Flags) (lk : Locking) (fs : FileSystem)
    (openfile : openfilestruct) (lockfilename : String) (origfilename : Option String)
    (modified : Bool) (pw_name myhostname : String) (hpwd : lk.HAVE_PWD_H = true)
    (hpw : lk.pw_name = some pw_name) (hhost : lk.myhostname = some myhostname)
    (hpid : lk.mypid < 2 ^ 31)
    (hok : (write_lockfile flags lk fs openfile lockfilename origfilename modified).retval = 1) :
    (write_lockfile flags lk fs openfile lockfilename origfilename modified).fs lockfilename =
      some (lockdata (bytes_of lk.VERSION) (bytes_of pw_name) (bytes_of myhostname)
        (origfilename.map bytes_of) lk.mypid modified) ∧
    (lockdata (bytes_of lk.VERSION) (bytes_of pw_name) (bytes_of myhostname)
      (origfilename.map bytes_of) lk.mypid modified).length = 1024 ∧
    (∀ i, (lockdata (bytes_of lk.VERSION) (bytes_of pw_name) (bytes_of myhostname)
      (origfilename.map bytes_of) lk.mypid modified).getD i 0 =
        lock_layout (cstring (bytes_of "nano " ++ bytes_of lk.VERSION)) (cstring (bytes_of pw_name))
          (cstring (bytes_of myhostname))
          (match origfilename.map bytes_of with
           | some origfilename => cstring origfilename
           | none => []) lk.mypid modified i) ∧
    ((lockdata (bytes_of lk.VERSION) (bytes_of pw_name) (bytes_of myhostname)
        (origfilename.map bytes_of) lk.mypid modified).getD 24 0).toNat +
      256 * ((lockdata (bytes_of lk.VERSION) (bytes_of pw_name) (bytes_of myhostname)
        (origfilename.map bytes_of) lk.mypid modified).getD 25 0).toNat +
      256 ^ 2 * ((lockdata (bytes_of lk.VERSION) (bytes_of pw_name) (bytes_of myhostname)
        (origfilename.map bytes_of) lk.mypid modified).getD 26 0).toNat +
      256 ^ 3 * ((lockdata (bytes_of lk.VERSION) (bytes_of pw_name) (bytes_of myhostname)
        (origfilename.map bytes_of) lk.mypid modified).getD 27 0).toNat = lk.mypid := by
  obtain ⟨hlen, hlay⟩ := lockdata_layout (bytes_of lk.VERSION) (bytes_of pw_name)
    (bytes_of myhostname) (origfilename.map bytes_of) lk.mypid modified
  refine ⟨write_lockfile_success flags lk fs openfile lockfilename origfilename modified pw_name
    myhostname hpwd hpw hhost hok, hlen, hlay, ?_⟩
  rw [hlay 24, hlay 25, hlay 26, hlay 27, lock_layout_pid _ _ _ _ _ _ 24 (by omega),
    lock_layout_pid _ _ _ _ _ _ 25 (by omega), lock_layout_pid _ _ _ _ _ _ 26 (by omega),
    lock_layout_pid _ _ _ _ _ _ 27 (by omega)]
  simp only [Nat.reduceSub, Nat.reducePow, Nat.pow_zero, Nat.pow_one, Nat.div_one]
  simp only [Nat.reducePow] at hpid
  omega

set_option maxRecDepth 100000 in
theorem C12_lock_record_layout_witness :
    (write_lockfile {} calm_locking (fun _ => none) new_buffer "/d/.f.swp" (some "/d/f")
      true).fs "/d/.f.swp" =
      some (lockdata (bytes_of calm_locking.VERSION) (bytes_of "user") (bytes_of "host")
        ((some "/d/f").map bytes_of) calm_locking.mypid true) ∧
    (lockdata (bytes_of calm_locking.VERSION) (bytes_of "user") (bytes_of "host")
      ((some "/d/f").map bytes_of) calm_locking.mypid true).length = 1024 ∧
    (∀ i, (lockdata (bytes_of calm_locking.VERSION) (bytes_of "user") (bytes_of "host")
      ((some "/d/f").map bytes_of) calm_locking.mypid true).getD i 0 =
        lock_layout (cstring (bytes_of "nano " ++ bytes_of calm_locking.VERSION))
          (cstring (bytes_of "user")) (cstring (bytes_of "host"))
          (match (some "/d/f").map bytes_of with
           | some origfilename => cstring origfilename
           | none => []) calm_locking.mypid true i) ∧
    ((lockdata (bytes_of calm_locking.VERSION) (bytes_of "user") (bytes_of "host")
        ((some "/d/f").map bytes_of) calm_locking.mypid true).getD 24 0).toNat +
      256 * ((lockdata (bytes_of calm_locking.VERSION) (bytes_of "user") (bytes_of "host")
        ((some "/d/f").map bytes_of) calm_locking.mypid true).getD 25 0).toNat +
      256 ^ 2 * ((lockdata (bytes_of calm_locking.VERSION) (bytes_of "user") (bytes_of "host")
        ((some "/d/f").map bytes_of) calm_locking.mypid true).getD 26 0).toNat +
      256 ^ 3 * ((lockdata (bytes_of calm_locking.VERSION) (bytes_of "user") (bytes_of "host")
        ((some "/d/f").map bytes_of) calm_locking.mypid true).getD 27 0).toNat
      = calm_locking.mypid :=
  C12_lock_record_layout {} calm_locking (fun _ => none) new_buffer "/d/.f.swp" (some "/d/f")
    true "user" "host" rfl rfl rfl (by decide) (by decide)

/-! ## Reading a lock record back -/

theorem cstring_no_nul (mem : List UInt8) : (0 : UInt8) ∉ cstring mem := by
  intro h
  have h2 := List.mem_takeWhile_imp h
  simp at h2

theorem take_no_nul (l : List UInt8) (n : Nat) (h : (0 : UInt8) ∉ l) : (0 : UInt8) ∉ l.take n :=
  fun hm => h (List.mem_of_mem_take hm)

/-- A region that agrees with a string without NUL and has no byte, or a NUL,
where the string ends, holds that string. -/
theorem cstring_of_pointwise : ∀ (s mem : List UInt8), (0 : UInt8) ∉ s →
    (∀ j, j ≤ s.length → mem.getD j 0 = s.getD j 0) → cstring mem = s := by
  intro s
  induction s with
  | nil =>
    intro mem _ h
    have h0 := h 0 (Nat.le_refl _)
    cases mem with
    | nil => rfl
    | cons c t =>
      have hc : c = 0 := h0
      rw [hc]
      simp [cstring]
  | cons c t ih =>
    intro mem hs h
    have hc : c ≠ 0 := fun e => hs (by simp [e])
    have ht : (0 : UInt8) ∉ t := fun e => hs (by simp [e])
    have h0 := h 0 (Nat.zero_le _)
    cases mem with
    | nil => exact absurd h0.symm hc
    | cons d rest =>
      have hd : d = c := h0
      rw [hd]
      have hrest := ih rest ht (fun j hj => h (j + 1) (Nat.succ_le_succ hj))
      unfold cstring at hrest ⊢
      rw [List.takeWhile_cons]
      simp only [ne_eq, hc, not_false_eq_true, decide_True, if_true]
      rw [hrest]

/-- What `strncpy(dest, src, n)` leaves as the C string at `dest` when the byte
after the first `n` of `dest` is NUL. -/
theorem cstring_strncpy (src dest : List UInt8) (n : Nat) (hdest : dest.drop n = [0]) :
    cstring (strncpy src n dest) = (cstring src).take n := by
  unfold strncpy
  simp only [hdest]
  have hno := take_no_nul _ n (cstring_no_nul src)
  cases hpad : n - ((cstring src).take n).length with
  | zero => rw [List.replicate_zero, List.append_nil, cstring_append_nul _ hno]
  | succ k =>
    rw [List.replicate_succ, List.append_assoc, List.cons_append, cstring_append_nul _ hno]

theorem strncpy_drop (src dest : List UInt8) (n : Nat) :
    (strncpy src n dest).drop n = dest.drop n := by
  unfold strncpy
  simp only
  have hl : ((cstring src).take n ++ List.replicate (n - ((cstring src).take n).length) 0).length
      = n := by
    rw [List.length_append, List.length_replicate, List.length_take]
    omega
  rw [List.drop_append_of_le_length (by omega), List.drop_of_length_le (by omega),
    List.nil_append]

/-- The last byte of each static buffer of `do_lockfile` stays NUL. -/
theorem statics_after_nul (history : List (List UInt8)) :
    (statics_after history).1.drop 10 = [0] ∧ (statics_after history).2.drop 16 = [0] := by
  unfold statics_after
  have hgen : ∀ (h : List (List UInt8)) (init : List UInt8 × List UInt8),
      init.1.drop 10 = [0] → init.2.drop 16 = [0] →
      (h.foldl (fun statics lockbuf =>
        (strncpy (lockbuf.drop 2) 10 statics.1, strncpy (lockbuf.drop 28) 16 statics.2))
        init).1.drop 10 = [0] ∧
      (h.foldl (fun statics lockbuf =>
        (strncpy (lockbuf.drop 2) 10 statics.1, strncpy (lockbuf.drop 28) 16 statics.2))
        init).2.drop 16 = [0] := by
    intro h
    induction h with
    | nil => intro init h1 h2; exact ⟨h1, h2⟩
    | cons b rest ih =>
      intro init h1 h2
      rw [List.foldl_cons]
      apply ih
      · show (strncpy _ 10 init.1).drop 10 = [0]
        rw [strncpy_drop, h1]
      · show (strncpy _ 16 init.2).drop 16 = [0]
        rw [strncpy_drop, h2]
  exact hgen history _ (by decide) (by decide)

theorem lock_layout_program (program user host path : List UInt8) (pid : Nat) (modified : Bool)
    (i : Nat) (h : 2 ≤ i ∧ i < 12) :
    lock_layout program user host path pid modified i = (program.take 10).getD (i - 2) 0 := by
  unfold lock_layout
  repeat rw [if_neg (by omega)]
  rw [if_pos h]

theorem lock_layout_user (program user host path : List UInt8) (pid : Nat) (modified : Bool)
    (i : Nat) (h : 28 ≤ i ∧ i < 44) :
    lock_layout program user host path pid modified i = (user.take 16).getD (i - 28) 0 := by
  unfold lock_layout
  repeat rw [if_neg (by omega)]
  rw [if_pos h]

theorem lock_layout_gap (program user host path : List UInt8) (pid : Nat) (modified : Bool)
    (i : Nat) (h : i = 12 ∨ i = 44) :
    lock_layout program user host path pid modified i = 0 := by
  unfold lock_layout
  repeat rw [if_neg (by omega)]

/-- The C strings at offsets 2 and 28 of a lock record are the program name cut
to 10 bytes and the user name cut to 16 bytes. -/
theorem lockdata_strings (VERSION pw_name myhostname : List UInt8)
    (origfilename : Option (List UInt8)) (mypid : Nat) (modified : Bool) :
    cstring ((lockdata VERSION pw_name myhostname origfilename mypid modified).drop 2) =
      (cstring (bytes_of "nano " ++ VERSION)).take 10 ∧
    cstring ((lockdata VERSION pw_name myhostname origfilename mypid modified).drop 28) =
      (cstring pw_name).take 16 := by
  obtain ⟨_, hlay⟩ := lockdata_layout VERSION pw_name myhostname origfilename mypid modified
  constructor
  · apply cstring_of_pointwise _ _ (take_no_nul _ 10 (cstring_no_nul _))
    intro j hj
    have hl : ((cstring (bytes_of "nano " ++ VERSION)).take 10).length ≤ 10 := by
      rw [List.length_take]; omega
    rw [getD_drop, hlay]
    by_cases h : j < 10
    · rw [lock_layout_program _ _ _ _ _ _ _ (by omega)]
      congr 1
      omega
    · have hj10 : j = 10 := by omega
      rw [hj10, lock_layout_gap _ _ _ _ _ _ _ (by omega), List.getD_eq_default _ _ (by omega)]
  · apply cstring_of_pointwise _ _ (take_no_nul _ 16 (cstring_no_nul _))
    intro j hj
    have hl : ((cstring pw_name).take 16).length ≤ 16 := by
      rw [List.length_take]; omega
    rw [getD_drop, hlay]
    by_cases h : j < 16
    · rw [lock_layout_user _ _ _ _ _ _ _ (by omega)]
      congr 1
      omega
    · have hj16 : j = 16 := by omega
      rw [hj16, lock_layout_gap _ _ _ _ _ _ _ (by omega), List.getD_eq_default _ _ (by omega)]

/-- C13: when the lock file holds a record that `write_lockfile` built for the
program name `nano VERSION`, a PID below `2 ^ 31` and the user `pw_name`, the
question that `do_lockfile` puts names the user cut to 16 bytes, the program
name cut to 10 bytes and the same PID, whatever lock buffers (`history`)
`do_lockfile` has decoded into its static buffers before. -/
theorem C13_lock_record_round_trip (flags : Flags) (lk : Locking) (fs : FileSystem)
    (openfile : openfilestruct) (filename : String) (history : List (List UInt8))
    (VERSION pw_name myhostname : List UInt8) (origfilename : Option (List UInt8)) (mypid : Nat)
    (modified : Bool) (hpid : mypid < 2 ^ 31) (hopen : lk.lock_open_fails = false)
    (hfile : fs (lock_file_name lk filename) =
      some (lockdata VERSION pw_name myhostname origfilename mypid modified)) :
    (do_lockfile flags lk fs openfile filename (statics_after history).1
      (statics_after history).2).question =
      some ((cstring pw_name).take 16, (cstring (bytes_of "nano " ++ VERSION)).take 10, mypid) := by
  obtain ⟨hlen, hlay⟩ := lockdata_layout VERSION pw_name myhostname origfilename mypid modified
  obtain ⟨hprog, huser⟩ := lockdata_strings VERSION pw_name myhostname origfilename mypid modified
  obtain ⟨hs1, hs2⟩ := statics_after_nul history
  have hp : file_present fs (lock_file_name lk filename) = true := by
    unfold file_present
    rw [hfile]
    rfl
  have htake : (lockdata VERSION pw_name myhostname origfilename mypid modified).take LOCKBUFSIZE
      = lockdata VERSION pw_name myhostname origfilename mypid modified := by
    apply List.take_of_length_le
    rw [hlen]
    decide
  have hpidval :
      ((((lockdata VERSION pw_name myhostname origfilename mypid modified).getD 27 0).toNat * 256 +
        ((lockdata VERSION pw_name myhostname origfilename mypid modified).getD 26 0).toNat) * 256 +
        ((lockdata VERSION pw_name myhostname origfilename mypid modified).getD 25 0).toNat) * 256 +
        ((lockdata VERSION pw_name myhostname origfilename mypid modified).getD 24 0).toNat
        = mypid := by
    rw [hlay 24, hlay 25, hlay 26, hlay 27, lock_layout_pid _ _ _ _ _ _ 24 (by omega),
      lock_layout_pid _ _ _ _ _ _ 25 (by omega), lock_layout_pid _ _ _ _ _ _ 26 (by omega),
      lock_layout_pid _ _ _ _ _ _ 27 (by omega)]
    simp only [Nat.reduceSub, Nat.reducePow, Nat.pow_zero, Nat.pow_one, Nat.div_one]
    simp only [Nat.reducePow] at hpid
    omega
  have hnot : ¬ (lockdata VERSION pw_name myhostname origfilename mypid modified).length < 48 := by
    rw [hlen]
    decide
  unfold do_lockfile
  simp only [hp, if_true, hopen, Bool.false_eq_true, if_false, hfile, Option.getD_some, htake,
    hnot, hpidval, cstring_strncpy _ _ _ hs1, cstring_strncpy _ _ _ hs2, hprog, huser,
    List.take_take, Nat.min_self]
  split_ifs <;> rfl

theorem C13_lock_record_round_trip_witness :
    (do_lockfile {} calm_locking
      (one_file (lock_file_name calm_locking "/d/f")
        (lockdata (bytes_of "4.9.3") (bytes_of "a_user_with_a_long_name") (bytes_of "host")
          (some (bytes_of "/d/f")) 77 false))
      new_buffer "/d/f" (statics_after [List.replicate 48 65]).1
      (statics_after [List.replicate 48 65]).2).question =
      some ((cstring (bytes_of "a_user_with_a_long_name")).take 16,
        (cstring (bytes_of "nano " ++ bytes_of "4.9.3")).take 10, 77) :=
  C13_lock_record_round_trip {} calm_locking
    (one_file (lock_file_name calm_locking "/d/f")
      (lockdata (bytes_of "4.9.3") (bytes_of "a_user_with_a_long_name") (bytes_of "host")
        (some (bytes_of "/d/f")) 77 false))
    new_buffer "/d/f" [List.replicate 48 65] (bytes_of "4.9.3")
    (bytes_of "a_user_with_a_long_name") (bytes_of "host") (some (bytes_of "/d/f")) 77 false
    (by decide) rfl (by simp [one_file, put_file])

/-! ## An undersized lock record -/

/-- C14, as the code has it: when the lock file of the target exists, can be
opened and yields fewer than 48 bytes, `do_lockfile` reports the failure and
leaves the file system and the buffer alone, but it returns -1, the value
that makes `open_buffer` discard the new buffer and return `FALSE`, and not the
0 that stands for "continue to load the file". -/
theorem C14_undersized_lock_record (flags : Flags) (lk : Locking) (fs : FileSystem)
    (openfile : openfilestruct) (filename : String) (lockprog lockuser content : List UInt8)
    (hopen : lk.lock_open_fails = false)
    (hfile : fs (lock_file_name lk filename) = some content) (hshort : content.length < 48) :
    (do_lockfile flags lk fs openfile filename lockprog lockuser).retval = -1 ∧
    (do_lockfile flags lk fs openfile filename lockprog lockuser).retval ≠ 0 ∧
    (do_lockfile flags lk fs openfile filename lockprog lockuser).reported = true ∧
    (do_lockfile flags lk fs openfile filename lockprog lockuser).fs = fs ∧
    (do_lockfile flags lk fs openfile filename lockprog lockuser).openfile = openfile ∧
    (do_lockfile flags lk fs openfile filename lockprog lockuser).question = none := by
  have hp : file_present fs (lock_file_name lk filename) = true := by
    unfold file_present
    rw [hfile]
    rfl
  have htake : (content.take LOCKBUFSIZE).length < 48 := by
    rw [List.length_take]
    omega
  unfold do_lockfile
  simp only [hp, if_true, hopen, Bool.false_eq_true, if_false, hfile, Option.getD_some, htake]
  refine ⟨trivial, by decide, trivial, trivial, trivial, trivial⟩

theorem C14_undersized_lock_record_witness :
    (do_lockfile { LOCKING := true } calm_locking
      (put_file (one_file "/d/f" [97, 10]) "/d/.f.swp" [98, 48, 110, 97, 110, 111])
      new_buffer "/d/f" (List.replicate 11 0) (List.replicate 17 0)).retval = -1 ∧
    (do_lockfile { LOCKING := true } calm_locking
      (put_file (one_file "/d/f" [97, 10]) "/d/.f.swp" [98, 48, 110, 97, 110, 111])
      new_buffer "/d/f" (List.replicate 11 0) (List.replicate 17 0)).retval ≠ 0 ∧
    (do_lockfile { LOCKING := true } calm_locking
      (put_file (one_file "/d/f" [97, 10]) "/d/.f.swp" [98, 48, 110, 97, 110, 111])
      new_buffer "/d/f" (List.replicate 11 0) (List.replicate 17 0)).reported = true ∧
    (do_lockfile { LOCKING := true } calm_locking
      (put_file (one_file "/d/f" [97, 10]) "/d/.f.swp" [98, 48, 110, 97, 110, 111])
      new_buffer "/d/f" (List.replicate 11 0) (List.replicate 17 0)).fs =
      put_file (one_file "/d/f" [97, 10]) "/d/.f.swp" [98, 48, 110, 97, 110, 111] ∧
    (do_lockfile { LOCKING := true } calm_locking
      (put_file (one_file "/d/f" [97, 10]) "/d/.f.swp" [98, 48, 110, 97, 110, 111])
      new_buffer "/d/f" (List.replicate 11 0) (List.replicate 17 0)).openfile = new_buffer ∧
    (do_lockfile { LOCKING := true } calm_locking
      (put_file (one_file "/d/f" [97, 10]) "/d/.f.swp" [98, 48, 110, 97, 110, 111])
      new_buffer "/d/f" (List.replicate 11 0) (List.replicate 17 0)).question = none :=
  C14_undersized_lock_record { LOCKING := true } calm_locking
    (put_file (one_file "/d/f" [97, 10]) "/d/.f.swp" [98, 48, 110, 97, 110, 111])
    new_buffer "/d/f" (List.replicate 11 0) (List.replicate 17 0) [98, 48, 110, 97, 110, 111]
    rfl (by decide) (by decide)

/-! ## Reading without conversion -/

/-- Reading with `NO_CONVERT` set: the lines joined by `'\n'` are the bytes
read, whatever they are. -/
theorem read_no_convert_inv (rest : List UInt8) :
    ∀ s : ReadLoop, (10 : UInt8) ∉ s.buf →
      serialise [10] (read_finish true (rest.foldl (read_byte true) s)).stored
        = (s.stored.map (fun x => decode_nul x ++ [10])).flatten ++ s.buf ++ rest := by
  induction rest with
  | nil =>
    intro s h10
    simp only [List.foldl_nil, read_finish, Bool.not_true, Bool.and_false, Bool.false_eq_true,
      if_false]
    by_cases hb : s.buf.length = 0
    · have hnil : s.buf = [] := List.length_eq_zero.1 hb
      simp [hb, serialise_stored_nil, hnil]
    · simp [hb, serialise_stored _ _ _ h10]
  | cons c rest ih =>
    intro s h10
    simp only [List.foldl_cons]
    by_cases h : c = 10
    · subst h
      have hs : read_byte true s 10 =
          { stored := s.stored ++ [encode_data s.buf s.buf.length], buf := [],
            num_lines := s.num_lines + 1, format := s.format } := by
        simp [read_byte, store_line]
      rw [hs, ih _ (List.not_mem_nil _)]
      simp [decode_encode h10]
    · have hs : read_byte true s c = { s with buf := s.buf ++ [c] } := by
        simp [read_byte, h]
      rw [hs, ih _ (by simp [h10, Ne.symm h])]
      simp

theorem count_lf_decode_nul (l : List UInt8) : (decode_nul l).count 10 = 0 := by
  rw [List.count_eq_zero]
  intro h
  rcases List.mem_map.1 h with ⟨a, -, ha⟩
  by_cases h0 : a = 10 <;> simp [h0] at ha

/-- The join of the lines has one `'\n'` for each line but the last. -/
theorem count_lf_serialise : ∀ lines : List (List UInt8),
    (serialise [10] lines).count 10 = lines.length - 1
  | [] => by simp [serialise, List.intercalate]
  | [l] => by rw [serialise_single, count_lf_decode_nul]; rfl
  | l :: l2 :: rest => by
    rw [serialise_cons_cons, List.count_append, List.count_append, count_lf_decode_nul,
      count_lf_serialise (l2 :: rest)]
    simp only [List.count_singleton_self, List.length_cons]
    omega

/-- C30: with `NO_CONVERT` set, for every byte sequence `b` read to its end into
a fresh buffer, the classifier stays at 0 and the buffer at the Unix format,
the stored lines joined by `'\n'` (NUL sentinels decoded) are exactly `b`, so
that every `'\r'` is line content, and there is one line more than `b` has
`'\n'` bytes: the split is at `'\n'` only. -/
theorem C30_no_convert_round_trip (flags : Flags) (b : List UInt8) (fd : Int)
    (undoable access_w_ok : Bool) (hnc : flags.NO_CONVERT = true) :
    (read_file flags b none fd undoable access_w_ok new_buffer).format = 0 ∧
    (read_file flags b none fd undoable access_w_ok new_buffer).openfile.fmt
      = format_type.NIX_FILE ∧
    serialise [10] (read_file flags b none fd undoable access_w_ok new_buffer).openfile.lines
      = b ∧
    (read_file flags b none fd undoable access_w_ok new_buffer).openfile.lines.length
      = b.count 10 + 1 := by
  have hfmt0 : (read_lines flags.NO_CONVERT none b).format = 0 := by
    rw [hnc]
    simp only [read_lines, read_loop_none]
    exact read_no_convert_format b _
  have hser : serialise [10] (read_lines flags.NO_CONVERT none b).stored = b := by
    rw [hnc]
    simp only [read_lines, read_loop_none]
    have h := read_no_convert_inv b ⟨[], [], 0, 0⟩ (List.not_mem_nil _)
    simpa using h
  have hne : (read_lines flags.NO_CONVERT none b).stored ≠ [] := read_finish_ne_nil _ _
  have hcount := count_lf_serialise (read_lines flags.NO_CONVERT none b).stored
  rw [hser] at hcount
  have hpos : 0 < (read_lines flags.NO_CONVERT none b).stored.length := List.length_pos.mpr hne
  refine ⟨?_, read_file_fresh_fmt_unix _ _ _ _ _ _ hfmt0, ?_, ?_⟩
  · rw [read_file_format]; exact hfmt0
  · rw [read_file_fresh_lines]; exact hser
  · rw [read_file_fresh_lines]; omega

theorem C30_no_convert_round_trip_witness :
    (read_file { NO_CONVERT := true } [97, 13, 10, 98, 13, 0, 10, 99, 13] none 3 false true
      new_buffer).format = 0 ∧
    (read_file { NO_CONVERT := true } [97, 13, 10, 98, 13, 0, 10, 99, 13] none 3 false true
      new_buffer).openfile.fmt = format_type.NIX_FILE ∧
    serialise [10] (read_file { NO_CONVERT := true } [97, 13, 10, 98, 13, 0, 10, 99, 13] none 3
      false true new_buffer).openfile.lines = [97, 13, 10, 98, 13, 0, 10, 99, 13] ∧
    (read_file { NO_CONVERT := true } [97, 13, 10, 98, 13, 0, 10, 99, 13] none 3 false true
      new_buffer).openfile.lines.length = [97, 13, 10, 98, 13, 0, 10, 99, 13].count 10 + 1 :=
  C30_no_convert_round_trip { NO_CONVERT := true } [97, 13, 10, 98, 13, 0, 10, 99, 13] 3 false
    true rfl

/-! ## The format of an unwritable file -/

/-- C26, as the code has it: the DOS file "a CR LF" and the Mac file "a CR",
read to the end into a fresh buffer from a file that `access` finds
unwritable (`VIEW_MODE` and `MAKE_IT_UNIX` unset), are classified as DOS (1)
and Mac (2), but the buffer keeps the Unix format; read from a writable file
the same bytes leave the DOS and Mac formats in the buffer. -/
theorem C26_unwritable_format_not_recorded :
    (read_file {} [97, 13, 10] none 3 false false new_buffer).format = 1 ∧
    (read_file {} [97, 13, 10] none 3 false false new_buffer).openfile.fmt
      = format_type.NIX_FILE ∧
    (read_file {} [97, 13, 10] none 3 false true new_buffer).openfile.fmt
      = format_type.DOS_FILE ∧
    (read_file {} [97, 13] none 3 false false new_buffer).format = 2 ∧
    (read_file {} [97, 13] none 3 false false new_buffer).openfile.fmt
      = format_type.NIX_FILE ∧
    (read_file {} [97, 13] none 3 false true new_buffer).openfile.fmt
      = format_type.MAC_FILE := by
  refine ⟨by decide, by decide, by decide, by decide, by decide, by decide⟩

/-! ## Reading what the classifier takes for Unix -/

theorem without_cr_before_lf_crlf (t : List UInt8) :
    without_cr_before_lf (13 :: 10 :: t) = 10 :: without_cr_before_lf t := by
  simp [without_cr_before_lf]

theorem without_cr_before_lf_cons {c : UInt8} (t : List UInt8)
    (h : c ≠ 13 ∨ t.head? ≠ some 10) :
    without_cr_before_lf (c :: t) = c :: without_cr_before_lf t := by
  cases t with
  | nil => simp [without_cr_before_lf]
  | cons d rest =>
    have hn : ¬ (c = 13 ∧ d = 10) := by
      rintro ⟨h1, h2⟩
      rcases h with h | h
      · exact h h1
      · exact h (by simp [h2])
    simp [without_cr_before_lf, hn]

/-- A line without `'\n'` followed by `'\n'`: only a final `'\r'` is left out. -/
theorem without_cr_before_lf_line : ∀ (l : List UInt8) (t : List UInt8), (10 : UInt8) ∉ l →
    without_cr_before_lf (l ++ 10 :: t)
      = (if ends_in_cr l then l.dropLast else l) ++ 10 :: without_cr_before_lf t
  | [], t, _ => by
    rw [List.nil_append, without_cr_before_lf_cons t (Or.inl (by decide))]
    rfl
  | [c], t, h => by
    have hc : c ≠ 10 := fun e => h (by simp [e])
    by_cases h13 : c = 13
    · subst h13
      rw [List.singleton_append, without_cr_before_lf_crlf]
      rfl
    · rw [List.singleton_append, without_cr_before_lf_cons _ (Or.inl h13),
        without_cr_before_lf_cons t (Or.inl (by decide))]
      have he : ends_in_cr [c] = false := by simp [ends_in_cr, h13]
      rw [he]
      rfl
  | c :: d :: l, t, h => by
    have hd : d ≠ 10 := fun e => h (by simp [e])
    have hl : (10 : UInt8) ∉ d :: l := fun e => h (List.mem_cons_of_mem _ e)
    have ih := without_cr_before_lf_line (d :: l) t hl
    rw [List.cons_append, without_cr_before_lf_cons _ (Or.inr (by simp [hd])), ih]
    have he : ends_in_cr (c :: d :: l) = ends_in_cr (d :: l) := by
      simp [ends_in_cr, List.getLast?_cons_cons]
    rw [he]
    split_ifs
    · rw [List.dropLast_cons₂]
      rfl
    · rfl

/-- A text without `'\n'` is left as it is. -/
theorem without_cr_before_lf_of_no_lf : ∀ l : List UInt8, (10 : UInt8) ∉ l →
    without_cr_before_lf l = l
  | [], _ => rfl
  | [_], _ => rfl
  | c :: d :: l, h => by
    have hd : d ≠ 10 := fun e => h (by simp [e])
    have hl : (10 : UInt8) ∉ d :: l := fun e => h (List.mem_cons_of_mem _ e)
    rw [without_cr_before_lf_cons _ (Or.inr (by simp [hd])),
      without_cr_before_lf_of_no_lf (d :: l) hl]

/-- The classifier at the end is at least what it is along the way. -/
theorem read_finish_fold_format (nc : Bool) (q : List UInt8) (s : ReadLoop) :
    s.format ≤ (read_finish nc (q.foldl (read_byte nc) s)).format :=
  le_trans (read_fold_format_mono nc q s).1 (read_finish_format_mono nc _).1

/-- Reading with conversion on while the classifier stays at Unix: the lines
joined by `'\n'` are the bytes read without the `'\r'` before each `'\n'`. -/
theorem read_strip_inv (rest : List UInt8) :
    ∀ s : ReadLoop, (10 : UInt8) ∉ s.buf →
      (read_finish false (rest.foldl (read_byte false) s)).format = 0 →
      serialise [10] (read_finish false (rest.foldl (read_byte false) s)).stored
        = (s.stored.map (fun x => decode_nul x ++ [10])).flatten
            ++ without_cr_before_lf (s.buf ++ rest) := by
  induction rest with
  | nil =>
    intro s h10 h0
    simp only [List.foldl_nil, List.append_nil] at h0 ⊢
    rw [without_cr_before_lf_of_no_lf _ h10]
    unfold read_finish at h0 ⊢
    by_cases hb : s.buf.length = 0
    · have hnil : s.buf = [] := List.length_eq_zero.1 hb
      simp [hb, serialise_stored_nil, hnil]
    · rw [if_neg hb] at h0 ⊢
      by_cases hcr : ends_in_cr s.buf = true
      · simp only [hcr, Bool.not_false, Bool.and_self, if_true] at h0
        split_ifs at h0
        omega
      · simp only [hcr, Bool.false_and, Bool.false_eq_true, if_false]
        rw [serialise_stored _ _ _ h10]
  | cons c rest ih =>
    intro s h10 h0
    simp only [List.foldl_cons] at h0 ⊢
    have hstep : (read_byte false s c).format = 0 := by
      have := read_finish_fold_format false rest (read_byte false s c)
      omega
    have hs0 : s.format = 0 := by
      have := (read_byte_format_mono false s c).1
      omega
    have hseen : ((s.num_lines == 0 || s.format != 0) && !false && ends_in_cr s.buf) = false := by
      by_cases hn : s.num_lines = 0 ∧ ends_in_cr s.buf = true
      · exfalso
        by_cases hc : c = 10
        · simp [read_byte, store_line, hn.1, hn.2, hs0, hc] at hstep
        · simp [read_byte, store_line, hn.1, hn.2, hs0, hc] at hstep
      · rw [hs0]
        by_cases h1 : s.num_lines = 0
        · have h2 : ends_in_cr s.buf = false := by
            cases h3 : ends_in_cr s.buf
            · rfl
            · exact absurd ⟨h1, h3⟩ hn
          simp [h2]
        · simp [h1]
    by_cases hc : c = 10
    · subst hc
      have hs : read_byte false s 10 =
          { stored := s.stored ++ [encode_data (if ends_in_cr s.buf then s.buf.dropLast else s.buf)
              (if ends_in_cr s.buf then s.buf.dropLast else s.buf).length],
            buf := [], num_lines := s.num_lines + 1, format := s.format } := by
        cases hcr : ends_in_cr s.buf
        · simp [read_byte, store_line, hcr]
        · have hn : s.num_lines ≠ 0 := by
            intro hn
            simp [hn, hcr] at hseen
          simp [read_byte, store_line, hcr, hn, hs0]
      rw [hs] at h0 ⊢
      rw [ih _ (List.not_mem_nil _) h0]
      have hline : (10 : UInt8) ∉ (if ends_in_cr s.buf then s.buf.dropLast else s.buf) := by
        split_ifs
        · exact fun e => h10 (List.mem_of_mem_dropLast e)
        · exact h10
      simp only [List.nil_append, List.map_append, List.map_cons, List.map_nil,
        List.flatten_append, List.flatten_cons, List.flatten_nil, List.append_nil,
        decode_encode hline, List.append_assoc, List.singleton_append]
      rw [without_cr_before_lf_line _ _ h10]
    · have hs : read_byte false s c = { s with buf := s.buf ++ [c] } := by
        cases hcr : ends_in_cr s.buf
        · simp [read_byte, hc, hcr]
        · have hn : s.num_lines ≠ 0 := by
            intro hn
            simp [hn, hcr] at hseen
          simp [read_byte, hc, hcr, hn, hs0]
      rw [hs] at h0 ⊢
      rw [ih _ (by simp [h10, Ne.symm hc]) h0]
      simp

theorem without_cr_before_lf_length : ∀ l : List UInt8,
    (without_cr_before_lf l).length ≤ l.length
  | [] => Nat.le_refl _
  | [_] => Nat.le_refl _
  | c :: d :: rest => by
    have h1 := without_cr_before_lf_length rest
    have h2 := without_cr_before_lf_length (d :: rest)
    unfold without_cr_before_lf
    split_ifs
    · simp only [List.length_cons] at h2 ⊢
      omega
    · simp only [List.length_cons] at h2 ⊢
      omega

/-- Leaving out the `'\r'` before each `'\n'` changes a text exactly when it
holds a `"\r\n"`. -/
theorem without_cr_before_lf_eq_iff : ∀ l : List UInt8,
    without_cr_before_lf l = l ↔ ¬ [13, 10] <:+: l
  | [] => by simp [without_cr_before_lf]
  | [c] => by
    simp only [without_cr_before_lf, true_iff]
    intro h
    have := h.length_le
    simp at this
  | c :: d :: rest => by
    have ih := without_cr_before_lf_eq_iff (d :: rest)
    have hlen := without_cr_before_lf_length rest
    rw [List.infix_cons_iff]
    by_cases hcd : c = 13 ∧ d = 10
    · obtain ⟨rfl, rfl⟩ := hcd
      rw [without_cr_before_lf_crlf]
      constructor
      · intro h
        have := congrArg List.length h
        simp only [List.length_cons] at this
        omega
      · intro h
        exact absurd (Or.inl (by simp)) h
    · have hp : ¬ [13, 10] <+: c :: d :: rest := by
        intro h
        rw [List.cons_prefix_cons, List.cons_prefix_cons] at h
        exact hcd ⟨h.1.symm, h.2.1.symm⟩
      have he : without_cr_before_lf (c :: d :: rest) = c :: without_cr_before_lf (d :: rest) := by
        simp [without_cr_before_lf, hcd]
      rw [he, List.cons_inj_right, ih]
      constructor
      · intro h
        rintro (h2 | h2)
        · exact hp h2
        · exact h h2
      · intro h h2
        exact h (Or.inr h2)

/-- C27, as the code has it: in "a LF b CR LF", read with conversion enabled,
the CR before the second LF is not classified (the first line has been read
and the classifier is 0), so the file is classified as Unix; yet line 794
strips it, and the stored lines joined by LF give "a LF b LF", not the
input. -/
theorem C27_unclassified_cr_stripped :
    (read_file {} [97, 10, 98, 13, 10] none 3 false true new_buffer).format = 0 ∧
    (read_file {} [97, 10, 98, 13, 10] none 3 false true new_buffer).openfile.fmt
      = format_type.NIX_FILE ∧
    (read_file {} [97, 10, 98, 13, 10] none 3 false true new_buffer).openfile.lines
      = [[97], [98], []] ∧
    serialise [10] (read_file {} [97, 10, 98, 13, 10] none 3 false true new_buffer).openfile.lines
      = [97, 10, 98, 10] ∧
    serialise [10] (read_file {} [97, 10, 98, 13, 10] none 3 false true new_buffer).openfile.lines
      ≠ [97, 10, 98, 13, 10] := by
  refine ⟨by decide, by decide, by decide, by decide, by decide⟩

/-- C27, amended: with conversion enabled, for every input that `read_file`
classifies as Unix, the stored lines joined by `'\n'` (NUL sentinels decoded)
are the input with the `'\r'` before each `'\n'` left out, whether or not that
`'\r'` was classified; so they reproduce the input exactly if and only if it
holds no `"\r\n"`. -/
theorem C27_unix_reading_strips_cr_before_lf (flags : Flags) (b : List UInt8) (fd : Int)
    (undoable access_w_ok : Bool) (hc : flags.NO_CONVERT = false)
    (hunix : (read_file flags b none fd undoable access_w_ok new_buffer).format = 0) :
    serialise [10] (read_file flags b none fd undoable access_w_ok new_buffer).openfile.lines
      = without_cr_before_lf b ∧
    (serialise [10] (read_file flags b none fd undoable access_w_ok new_buffer).openfile.lines
      = b ↔ ¬ [13, 10] <:+: b) := by
  rw [read_file_format, hc] at hunix
  simp only [read_lines, read_loop_none] at hunix
  have hinv := read_strip_inv b ⟨[], [], 0, 0⟩ (List.not_mem_nil _) hunix
  simp only [List.map_nil, List.flatten_nil, List.nil_append] at hinv
  have hser : serialise [10]
      (read_file flags b none fd undoable access_w_ok new_buffer).openfile.lines
      = without_cr_before_lf b := by
    rw [read_file_fresh_lines, hc]
    simp only [read_lines, read_loop_none]
    exact hinv
  exact ⟨hser, by rw [hser]; exact without_cr_before_lf_eq_iff b⟩

/-- C27, amended, at "a LF b CR LF c CR d". -/
theorem C27_unix_reading_strips_cr_before_lf_witness :
    (read_file {} [97, 10, 98, 13, 10, 99, 13, 100] none 3 false true new_buffer).format = 0 ∧
    serialise [10]
      (read_file {} [97, 10, 98, 13, 10, 99, 13, 100] none 3 false true new_buffer).openfile.lines
      = without_cr_before_lf [97, 10, 98, 13, 10, 99, 13, 100] ∧
    (serialise [10]
      (read_file {} [97, 10, 98, 13, 10, 99, 13, 100] none 3 false true new_buffer).openfile.lines
      = [97, 10, 98, 13, 10, 99, 13, 100] ↔ ¬ ([13, 10] : List UInt8) <:+: [97, 10, 98, 13, 10, 99, 13, 100]) :=
  ⟨by decide, C27_unix_reading_strips_cr_before_lf {} [97, 10, 98, 13, 10, 99, 13, 100] 3 false
    true rfl (by decide)⟩

/-! ## A carriage return at the end of the stream -/

theorem set_node_same (heap : Nat → Option Node) (p : Nat) (node : Node) :
    set_node heap p node p = some node := by
  simp [set_node]

theorem set_node_other (heap : Nat → Option Node) (p q : Nat) (node : Node) (h : q ≠ p) :
    set_node heap p node q = heap q := by
  simp [set_node, h]

theorem free_node_same (heap : Nat → Option Node) (p : Nat) : free_node heap p p = none := by
  simp [free_node]

theorem free_node_other (heap : Nat → Option Node) (p q : Nat) (h : q ≠ p) :
    free_node heap p q = heap q := by
  simp [free_node, h]

/-- A chain stays a chain under a relation that agrees on its neighbours. -/
theorem chain_transfer {R S : Nat → Nat → Prop} : ∀ (l : List Nat) (a : Nat),
    List.Chain R a l → (∀ x y, x ∈ (a :: l).dropLast → y ∈ l → R x y → S x y) →
    List.Chain S a l
  | [], _, _, _ => List.Chain.nil
  | b :: l, a, h, hrs => by
    rw [List.chain_cons] at h ⊢
    refine ⟨hrs a b (by simp) (by simp) h.1, chain_transfer l b h.2 ?_⟩
    intro x y hx hy hr
    exact hrs x y (by simp only [List.dropLast_cons₂, List.mem_cons]; exact Or.inr hx)
      (List.mem_cons_of_mem _ hy) hr

theorem chain_concat {R : Nat → Nat → Prop} (a p z : Nat) (init : List Nat) :
    List.Chain R a (init ++ [p] ++ [z]) ↔ List.Chain R a (init ++ [p]) ∧ R p z := by
  rw [List.append_assoc, List.singleton_append, List.chain_split, List.chain_singleton]

theorem nil_or_snoc (l : List Nat) : l = [] ∨ ∃ init p, l = init ++ [p] := by
  rcases List.eq_nil_or_concat l with h | ⟨init, p, h⟩
  · exact Or.inl h
  · exact Or.inr ⟨init, p, by rw [h, List.concat_eq_append]⟩

theorem chain_single {R : Nat → Nat → Prop} (a z : Nat) :
    List.Chain R a ([] ++ [z]) ↔ R a z := by
  rw [List.nil_append, List.chain_singleton]

/-- A link survives a change of the heap that keeps `x->next` and `y->prev`. -/
theorem link_transfer (heap after : Nat → Option Node) (x y : Nat) (h : Link heap x y)
    (hx : ∀ n, heap x = some n → ∃ m, after x = some m ∧ m.next = n.next)
    (hy : ∀ n, heap y = some n → ∃ m, after y = some m ∧ m.prev = n.prev) :
    Link after x y := by
  obtain ⟨nx, ny, h1, h2, h3, h4⟩ := h
  obtain ⟨mx, h5, h6⟩ := hx nx h1
  obtain ⟨my, h7, h8⟩ := hy ny h2
  exact ⟨mx, my, h5, h7, h6.trans h3, h8.trans h4⟩

/-- In a ring the current buffer's `next` is the head of the rest, or the
current buffer itself when there is no other. -/
theorem ring_next (bl : BufferList) (c : Nat) (rest : List Nat) (h : Ring bl c rest) :
    Link bl.heap c ((rest ++ [c]).headD c) := by
  obtain ⟨_, _, _, _, hchain⟩ := h
  cases rest with
  | nil => exact (chain_single c c).mp hchain
  | cons n tl =>
    rw [List.cons_append, List.chain_cons] at hchain
    exact hchain.1

theorem ring_prev (bl : BufferList) (c : Nat) (rest : List Nat) (h : Ring bl c rest) :
    Link bl.heap ((c :: rest).getLast (List.cons_ne_nil _ _)) c := by
  obtain ⟨_, _, _, _, hchain⟩ := h
  rcases nil_or_snoc rest with rfl | ⟨init, p, rfl⟩
  · exact (chain_single c c).mp hchain
  · have h2 := ((chain_concat c p c init).mp hchain).2
    simpa using h2

theorem more_than_one_live (bl : BufferList) (c : Nat) (node : Node)
    (ho : bl.openfile = some c) (hc : bl.heap c = some node) :
    more_than_one bl = some (node.next != c) := by
  simp [more_than_one, ho, hc]

/-- The list after `switch_to_next_buffer`: the same ring, entered one place
further on. -/
theorem switch_to_next_ring (bl : BufferList) (c : Nat) (rest : List Nat) (h : Ring bl c rest) :
    ∃ after, switch_to_next_buffer bl = some after ∧ after.heap = bl.heap ∧
      after.startfile = bl.startfile ∧
      Ring after ((rest ++ [c]).headD c) (rest ++ [c]).tail := by
  have hlink := ring_next bl c rest h
  obtain ⟨hnd, ho, ⟨f, hf, hs⟩, hlive, hchain⟩ := h
  obtain ⟨cur, nn, h1, h2, h3, _⟩ := hlink
  refine ⟨{ bl with openfile := some cur.next }, ?_, rfl, rfl, ?_⟩
  · unfold switch_to_next_buffer
    simp only [ho, h1]
    rw [more_than_one_live { bl with openfile := some cur.next } cur.next nn rfl (by rw [h3]; exact h2)]
  · rw [h3]
    cases rest with
    | nil => exact ⟨hnd, rfl, ⟨f, hf, hs⟩, hlive, hchain⟩
    | cons n tl =>
      simp only [List.cons_append, List.headD_cons, List.tail_cons]
      have hmem : ∀ b, b ∈ n :: (tl ++ [c]) ↔ b ∈ c :: n :: tl := by
        intro b
        simp only [List.mem_cons, List.mem_append, List.mem_singleton]
        tauto
      rw [List.cons_append, List.chain_cons] at hchain
      refine ⟨?_, rfl, ⟨f, (hmem f).mpr hf, hs⟩, fun b => (hlive b).trans (hmem b).symm, ?_⟩
      · have h5 : ([c] ++ (n :: tl)).Nodup := hnd
        rw [List.nodup_append_comm] at h5
        exact h5
      · exact (chain_concat n c n tl).mpr ⟨hchain.2, hchain.1⟩

/-- The list after `switch_to_prev_buffer`: the same ring, entered one place
earlier. -/
theorem switch_to_prev_ring (bl : BufferList) (c : Nat) (rest : List Nat) (h : Ring bl c rest) :
    ∃ after, switch_to_prev_buffer bl = some after ∧ after.heap = bl.heap ∧
      after.startfile = bl.startfile ∧
      Ring after ((c :: rest).getLast (List.cons_ne_nil _ _)) (c :: rest).dropLast := by
  have hlink := ring_prev bl c rest h
  obtain ⟨hnd, ho, ⟨f, hf, hs⟩, hlive, hchain⟩ := h
  obtain ⟨pn, cur, h1, h2, _, h4⟩ := hlink
  refine ⟨{ bl with openfile := some cur.prev }, ?_, rfl, rfl, ?_⟩
  · unfold switch_to_prev_buffer
    simp only [ho, h2]
    rw [more_than_one_live { bl with openfile := some cur.prev } cur.prev pn rfl (by rw [h4]; exact h1)]
  · rw [h4]
    rcases nil_or_snoc rest with rfl | ⟨init, p, rfl⟩
    · exact ⟨hnd, rfl, ⟨f, hf, hs⟩, hlive, hchain⟩
    · have hlast : (c :: (init ++ [p])).getLast (List.cons_ne_nil _ _) = p := by simp
      have hdrop : (c :: (init ++ [p])).dropLast = c :: init := by
        rw [← List.cons_append, List.dropLast_concat]
      rw [hlast, hdrop]
      have hmem : ∀ b, b ∈ p :: c :: init ↔ b ∈ c :: (init ++ [p]) := by
        intro b
        simp only [List.mem_cons, List.mem_append, List.mem_singleton]
        tauto
      obtain ⟨hc1, hc2⟩ := (chain_concat c p c init).mp hchain
      refine ⟨?_, rfl, ⟨f, (hmem f).mpr hf, hs⟩, fun b => (hlive b).trans (hmem b).symm, ?_⟩
      · have h5 : ((c :: init) ++ [p]).Nodup := by simpa using hnd
        rw [List.nodup_append_comm] at h5
        exact h5
      · rw [List.cons_append, List.chain_cons]
        exact ⟨hc2, hc1⟩

/-- What `make_new_buffer` computes when the current struct and its successor
are live and the new address is neither of them. -/
theorem make_new_buffer_eval (bl : BufferList) (c n a : Nat) (cur nn : Node)
    (ho : bl.openfile = some c) (h1 : bl.heap c = some cur) (h3 : cur.next = n)
    (h2 : bl.heap n = some nn) (hac : a ≠ c) (han : a ≠ n) :
    make_new_buffer bl a = some
      { heap := set_node (set_node (set_node bl.heap a ⟨c, n, new_buffer⟩) n
          { nn with prev := a }) c
          { (if n = c then { nn with prev := a } else cur) with next := a },
        openfile := some a, startfile := bl.startfile } := by
  subst h3
  have e1 : set_node bl.heap a ⟨c, cur.next, new_buffer⟩ c = some cur := by
    rw [set_node_other _ _ _ _ hac.symm, h1]
  have e2 : set_node bl.heap a ⟨c, cur.next, new_buffer⟩ cur.next = some nn := by
    rw [set_node_other _ _ _ _ han.symm, h2]
  unfold make_new_buffer
  simp only [ho, h1, e1, e2]
  by_cases hnc : cur.next = c
  · have e3 : set_node (set_node bl.heap a ⟨c, cur.next, new_buffer⟩) cur.next
        { nn with prev := a } c = some { nn with prev := a } := by
      rw [hnc, set_node_same]
    rw [e3, if_pos hnc]
  · have e3 : set_node (set_node bl.heap a ⟨c, cur.next, new_buffer⟩) cur.next
        { nn with prev := a } c = some cur := by
      rw [set_node_other _ _ _ _ (Ne.symm hnc), set_node_other _ _ _ _ hac.symm, h1]
    rw [e3, if_neg hnc]

theorem make_new_buffer_first (bl : BufferList) (a : Nat) (ho : bl.openfile = none)
    (hempty : ∀ b, bl.heap b = none) :
    ∃ after, make_new_buffer bl a = some after ∧
      after.heap a = some ⟨a, a, new_buffer⟩ ∧ after.startfile = some a ∧ Ring after a [] := by
  refine ⟨{ heap := set_node bl.heap a ⟨a, a, new_buffer⟩, openfile := some a,
            startfile := some a }, ?_, set_node_same _ _ _, rfl, ?_⟩
  · unfold make_new_buffer
    simp only [ho]
  · refine ⟨by simp, rfl, ⟨a, by simp, rfl⟩, ?_, ?_⟩
    · intro b
      by_cases hb : b = a
      · simp [hb, set_node_same]
      · simp [hb, set_node_other _ _ _ _ hb, hempty]
    · rw [chain_single]
      exact ⟨_, _, set_node_same _ _ _, set_node_same _ _ _, rfl, rfl⟩

/-- The list after `make_new_buffer`: the new struct is current, linked in
between the buffer that was current and its successor. -/
theorem make_new_buffer_ring (bl : BufferList) (c a : Nat) (rest : List Nat)
    (h : Ring bl c rest) (hfresh : bl.heap a = none) :
    ∃ after cur, make_new_buffer bl a = some after ∧ bl.heap c = some cur ∧
      after.heap a = some ⟨c, cur.next, new_buffer⟩ ∧
      after.startfile = bl.startfile ∧
      (∀ b ∈ c :: rest, (after.heap b).map Node.buffer = (bl.heap b).map Node.buffer) ∧
      Ring after a (rest ++ [c]) := by
  have hlink := ring_next bl c rest h
  obtain ⟨hnd, ho, ⟨f, hf, hs⟩, hlive, hchain⟩ := h
  have hnmem : (rest ++ [c]).headD c ∈ c :: rest := by
    cases rest with
    | nil => simp
    | cons n tl => simp
  obtain ⟨n, hn⟩ : ∃ n, (rest ++ [c]).headD c = n := ⟨_, rfl⟩
  rw [hn] at hlink hnmem
  obtain ⟨cur, nn, h1, h2, h3, h4⟩ := hlink
  have hnot : a ∉ c :: rest := by
    intro hm
    have := (hlive a).mpr hm
    rw [hfresh] at this
    exact absurd this (by decide)
  have hac : a ≠ c := fun e => hnot (by simp [e])
  have han : a ≠ n := fun e => hnot (e ▸ hnmem)
  have heval := make_new_buffer_eval bl c n a cur nn ho h1 h3 h2 hac han
  refine ⟨_, cur, heval, h1, ?_, rfl, ?_, ?_⟩
  · show set_node _ _ _ a = _
    rw [set_node_other _ _ _ _ hac, set_node_other _ _ _ _ han, set_node_same, h3]
  · intro b hb
    have hba : b ≠ a := fun e => hnot (e ▸ hb)
    show (set_node _ _ _ b).map Node.buffer = _
    by_cases hbc : b = c
    · rw [hbc, set_node_same, h1]
      by_cases hnc : n = c
      · rw [hnc] at h2
        have hcn : cur = nn := Option.some.inj (h1.symm.trans h2)
        rw [if_pos hnc, hcn]
        rfl
      · rw [if_neg hnc]
        rfl
    · rw [set_node_other _ _ _ _ hbc]
      by_cases hbn : b = n
      · rw [hbn, set_node_same, h2]
        rfl
      · rw [set_node_other _ _ _ _ hbn, set_node_other _ _ _ _ hba]
  · have hmem : ∀ b, b ∈ a :: (rest ++ [c]) ↔ (b = a ∨ b ∈ c :: rest) := by
      intro b
      simp only [List.mem_cons, List.mem_append, List.mem_singleton, List.not_mem_nil, or_false]
      tauto
    refine ⟨?_, rfl, ⟨f, (hmem f).mpr (Or.inr hf), hs⟩, ?_, ?_⟩
    · rw [List.nodup_cons]
      refine ⟨fun hm => hnot ?_, ?_⟩
      · rcases (hmem a).mp (List.mem_cons_of_mem _ hm) with h5 | h5
        · simp only [List.mem_append, List.mem_singleton] at hm
          rcases hm with h6 | h6
          · exact List.mem_cons_of_mem _ h6
          · exact absurd h6 hac
        · exact h5
      · have h5 : ([c] ++ rest).Nodup := hnd
        rw [List.nodup_append_comm] at h5
        exact h5
    · intro b
      show (set_node _ _ _ b).isSome = true ↔ _
      rw [hmem]
      by_cases hbc : b = c
      · rw [hbc, set_node_same]
        simp
      · rw [set_node_other _ _ _ _ hbc]
        by_cases hbn : b = n
        · rw [hbn, set_node_same]
          simp [hnmem]
        · rw [set_node_other _ _ _ _ hbn]
          by_cases hba : b = a
          · rw [hba, set_node_same]
            simp
          · rw [set_node_other _ _ _ _ hba, hlive b]
            simp [hba]
    · show List.Chain (Link (set_node _ _ _)) a (rest ++ [c] ++ [a])
      cases rest with
      | nil =>
        simp only [List.nil_append, List.headD_cons] at hn
        subst hn
        have hcn : cur = nn := Option.some.inj (h1.symm.trans h2)
        simp only [List.nil_append, List.singleton_append, List.chain_cons, List.Chain.nil,
          and_true, if_true]
        refine ⟨⟨⟨c, c, new_buffer⟩, _, ?_, set_node_same _ _ _, rfl, rfl⟩,
          ⟨_, ⟨c, c, new_buffer⟩, set_node_same _ _ _, ?_, rfl, rfl⟩⟩
        · rw [set_node_other _ _ _ _ hac, set_node_other _ _ _ _ hac, set_node_same]
        · rw [set_node_other _ _ _ _ hac, set_node_other _ _ _ _ hac, set_node_same]
      | cons m tl =>
        simp only [List.cons_append, List.headD_cons] at hn
        subst hn
        have hmc : m ≠ c := by
          intro e
          rw [e] at hnd
          simp at hnd
        rw [List.cons_append, List.chain_cons] at hchain
        rw [List.cons_append, List.cons_append, List.chain_cons, chain_concat]
        rw [if_neg hmc]
        have hnd2 : (m :: (tl ++ [c])).Nodup := by
          have h5 : ([c] ++ (m :: tl)).Nodup := hnd
          rw [List.nodup_append_comm] at h5
          exact h5
        refine ⟨⟨⟨c, m, new_buffer⟩, { nn with prev := a }, ?_, ?_, rfl, rfl⟩, ?_,
          ⟨_, ⟨c, m, new_buffer⟩, set_node_same _ _ _, ?_, rfl, rfl⟩⟩
        · rw [set_node_other _ _ _ _ hac, set_node_other _ _ _ _ han, set_node_same]
        · rw [set_node_other _ _ _ _ hmc, set_node_same]
        · apply chain_transfer _ _ hchain.2
          intro x y hx hy hxy
          have hdl : (m :: (tl ++ [c])).dropLast = m :: tl := by
            rw [← List.cons_append, List.dropLast_concat]
          rw [hdl] at hx
          have hxc : x ≠ c := by
            intro e
            rw [e] at hx
            exact (List.nodup_cons.mp hnd).1 hx
          have hxa : x ≠ a := fun e => hnot (e ▸ List.mem_cons_of_mem _ hx)
          have hym : y ≠ m := by
            intro e
            rw [e] at hy
            exact (List.nodup_cons.mp hnd2).1 hy
          have hya : y ≠ a := by
            intro e
            rw [e] at hy
            simp only [List.mem_append, List.mem_singleton] at hy
            rcases hy with h6 | h6
            · exact hnot (List.mem_cons_of_mem _ (List.mem_cons_of_mem _ h6))
            · exact hac h6
          apply link_transfer _ _ _ _ hxy
          · intro node hnode
            rw [set_node_other _ _ _ _ hxc]
            by_cases hxm : x = m
            · rw [hxm, set_node_same]
              rw [hxm, h2] at hnode
              exact ⟨_, rfl, by rw [← Option.some.inj hnode]⟩
            · rw [set_node_other _ _ _ _ hxm, set_node_other _ _ _ _ hxa]
              exact ⟨node, hnode, rfl⟩
          · intro node hnode
            by_cases hyc : y = c
            · rw [hyc, set_node_same]
              rw [hyc, h1] at hnode
              exact ⟨_, rfl, by rw [← Option.some.inj hnode]⟩
            · rw [set_node_other _ _ _ _ hyc, set_node_other _ _ _ _ hym,
                set_node_other _ _ _ _ hya]
              exact ⟨node, hnode, rfl⟩
        · rw [set_node_other _ _ _ _ hac, set_node_other _ _ _ _ han, set_node_same]

/-- What `close_buffer` computes when the current struct and its two
neighbours are live and the neighbours are other structs. -/
theorem close_buffer_eval (bl : BufferList) (c p n : Nat) (node pn nn : Node)
    (ho : bl.openfile = some c) (hc : bl.heap c = some node) (hprev : node.prev = p)
    (hnext : node.next = n) (hp : bl.heap p = some pn) (hn : bl.heap n = some nn)
    (hpc : p ≠ c) (hnc : n ≠ c) :
    close_buffer bl = some
      { heap := free_node (set_node (set_node bl.heap p { pn with next := n }) n
          { (if n = p then { pn with next := n } else nn) with prev := p }) c,
        openfile := some p,
        startfile := if bl.startfile = some c then some n else bl.startfile } := by
  subst hprev
  subst hnext
  have e1 : set_node bl.heap node.prev { pn with next := node.next } c = some node := by
    rw [set_node_other _ _ _ _ (Ne.symm hpc), hc]
  have e2 : set_node bl.heap node.prev { pn with next := node.next } node.next
      = some (if node.next = node.prev then { pn with next := node.next } else nn) := by
    by_cases h : node.next = node.prev
    · rw [if_pos h, h, set_node_same]
    · rw [if_neg h, set_node_other _ _ _ _ h, hn]
  have e3 : set_node (set_node bl.heap node.prev { pn with next := node.next }) node.next
      { (if node.next = node.prev then { pn with next := node.next } else nn) with
        prev := node.prev } c = some node := by
    rw [set_node_other _ _ _ _ (Ne.symm hnc), e1]
  have e4 : ∃ q, free_node (set_node (set_node bl.heap node.prev { pn with next := node.next })
      node.next { (if node.next = node.prev then { pn with next := node.next } else nn) with
        prev := node.prev }) c node.prev = some q := by
    rw [free_node_other _ _ _ hpc]
    by_cases h : node.prev = node.next
    · rw [h, set_node_same]
      exact ⟨_, rfl⟩
    · rw [set_node_other _ _ _ _ h, set_node_same]
      exact ⟨_, rfl⟩
  obtain ⟨q, e4⟩ := e4
  unfold close_buffer
  simp only [ho, hc, hp]
  rw [e1]
  simp only
  rw [e2]
  simp only
  rw [e3]
  simp only
  rw [more_than_one_live _ node.prev q rfl e4]

/-- The list after `close_buffer` when another buffer is open: the current
struct is gone, its predecessor is current, and the others keep their order. -/
theorem close_buffer_ring (bl : BufferList) (c : Nat) (rest : List Nat) (h : Ring bl c rest)
    (hne : rest ≠ []) :
    ∃ after node, close_buffer bl = some after ∧ bl.heap c = some node ∧
      after.heap c = none ∧ after.openfile = some node.prev ∧
      after.startfile = (if bl.startfile = some c then some node.next else bl.startfile) ∧
      (∀ b ∈ rest, (after.heap b).map Node.buffer = (bl.heap b).map Node.buffer) ∧
      Ring after (rest.getLast hne) rest.dropLast := by
  obtain ⟨hnd, ho, ⟨f, hf, hs⟩, hlive, hchain⟩ := h
  rcases nil_or_snoc rest with rfl | ⟨init, p, rfl⟩
  · exact absurd rfl hne
  have hlast : (init ++ [p]).getLast hne = p := by simp
  have hdrop : (init ++ [p]).dropLast = init := List.dropLast_concat
  rw [hlast, hdrop]
  obtain ⟨hchain1, hpc⟩ := (chain_concat c p c init).mp hchain
  have hnd2 : (p :: init).Nodup := by
    have h5 := (List.nodup_cons.mp hnd).2
    rw [List.nodup_append_comm] at h5
    exact h5
  have hpne : p ≠ c := by
    intro e
    rw [e] at hnd
    simp at hnd
  have hmem : ∀ b, b ∈ p :: init ↔ b ∈ init ++ [p] := by
    intro b
    simp only [List.mem_cons, List.mem_append, List.mem_singleton, List.not_mem_nil, or_false]
    tauto
  obtain ⟨pn, node, hp, hc, hpn, hprev⟩ := hpc
  cases init with
  | nil =>
    rw [chain_single] at hchain1
    obtain ⟨node2, pn2, hc2, hp2, hnext, _⟩ := hchain1
    have hnode : node2 = node := Option.some.inj (hc2.symm.trans hc)
    rw [hnode] at hnext
    have heval := close_buffer_eval bl c p p node pn pn ho hc hprev hnext hp hp hpne hpne
    rw [if_pos rfl] at heval
    refine ⟨_, node, heval, hc, free_node_same _ _, by rw [hprev], by rw [hnext], ?_, ?_⟩
    · intro b hb
      have hbp : b = p := by simpa using hb
      show (free_node _ _ b).map Node.buffer = _
      rw [hbp, free_node_other _ _ _ hpne, set_node_same, hp]
      simp
    · refine ⟨by simp, rfl, ?_, ?_, ?_⟩
      · refine ⟨p, by simp, ?_⟩
        show (if bl.startfile = some c then some p else bl.startfile) = some p
        by_cases hsc : bl.startfile = some c
        · rw [if_pos hsc]
        · rw [if_neg hsc, hs]
          have hfc : f ≠ c := fun e => hsc (by rw [hs, e])
          have hfp : f = p := by
            simp only [List.nil_append, List.mem_cons, List.mem_singleton,
              List.not_mem_nil, or_false] at hf
            rcases hf with h6 | h6
            · exact absurd h6 hfc
            · exact h6
          rw [hfp]
      · intro b
        show (free_node _ _ b).isSome = true ↔ _
        by_cases hbc : b = c
        · rw [hbc, free_node_same]
          simp [Ne.symm hpne]
        · rw [free_node_other _ _ _ hbc]
          by_cases hbp : b = p
          · rw [hbp, set_node_same]
            simp
          · rw [set_node_other _ _ _ _ hbp, set_node_other _ _ _ _ hbp, hlive b]
            simp [hbc, hbp]
      · rw [chain_single]
        show Link (free_node _ _) p p
        refine ⟨⟨p, p, pn.buffer⟩, ⟨p, p, pn.buffer⟩, ?_, ?_, rfl, rfl⟩
        · rw [free_node_other _ _ _ hpne, set_node_same]
        · rw [free_node_other _ _ _ hpne, set_node_same]
  | cons m tl =>
    rw [List.cons_append, List.chain_cons] at hchain1
    obtain ⟨⟨node2, nn, hc2, hm, hnext, _⟩, hchain2⟩ := hchain1
    have hnode : node2 = node := Option.some.inj (hc2.symm.trans hc)
    rw [hnode] at hnext
    have hmc : m ≠ c := by
      intro e
      rw [e] at hnd
      simp at hnd
    have hmp : m ≠ p := by
      intro e
      rw [e] at hnd2
      simp at hnd2
    have heval := close_buffer_eval bl c p m node pn nn ho hc hprev hnext hp hm hpne hmc
    rw [if_neg hmp] at heval
    refine ⟨_, node, heval, hc, free_node_same _ _, by rw [hprev], by rw [hnext], ?_, ?_⟩
    · intro b hb
      have hbc : b ≠ c := by
        intro e
        rw [e] at hb
        exact (List.nodup_cons.mp hnd).1 hb
      show (free_node _ _ b).map Node.buffer = _
      rw [free_node_other _ _ _ hbc]
      by_cases hbm : b = m
      · rw [hbm, set_node_same, hm]
        rfl
      · rw [set_node_other _ _ _ _ hbm]
        by_cases hbp : b = p
        · rw [hbp, set_node_same, hp]
          rfl
        · rw [set_node_other _ _ _ _ hbp]
    · refine ⟨hnd2, rfl, ?_, ?_, ?_⟩
      · show ∃ first ∈ p :: m :: tl, (if bl.startfile = some c then some m else bl.startfile)
          = some first
        by_cases hsc : bl.startfile = some c
        · exact ⟨m, by simp, by rw [if_pos hsc]⟩
        · refine ⟨f, ?_, by rw [if_neg hsc, hs]⟩
          have hfc : f ≠ c := fun e => hsc (by rw [hs, e])
          rw [hmem]
          rcases List.mem_cons.mp hf with h6 | h6
          · exact absurd h6 hfc
          · exact h6
      · intro b
        show (free_node _ _ b).isSome = true ↔ _
        rw [hmem]
        by_cases hbc : b = c
        · rw [hbc, free_node_same]
          have hcn : c ∉ m :: tl ++ [p] := (List.nodup_cons.mp hnd).1
          simp only [Option.isSome_none, Bool.false_eq_true, false_iff]
          exact hcn
        · rw [free_node_other _ _ _ hbc]
          by_cases hbm : b = m
          · rw [hbm, set_node_same]
            simp
          · rw [set_node_other _ _ _ _ hbm]
            by_cases hbp : b = p
            · rw [hbp, set_node_same]
              simp
            · rw [set_node_other _ _ _ _ hbp, hlive b]
              simp [hbc]
      · show List.Chain (Link (free_node _ _)) p (m :: tl ++ [p])
        rw [List.cons_append, List.chain_cons]
        refine ⟨⟨{ pn with next := m }, { nn with prev := p }, ?_, ?_, rfl, rfl⟩, ?_⟩
        · rw [free_node_other _ _ _ hpne, set_node_other _ _ _ _ (Ne.symm hmp), set_node_same]
        · rw [free_node_other _ _ _ hmc, set_node_same]
        · apply chain_transfer _ _ hchain2
          intro x y hx hy hxy
          have hdl : (m :: (tl ++ [p])).dropLast = m :: tl := by
            rw [← List.cons_append, List.dropLast_concat]
          rw [hdl] at hx
          have hxin : x ∈ m :: tl ++ [p] := by
            rw [List.cons_append]
            rcases List.mem_cons.mp hx with h6 | h6
            · rw [h6]; exact List.mem_cons_self _ _
            · exact List.mem_cons_of_mem _ (List.mem_append_left _ h6)
          have hxc : x ≠ c := by
            intro e
            rw [e] at hxin
            exact (List.nodup_cons.mp hnd).1 hxin
          have hxp : x ≠ p := by
            intro e
            rw [e] at hx
            exact (List.nodup_cons.mp hnd2).1 hx
          have hyin : y ∈ m :: tl ++ [p] := List.mem_cons_of_mem _ hy
          have hyc : y ≠ c := by
            intro e
            rw [e] at hyin
            exact (List.nodup_cons.mp hnd).1 hyin
          have hym : y ≠ m := by
            intro e
            rw [e] at hy
            have h7 := (List.nodup_cons.mp hnd).2
            rw [List.cons_append] at h7
            exact (List.nodup_cons.mp h7).1 hy
          apply link_transfer _ _ _ _ hxy
          · intro nd hnd3
            rw [free_node_other _ _ _ hxc]
            by_cases hxm : x = m
            · rw [hxm, set_node_same]
              rw [hxm, hm] at hnd3
              exact ⟨_, rfl, by rw [← Option.some.inj hnd3]⟩
            · rw [set_node_other _ _ _ _ hxm, set_node_other _ _ _ _ hxp]
              exact ⟨nd, hnd3, rfl⟩
          · intro nd hnd3
            rw [free_node_other _ _ _ hyc, set_node_other _ _ _ _ hym]
            by_cases hyp : y = p
            · rw [hyp, set_node_same]
              rw [hyp, hp] at hnd3
              exact ⟨_, rfl, by rw [← Option.some.inj hnd3]⟩
            · rw [set_node_other _ _ _ _ hyp]
              exact ⟨nd, hnd3, rfl⟩

/-- Whether more than one buffer is open, read off the ring. -/
theorem ring_more_than_one (bl : BufferList) (c : Nat) (rest : List Nat) (h : Ring bl c rest) :
    more_than_one bl = some true ↔ rest ≠ [] := by
  have hlink := ring_next bl c rest h
  obtain ⟨hnd, ho, _, _, _⟩ := h
  obtain ⟨cur, nn, h1, _, h3, _⟩ := hlink
  rw [more_than_one_live bl c cur ho h1, h3]
  cases rest with
  | nil => simp
  | cons n tl =>
    have hne : n ≠ c := by
      intro e
      rw [List.nodup_cons] at hnd
      exact hnd.1 (by simp [e])
    simp [hne]

/-- Every place of a chain but the last has a successor in it, and every
place but the first a predecessor. -/
theorem chain_neighbours {R : Nat → Nat → Prop} : ∀ (l : List Nat) (a : Nat),
    List.Chain R a l →
    (∀ x ∈ (a :: l).dropLast, ∃ y ∈ l, R x y) ∧ (∀ y ∈ l, ∃ x ∈ (a :: l).dropLast, R x y)
  | [], _, _ => by simp
  | b :: l, a, h => by
    rw [List.chain_cons] at h
    obtain ⟨ih1, ih2⟩ := chain_neighbours l b h.2
    rw [List.dropLast_cons₂]
    constructor
    · intro x hx
      rcases List.mem_cons.mp hx with rfl | hx
      · exact ⟨b, by simp, h.1⟩
      · obtain ⟨y, hy, hr⟩ := ih1 x hx
        exact ⟨y, List.mem_cons_of_mem _ hy, hr⟩
    · intro y hy
      rcases List.mem_cons.mp hy with rfl | hy
      · exact ⟨a, by simp, h.1⟩
      · obtain ⟨x, hx, hr⟩ := ih2 y hy
        exact ⟨x, List.mem_cons_of_mem _ hx, hr⟩

/-- Every place of a chain of links is reached from its start by `next`. -/
theorem chain_follow (heap : Nat → Option Node) : ∀ (l : List Nat) (a : Nat),
    List.Chain (Link heap) a l → ∀ b ∈ a :: l, ∃ k, k ≤ l.length ∧ follow heap k a = some b
  | [], a, _, b, hb => by
    rw [List.mem_singleton] at hb
    exact ⟨0, Nat.le_refl _, by rw [hb]; rfl⟩
  | y :: l, a, h, b, hb => by
    rw [List.chain_cons] at h
    rcases List.mem_cons.mp hb with rfl | hb
    · exact ⟨0, Nat.zero_le _, rfl⟩
    · obtain ⟨k, hk, hf⟩ := chain_follow heap l y h.2 b hb
      obtain ⟨na, _, h1, _, h3, _⟩ := h.1
      refine ⟨k + 1, by simpa using hk, ?_⟩
      show (match heap a with
        | none => none
        | some node => follow heap k node.next) = some b
      rw [h1]
      show follow heap k na.next = some b
      rw [h3, hf]

theorem ring_dropLast (c : Nat) (rest : List Nat) : (c :: (rest ++ [c])).dropLast = c :: rest := by
  rw [← List.cons_append, List.dropLast_concat]

/-- In a ring `next` and `prev` are mutually inverse. -/
theorem ring_inverse (bl : BufferList) (c : Nat) (rest : List Nat) (h : Ring bl c rest)
    (b : Nat) (node : Node) (hb : bl.heap b = some node) :
    (∃ n, bl.heap node.next = some n ∧ n.prev = b) ∧
    (∃ p, bl.heap node.prev = some p ∧ p.next = b) := by
  obtain ⟨_, _, _, hlive, hchain⟩ := h
  have hmem : b ∈ c :: rest := (hlive b).mp (by rw [hb]; rfl)
  obtain ⟨h1, h2⟩ := chain_neighbours (rest ++ [c]) c hchain
  rw [ring_dropLast] at h1 h2
  constructor
  · obtain ⟨y, _, nx, ny, e1, e2, e3, e4⟩ := h1 b hmem
    rw [hb] at e1
    cases e1
    exact ⟨ny, by rw [e3]; exact e2, e4⟩
  · obtain ⟨x, _, nx, ny, e1, e2, e3, e4⟩ := h2 b (by
      rcases List.mem_cons.mp hmem with rfl | hm
      · simp
      · simp [hm])
    rw [hb] at e2
    cases e2
    exact ⟨nx, by rw [e4]; exact e1, e3⟩

/-- In a ring every buffer is reached from the current one by `next`, in
fewer steps than there are buffers. -/
theorem ring_follow (bl : BufferList) (c : Nat) (rest : List Nat) (h : Ring bl c rest)
    (b : Nat) (hb : (bl.heap b).isSome = true) :
    ∃ k, k ≤ rest.length ∧ follow bl.heap k c = some b := by
  obtain ⟨_, _, _, hlive, hchain⟩ := h
  have hmem : b ∈ c :: rest := (hlive b).mp hb
  have hshort : List.Chain (Link bl.heap) c rest := by
    rcases nil_or_snoc rest with rfl | ⟨init, p, rfl⟩
    · exact List.Chain.nil
    · exact ((chain_concat c p c init).mp hchain).1
  exact chain_follow bl.heap rest c hshort b hmem

/-- The list after admissible calls is a ring again, and its length is the
old one plus the buffers made minus the buffers closed. -/
theorem run_ring : ∀ (ops : List BufferOp) (bl : BufferList) (c : Nat) (rest : List Nat),
    Ring bl c rest → admissible bl ops = true →
    ∃ after c2 rest2, run bl ops = some after ∧ Ring after c2 rest2 ∧
      rest2.length + closes ops = rest.length + makes ops
  | [], bl, c, rest, h, _ => ⟨bl, c, rest, rfl, h, rfl⟩
  | op :: ops, bl, c, rest, h, hadm => by
    have hadm2 : allowed bl op = true ∧
        (match step bl op with
          | none => true
          | some after => admissible after ops) = true := by
      simpa [admissible] using hadm
    obtain ⟨hal, hrest⟩ := hadm2
    cases op with
    | make a =>
      have hfresh : bl.heap a = none := by simpa [allowed] using hal
      obtain ⟨after, cur, e, _, _, _, _, hring⟩ := make_new_buffer_ring bl c a rest h hfresh
      have es : step bl (BufferOp.make a) = some after := e
      rw [es] at hrest
      obtain ⟨fin, c2, rest2, er, hr, hl⟩ := run_ring ops after a (rest ++ [c]) hring hrest
      refine ⟨fin, c2, rest2, ?_, hr, ?_⟩
      · show (match step bl (BufferOp.make a) with
          | none => none
          | some after => run after ops) = some fin
        rw [es]
        exact er
      · simp only [List.length_append, List.length_singleton] at hl
        show rest2.length + closes ops = rest.length + (makes ops + 1)
        omega
    | next =>
      obtain ⟨after, e, _, _, hring⟩ := switch_to_next_ring bl c rest h
      have es : step bl BufferOp.next = some after := e
      rw [es] at hrest
      obtain ⟨fin, c2, rest2, er, hr, hl⟩ := run_ring ops after _ _ hring hrest
      refine ⟨fin, c2, rest2, ?_, hr, ?_⟩
      · show (match step bl BufferOp.next with
          | none => none
          | some after => run after ops) = some fin
        rw [es]
        exact er
      · simp only [List.length_tail, List.length_append, List.length_singleton] at hl
        show rest2.length + closes ops = rest.length + makes ops
        omega
    | prev =>
      obtain ⟨after, e, _, _, hring⟩ := switch_to_prev_ring bl c rest h
      have es : step bl BufferOp.prev = some after := e
      rw [es] at hrest
      obtain ⟨fin, c2, rest2, er, hr, hl⟩ := run_ring ops after _ _ hring hrest
      refine ⟨fin, c2, rest2, ?_, hr, ?_⟩
      · show (match step bl BufferOp.prev with
          | none => none
          | some after => run after ops) = some fin
        rw [es]
        exact er
      · simp only [List.length_dropLast, List.length_cons] at hl
        show rest2.length + closes ops = rest.length + makes ops
        omega
    | close =>
      have hmore : more_than_one bl = some true := by simpa [allowed] using hal
      have hne : rest ≠ [] := (ring_more_than_one bl c rest h).mp hmore
      obtain ⟨after, node, e, _, _, _, _, _, hring⟩ := close_buffer_ring bl c rest h hne
      have es : step bl BufferOp.close = some after := e
      rw [es] at hrest
      obtain ⟨fin, c2, rest2, er, hr, hl⟩ := run_ring ops after _ _ hring hrest
      refine ⟨fin, c2, rest2, ?_, hr, ?_⟩
      · show (match step bl BufferOp.close with
          | none => none
          | some after => run after ops) = some fin
        rw [es]
        exact er
      · have hpos : 0 < rest.length := List.length_pos.mpr hne
        simp only [List.length_dropLast] at hl
        show rest2.length + (closes ops + 1) = rest.length + makes ops
        omega

/-- From no buffers, admissible calls start with `make_new_buffer` and lead to
a ring. -/
theorem run_no_buffers (a : Nat) (ops : List BufferOp)
    (hadm : admissible no_buffers (BufferOp.make a :: ops) = true) :
    ∃ after c rest, run no_buffers (BufferOp.make a :: ops) = some after ∧ Ring after c rest ∧
      rest.length + 1 + closes ops = makes ops + 1 := by
  obtain ⟨first, e, _, _, hring⟩ := make_new_buffer_first no_buffers a rfl (fun _ => rfl)
  have es : step no_buffers (BufferOp.make a) = some first := e
  have hrest : admissible first ops = true := by
    have h2 : allowed no_buffers (BufferOp.make a) = true ∧
        (match step no_buffers (BufferOp.make a) with
          | none => true
          | some after => admissible after ops) = true := by
      simpa [admissible] using hadm
    rw [es] at h2
    exact h2.2
  obtain ⟨fin, c2, rest2, er, hr, hl⟩ := run_ring ops first a [] hring hrest
  refine ⟨fin, c2, rest2, ?_, hr, ?_⟩
  · show (match step no_buffers (BufferOp.make a) with
      | none => none
      | some after => run after ops) = some fin
    rw [es]
    exact er
  · simp only [List.length_nil] at hl
    omega

/-- From no buffers the first admissible call is `make_new_buffer`. -/
theorem admissible_first (ops : List BufferOp) (hadm : admissible no_buffers ops = true)
    (hne : ops ≠ []) : ∃ a rest, ops = BufferOp.make a :: rest := by
  cases ops with
  | nil => exact absurd rfl hne
  | cons op rest =>
    cases op with
    | make a => exact ⟨a, rest, rfl⟩
    | next => simp [admissible, allowed, no_buffers] at hadm
    | prev => simp [admissible, allowed, no_buffers] at hadm
    | close => simp [admissible, allowed, no_buffers, more_than_one] at hadm

/-! ## The claims about the list of buffers -/

theorem three_buffers_ring : Ring three_buffers 1 [2, 3] := by
  refine ⟨by decide, rfl, ⟨1, by simp, rfl⟩, ?_, ?_⟩
  · intro b
    simp only [three_buffers]
    split_ifs with h1 h2 h3 <;> simp [*]
  · simp [Link, three_buffers]

/-- C22: `make_new_buffer` on a well-formed list of buffers (none, or a ring),
with a fresh address from `nmalloc`, returns; the new buffer is current, its
`prev` is the buffer that was current and its `next` that buffer's former
`next` (with no buffer before, it is its own `prev` and `next` and
`startfile`); the other buffers keep their cyclic order and their contents;
and the new buffer has one empty line, no name, is not modified and has the
Unix format. -/
theorem C22_make_new_buffer (bl : BufferList) (members : List Nat) (newnode : Nat)
    (h : Listed bl members) (hfresh : bl.heap newnode = none) :
    ∃ after node, make_new_buffer bl newnode = some after ∧
      after.openfile = some newnode ∧ after.heap newnode = some node ∧
      (∀ c cur, bl.openfile = some c → bl.heap c = some cur →
        node.prev = c ∧ node.next = cur.next ∧ after.startfile = bl.startfile) ∧
      (bl.openfile = none →
        node.prev = newnode ∧ node.next = newnode ∧ after.startfile = some newnode) ∧
      Listed after (newnode :: members.rotate 1) ∧
      (∀ b ∈ members, (after.heap b).map Node.buffer = (bl.heap b).map Node.buffer) ∧
      node.buffer.lines = [[]] ∧ node.buffer.filename = "" ∧
      node.buffer.modified = false ∧ node.buffer.fmt = format_type.NIX_FILE := by
  cases members with
  | nil =>
    obtain ⟨ho, hempty⟩ := h
    obtain ⟨after, e, hnode, hs, hring⟩ := make_new_buffer_first bl newnode ho hempty
    refine ⟨after, _, e, hring.2.1, hnode, ?_, ?_, hring, ?_, rfl, rfl, rfl, rfl⟩
    · intro c cur hc
      rw [ho] at hc
      cases hc
    · intro _
      exact ⟨rfl, rfl, hs⟩
    · intro b hb
      cases hb
  | cons c rest =>
    obtain ⟨after, cur, e, hcur, hnode, hs, hkeep, hring⟩ :=
      make_new_buffer_ring bl c newnode rest h hfresh
    refine ⟨after, _, e, hring.2.1, hnode, ?_, ?_, ?_, hkeep, rfl, rfl, rfl, rfl⟩
    · intro c2 cur2 hc2 hcur2
      rw [h.2.1] at hc2
      cases hc2
      rw [hcur] at hcur2
      cases hcur2
      exact ⟨rfl, rfl, hs⟩
    · intro hnone
      rw [h.2.1] at hnone
      cases hnone
    · rw [List.rotate_cons_succ, List.rotate_zero]
      exact hring

theorem C22_make_new_buffer_witness :
    Listed three_buffers [1, 2, 3] ∧ three_buffers.heap 4 = none ∧
    ∃ after node, make_new_buffer three_buffers 4 = some after ∧
      after.openfile = some 4 ∧ after.heap 4 = some node ∧
      (∀ c cur, three_buffers.openfile = some c → three_buffers.heap c = some cur →
        node.prev = c ∧ node.next = cur.next ∧ after.startfile = three_buffers.startfile) ∧
      (three_buffers.openfile = none →
        node.prev = 4 ∧ node.next = 4 ∧ after.startfile = some 4) ∧
      Listed after (4 :: [1, 2, 3].rotate 1) ∧
      (∀ b ∈ [1, 2, 3],
        (after.heap b).map Node.buffer = (three_buffers.heap b).map Node.buffer) ∧
      node.buffer.lines = [[]] ∧ node.buffer.filename = "" ∧
      node.buffer.modified = false ∧ node.buffer.fmt = format_type.NIX_FILE :=
  ⟨three_buffers_ring, rfl, C22_make_new_buffer three_buffers [1, 2, 3] 4 three_buffers_ring rfl⟩

/-- C23: `close_buffer` on a ring of at least two buffers returns; the struct
of the closed buffer is freed and so no longer in the list, the remaining
buffers keep their cyclic order and their contents, the former `prev` of the
closed buffer is current, and `startfile` is the closed buffer's former `next`
if it was the closed buffer and unchanged otherwise. -/
theorem C23_close_buffer (bl : BufferList) (c : Nat) (rest : List Nat) (h : Ring bl c rest)
    (hne : rest ≠ []) :
    ∃ after node, close_buffer bl = some after ∧ bl.heap c = some node ∧
      after.heap c = none ∧ c ∉ rest ∧
      Ring after (rest.getLast hne) rest.dropLast ∧
      (∀ b ∈ rest, (after.heap b).map Node.buffer = (bl.heap b).map Node.buffer) ∧
      after.openfile = some node.prev ∧ node.prev = rest.getLast hne ∧
      (bl.startfile = some c → after.startfile = some node.next) ∧
      (bl.startfile ≠ some c → after.startfile = bl.startfile) := by
  obtain ⟨after, node, e, hnode, hfree, ho, hs, hkeep, hring⟩ := close_buffer_ring bl c rest h hne
  refine ⟨after, node, e, hnode, hfree, (List.nodup_cons.mp h.1).1, hring, hkeep, ho, ?_, ?_, ?_⟩
  · have h2 := hring.2.1
    rw [ho] at h2
    exact Option.some.inj h2
  · intro hst
    rw [hs, if_pos hst]
  · intro hst
    rw [hs, if_neg hst]

theorem C23_close_buffer_witness :
    Ring three_buffers 1 [2, 3] ∧
    ∃ after node, close_buffer three_buffers = some after ∧ three_buffers.heap 1 = some node ∧
      after.heap 1 = none ∧ 1 ∉ [2, 3] ∧
      Ring after ([2, 3].getLast (by decide)) [2, 3].dropLast ∧
      (∀ b ∈ [2, 3], (after.heap b).map Node.buffer = (three_buffers.heap b).map Node.buffer) ∧
      after.openfile = some node.prev ∧ node.prev = [2, 3].getLast (by decide) ∧
      (three_buffers.startfile = some 1 → after.startfile = some node.next) ∧
      (three_buffers.startfile ≠ some 1 → after.startfile = three_buffers.startfile) :=
  ⟨three_buffers_ring, C23_close_buffer three_buffers 1 [2, 3] three_buffers_ring (by decide)⟩

/-- C29: every sequence of calls of `make_new_buffer`, `switch_to_next_buffer`,
`switch_to_prev_buffer` and `close_buffer` that starts from no buffers with
`make_new_buffer`, with fresh addresses from `nmalloc` and `close_buffer` only
when more than one buffer is open, returns, and in the state it reaches a
buffer is open, `next` and `prev` are mutually inverse on every buffer, every
buffer is reached from the current one by following `next`, and `openfile` and
`startfile` point to buffers of the list. -/
theorem C29_circular_list_invariant (newnode : Nat) (ops : List BufferOp)
    (h : admissible no_buffers (BufferOp.make newnode :: ops) = true) :
    ∃ after, run no_buffers (BufferOp.make newnode :: ops) = some after ∧
      (∃ b, (after.heap b).isSome = true) ∧
      (∀ b node, after.heap b = some node →
        (∃ n, after.heap node.next = some n ∧ n.prev = b) ∧
        (∃ p, after.heap node.prev = some p ∧ p.next = b)) ∧
      (∃ current, after.openfile = some current ∧ (after.heap current).isSome = true ∧
        ∀ b, (after.heap b).isSome = true → ∃ k, follow after.heap k current = some b) ∧
      (∃ first, after.startfile = some first ∧ (after.heap first).isSome = true) := by
  obtain ⟨after, c, rest, e, hring, _⟩ := run_no_buffers newnode ops h
  have hlive := hring.2.2.2.1
  refine ⟨after, e, ⟨c, (hlive c).mpr (by simp)⟩, ring_inverse after c rest hring,
    ⟨c, hring.2.1, (hlive c).mpr (by simp), ?_⟩, ?_⟩
  · intro b hb
    obtain ⟨k, _, hk⟩ := ring_follow after c rest hring b hb
    exact ⟨k, hk⟩
  · obtain ⟨f, hf, hs⟩ := hring.2.2.1
    exact ⟨f, hs, (hlive f).mpr hf⟩

theorem C29_circular_list_invariant_witness :
    admissible no_buffers [BufferOp.make 1, BufferOp.make 2, BufferOp.next, BufferOp.make 3,
      BufferOp.prev, BufferOp.close, BufferOp.prev] = true ∧
    ∃ after, run no_buffers [BufferOp.make 1, BufferOp.make 2, BufferOp.next, BufferOp.make 3,
        BufferOp.prev, BufferOp.close, BufferOp.prev] = some after ∧
      (∃ b, (after.heap b).isSome = true) ∧
      (∀ b node, after.heap b = some node →
        (∃ n, after.heap node.next = some n ∧ n.prev = b) ∧
        (∃ p, after.heap node.prev = some p ∧ p.next = b)) ∧
      (∃ current, after.openfile = some current ∧ (after.heap current).isSome = true ∧
        ∀ b, (after.heap b).isSome = true → ∃ k, follow after.heap k current = some b) ∧
      (∃ first, after.startfile = some first ∧ (after.heap first).isSome = true) :=
  ⟨by decide, C29_circular_list_invariant 1 [BufferOp.make 2, BufferOp.next, BufferOp.make 3,
    BufferOp.prev, BufferOp.close, BufferOp.prev] (by decide)⟩

/-- C21: every sequence of calls of `make_new_buffer`, `switch_to_next_buffer`,
`switch_to_prev_buffer` and `close_buffer` from no buffers, with fresh
addresses from `nmalloc` and `close_buffer` only when more than one buffer is
open, that makes one buffer more than it closes, returns and leaves exactly
one buffer, which is its own `next` and `prev` and to which both `openfile`
and `startfile` point. -/
theorem C21_one_buffer_remains (ops : List BufferOp)
    (h : admissible no_buffers ops = true) (hcount : makes ops = closes ops + 1) :
    ∃ after b node, run no_buffers ops = some after ∧
      (∀ q, (after.heap q).isSome = true ↔ q = b) ∧
      after.heap b = some node ∧ node.next = b ∧ node.prev = b ∧
      after.openfile = some b ∧ after.startfile = some b := by
  have hne : ops ≠ [] := by
    intro e
    rw [e] at hcount
    simp [makes, closes] at hcount
  obtain ⟨a, tl, rfl⟩ := admissible_first ops h hne
  obtain ⟨after, c, rest, e, hring, hlen⟩ := run_no_buffers a tl h
  have hcount2 : makes tl + 1 = closes tl + 1 := hcount
  have hnil : rest = [] := List.length_eq_zero.mp (by omega)
  subst hnil
  obtain ⟨nx, ny, h1, h2, h3, h4⟩ := ring_next after c [] hring
  have h5 : after.heap c = some ny := h2
  have h6 : nx.next = c := h3
  rw [h1] at h5
  cases h5
  obtain ⟨_, ho, ⟨f, hf, hs⟩, hlive, _⟩ := hring
  refine ⟨after, c, nx, e, ?_, h1, h6, h4, ho, ?_⟩
  · intro q
    rw [hlive q, List.mem_singleton]
  · rw [List.mem_singleton] at hf
    rw [hs, hf]

theorem C21_one_buffer_remains_witness :
    (admissible no_buffers [BufferOp.make 1, BufferOp.make 2, BufferOp.next, BufferOp.make 3,
      BufferOp.close, BufferOp.prev, BufferOp.close] = true ∧
    makes [BufferOp.make 1, BufferOp.make 2, BufferOp.next, BufferOp.make 3,
      BufferOp.close, BufferOp.prev, BufferOp.close] =
      closes [BufferOp.make 1, BufferOp.make 2, BufferOp.next, BufferOp.make 3,
      BufferOp.close, BufferOp.prev, BufferOp.close] + 1) ∧
    ∃ after b node, run no_buffers [BufferOp.make 1, BufferOp.make 2, BufferOp.next,
        BufferOp.make 3, BufferOp.close, BufferOp.prev, BufferOp.close] = some after ∧
      (∀ q, (after.heap q).isSome = true ↔ q = b) ∧
      after.heap b = some node ∧ node.next = b ∧ node.prev = b ∧
      after.openfile = some b ∧ after.startfile = some b :=
  ⟨⟨by decide, by decide⟩, C21_one_buffer_remains [BufferOp.make 1, BufferOp.make 2,
    BufferOp.next, BufferOp.make 3, BufferOp.close, BufferOp.prev, BufferOp.close]
    (by decide) (by decide)⟩

/-! ## Facts about `open_buffer` -/

/-- The locking functions change no field of the buffer but `lock_filename`. -/
theorem write_lockfile_keeps (flags : Flags) (lk : Locking) (fs : FileSystem)
    (openfile : openfilestruct) (lockfilename : String) (origfilename : Option String)
    (modified : Bool) :
    ∃ name, (write_lockfile flags lk fs openfile lockfilename origfilename modified).openfile =
      { openfile with lock_filename := name } := by
  unfold write_lockfile
  cases lk.pw_name with
  | none => split_ifs <;> exact ⟨_, rfl⟩
  | some pw_name =>
    cases lk.myhostname with
    | none => split_ifs <;> exact ⟨_, rfl⟩
    | some myhostname =>
      dsimp only
      split_ifs <;> exact ⟨_, rfl⟩

theorem do_lockfile_keeps (flags : Flags) (lk : Locking) (fs : FileSystem)
    (openfile : openfilestruct) (filename : String) (lockprog lockuser : List UInt8) :
    ∃ name, (do_lockfile flags lk fs openfile filename lockprog lockuser).openfile =
      { openfile with lock_filename := name } := by
  unfold do_lockfile
  dsimp only
  split_ifs
  · exact ⟨_, rfl⟩
  · exact ⟨_, rfl⟩
  · exact ⟨_, rfl⟩
  · exact write_lockfile_keeps _ _ _ _ _ _ _
  · exact write_lockfile_keeps _ _ _ _ _ _ _

/-- The current buffer of a ring. -/
theorem current_buffer_ring (bl : BufferList) (c : Nat) (rest : List Nat) (h : Ring bl c rest)
    (node : Node) (hc : bl.heap c = some node) : current_buffer bl = some node.buffer := by
  unfold current_buffer
  rw [h.2.1]
  simp only [hc, Option.map_some']

/-- A write to the fields of the current buffer leaves the ring as it is. -/
theorem edit_current_ring (bl : BufferList) (c : Nat) (rest : List Nat) (h : Ring bl c rest)
    (node : Node) (hc : bl.heap c = some node) (change : openfilestruct → openfilestruct) :
    ∃ after, edit_current bl change = some after ∧
      after.heap c = some { node with buffer := change node.buffer } ∧
      (∀ b, b ≠ c → after.heap b = bl.heap b) ∧
      after.openfile = some c ∧ after.startfile = bl.startfile ∧ Ring after c rest := by
  obtain ⟨hnd, ho, hst, hlive, hchain⟩ := h
  refine ⟨{ bl with heap := set_node bl.heap c { node with buffer := change node.buffer } },
    ?_, set_node_same _ _ _, fun b hb => set_node_other _ _ _ _ hb, ho, rfl,
    hnd, ho, hst, ?_, ?_⟩
  · unfold edit_current
    simp only [ho, hc]
  · intro b
    by_cases hb : b = c
    · subst hb
      show (set_node bl.heap b _ b).isSome = true ↔ _
      rw [set_node_same]
      simp
    · show (set_node bl.heap c _ b).isSome = true ↔ _
      rw [set_node_other _ _ _ _ hb]
      exact hlive b
  · refine chain_transfer _ _ hchain ?_
    intro x y _ _ hl
    refine link_transfer _ _ x y hl ?_ ?_
    · intro n hn
      by_cases hx : x = c
      · subst hx
        rw [hc] at hn
        cases hn
        exact ⟨_, set_node_same _ _ _, rfl⟩
      · exact ⟨n, by show set_node bl.heap c _ x = _; rw [set_node_other _ _ _ _ hx]; exact hn, rfl⟩
    · intro n hn
      by_cases hy : y = c
      · subst hy
        rw [hc] at hn
        cases hn
        exact ⟨_, set_node_same _ _ _, rfl⟩
      · exact ⟨n, by show set_node bl.heap c _ y = _; rw [set_node_other _ _ _ _ hy]; exact hn, rfl⟩

/-- The name that `open_file` opens exists when the name it is given does. -/
theorem full_filename_exists (sys : System) (op : Opening) (filename : String)
    (h : (op.stat filename).isSome = true) :
    (op.stat (full_filename sys op filename)).isSome = true := by
  unfold full_filename
  split
  · exact h
  · split_ifs with h2
    · exact h
    · rw [h, Bool.and_true] at h2
      cases hs : op.stat _ with
      | none => rw [hs] at h2; exact absurd rfl h2
      | some _ => rfl

/-- The function `open_file` returns -1 for an existing file that `open`
refuses. -/
theorem open_file_refused (sys : System) (op : Opening) (fs : FileSystem) (filename : String)
    (newfie : Bool) (h : (op.stat filename).isSome = true) (hfails : op.open_fails = true) :
    open_file sys op fs filename newfie = (-1, []) := by
  have h2 := full_filename_exists sys op filename h
  unfold open_file
  dsimp only
  split
  · rename_i h3
    rw [h3] at h2
    cases h2
  · rw [hfails]
    rfl

theorem open_and_read_refused (flags : Flags) (sys : System) (op : Opening) (fs : FileSystem)
    (bl : BufferList) (locked : Option LockOutcome) (filename realname : String)
    (new_buffer : Bool) (hname : filename ≠ "") (hread : flags.NOREAD_MODE = false)
    (h : (op.stat realname).isSome = true) (hfails : op.open_fails = true) :
    open_and_read flags sys op fs bl locked filename realname new_buffer =
      some ⟨true, bl, fs, locked, none⟩ := by
  unfold open_and_read
  simp [hname, hread, open_file_refused sys op fs realname new_buffer h hfails]

/-- The list after `make_new_buffer` on a well-formed list, with a fresh
address from `nmalloc`. -/
theorem make_new_buffer_listed (bl : BufferList) (members : List Nat) (newnode : Nat)
    (h : Listed bl members) (hfresh : bl.heap newnode = none) :
    ∃ after node, make_new_buffer bl newnode = some after ∧
      after.openfile = some newnode ∧ after.heap newnode = some node ∧
      node.buffer = new_buffer ∧
      (∀ c cur, bl.openfile = some c → bl.heap c = some cur →
        node.prev = c ∧ node.next = cur.next ∧ after.startfile = bl.startfile) ∧
      (bl.openfile = none →
        node.prev = newnode ∧ node.next = newnode ∧ after.startfile = some newnode) ∧
      Listed after (newnode :: members.rotate 1) ∧
      (∀ b ∈ members, (after.heap b).map Node.buffer = (bl.heap b).map Node.buffer) := by
  cases members with
  | nil =>
    obtain ⟨ho, hempty⟩ := h
    obtain ⟨after, e, hnode, hs, hring⟩ := make_new_buffer_first bl newnode ho hempty
    refine ⟨after, _, e, hring.2.1, hnode, rfl, ?_, ?_, hring, ?_⟩
    · intro c cur hc
      rw [ho] at hc
      cases hc
    · intro _
      exact ⟨rfl, rfl, hs⟩
    · intro b hb
      cases hb
  | cons c rest =>
    obtain ⟨after, cur, e, hcur, hnode, hs, hkeep, hring⟩ :=
      make_new_buffer_ring bl c newnode rest h hfresh
    refine ⟨after, _, e, hring.2.1, hnode, rfl, ?_, ?_, ?_, hkeep⟩
    · intro c2 cur2 hc2 hcur2
      rw [h.2.1] at hc2
      cases hc2
      rw [hcur] at hcur2
      cases hcur2
      exact ⟨rfl, rfl, hs⟩
    · intro hnone
      rw [h.2.1] at hnone
      cases hnone
    · rw [List.rotate_cons_succ, List.rotate_zero]
      exact hring

/-! ## Files that cannot be opened -/

/-- C24, as the code has it: with the buffers `a`, `b`, `c` open and `a`
current, `open_buffer` is called for the existing file `/x` that `open`
refuses.  `open_file` returns -1, `open_buffer` returns `TRUE`, and the list
has a fourth buffer, at the new address 4, which is current. -/
theorem C24_failed_open_counterexample :
    ((one_path "/x" 33188).stat "/x").isSome = true ∧
    (open_file calm_system { one_path "/x" 33188 with open_fails := true }
      (one_file "/x" [104, 105, 10]) "/x" true).1 = -1 ∧
    three_buffers.openfile = some 1 ∧ three_buffers.heap 4 = none ∧
    (open_buffer {} calm_system calm_locking { one_path "/x" 33188 with open_fails := true }
      (one_file "/x" [104, 105, 10]) three_buffers 4 [] [] "/x" true).map
      (fun out => (out.retval, out.bl.openfile, (out.bl.heap 4).map Node.buffer)) =
      some (true, some 4, some new_buffer) := by
  refine ⟨by decide, by decide, rfl, rfl, by decide⟩

/-- C24, amended: `open_buffer` with `new_buffer` true on a well-formed list
of buffers, for a non-empty name inside the confinement that names an
existing file, no directory and no device, which `open` refuses, with reading
not disabled and the lock, if one is asked for, not refused, returns `TRUE`
and has read nothing; the list holds the buffers it held before, unchanged
and in their cyclic order, and the new buffer after the one that was current;
the new buffer is current, has no name and one empty line and is not
modified. -/
theorem C24_failed_open_leaves_new_buffer (flags : Flags) (sys : System) (lk : Locking)
    (op : Opening) (fs : FileSystem) (bl : BufferList) (members : List Nat) (newnode : Nat)
    (lockprog lockuser : List UInt8) (filename : String) (fileinfo : Stat)
    (h : Listed bl members) (hfresh : bl.heap newnode = none)
    (hinside : outside_of_confinement sys filename false = false)
    (hname : filename ≠ "") (hread : flags.NOREAD_MODE = false)
    (hstat : op.stat (real_dir_from_tilde sys filename) = some fileinfo)
    (hdir : S_ISDIR fileinfo.st_mode = false) (hchr : S_ISCHR fileinfo.st_mode = false)
    (hblk : S_ISBLK fileinfo.st_mode = false) (hfails : op.open_fails = true)
    (hlock : flags.LOCKING = true →
      has_valid_path flags lk op (real_dir_from_tilde sys filename) = true →
      0 ≤ (do_lockfile flags lk fs new_buffer (real_dir_from_tilde sys filename)
        lockprog lockuser).retval) :
    ∃ out node, open_buffer flags sys lk op fs bl newnode lockprog lockuser filename true =
        some out ∧
      (open_file sys op out.fs (real_dir_from_tilde sys filename) true).1 = -1 ∧
      out.retval = true ∧ out.read = none ∧
      Listed out.bl (newnode :: members.rotate 1) ∧
      (∀ b ∈ members, (out.bl.heap b).map Node.buffer = (bl.heap b).map Node.buffer) ∧
      out.bl.openfile = some newnode ∧ out.bl.heap newnode = some node ∧
      node.buffer.filename = "" ∧ node.buffer.lines = [[]] ∧
      node.buffer.modified = false := by
  have hsome : (op.stat (real_dir_from_tilde sys filename)).isSome = true := by rw [hstat]; rfl
  obtain ⟨made, node, emake, hmo, hmnode, hmbuf, _, _, hmring, hmkeep⟩ :=
    make_new_buffer_listed bl members newnode h hfresh
  have hring : Ring made newnode (members.rotate 1) := hmring
  have hcur := current_buffer_ring made newnode _ hring node hmnode
  have hfresh2 : ∀ b ∈ members, b ≠ newnode := by
    intro b hb e
    have hnd := hring.1
    rw [List.nodup_cons, List.mem_rotate] at hnd
    exact hnd.1 (e ▸ hb)
  by_cases hl : (has_valid_path flags lk op (real_dir_from_tilde sys filename) &&
      flags.LOCKING && decide (filename ≠ "")) = true
  · obtain ⟨name, hkeeps⟩ := do_lockfile_keeps flags lk fs new_buffer
      (real_dir_from_tilde sys filename) lockprog lockuser
    obtain ⟨edited, eedit, henode, hother, heo, _, hering⟩ :=
      edit_current_ring made newnode _ hring node hmnode
        (fun _ => (do_lockfile flags lk fs new_buffer (real_dir_from_tilde sys filename)
          lockprog lockuser).openfile)
    have hl2 : has_valid_path flags lk op (real_dir_from_tilde sys filename) = true ∧
        flags.LOCKING = true := by
      simp only [Bool.and_eq_true] at hl
      exact hl.1
    have hret := hlock hl2.2 hl2.1
    refine ⟨⟨true, edited, (do_lockfile flags lk fs new_buffer
      (real_dir_from_tilde sys filename) lockprog lockuser).fs, some (do_lockfile flags lk fs
      new_buffer (real_dir_from_tilde sys filename) lockprog lockuser), none⟩, _, ?_, ?_, rfl, rfl,
      hering, ?_, heo, henode, ?_, ?_, ?_⟩
    · unfold open_buffer
      rw [hmbuf] at hcur
      simp [hinside, hname, hstat, hdir, hchr, hblk, emake, hl2.1, hl2.2, hcur, eedit,
        not_lt.mpr hret,
        open_and_read_refused flags sys op _ edited _ filename _ true hname hread hsome hfails]
    · rw [open_file_refused sys op _ _ true hsome hfails]
    · intro b hb
      rw [hother b (hfresh2 b hb)]
      exact hmkeep b hb
    · show ((do_lockfile flags lk fs new_buffer _ lockprog lockuser).openfile).filename = ""
      rw [hkeeps]
      rfl
    · show ((do_lockfile flags lk fs new_buffer _ lockprog lockuser).openfile).lines = [[]]
      rw [hkeeps]
      rfl
    · show ((do_lockfile flags lk fs new_buffer _ lockprog lockuser).openfile).modified = false
      rw [hkeeps]
      rfl
  · refine ⟨⟨true, made, fs, none, none⟩, node, ?_, ?_, rfl, rfl, hmring, hmkeep, hmo, hmnode,
      ?_, ?_, ?_⟩
    · unfold open_buffer
      have hl3 : has_valid_path flags lk op (real_dir_from_tilde sys filename) = true →
          flags.LOCKING = false := by
        intro hv
        simpa [hv, hname] using hl
      simp [hinside, hname, hstat, hdir, hchr, hblk, emake,
        open_and_read_refused flags sys op fs made none filename _ true hname hread hsome hfails]
      intro hv hk
      rw [hl3 hv] at hk
      cases hk
    · rw [open_file_refused sys op _ _ true hsome hfails]
    · rw [hmbuf]; rfl
    · rw [hmbuf]; rfl
    · rw [hmbuf]; rfl

set_option maxRecDepth 100000 in
theorem C24_failed_open_leaves_new_buffer_witness :
    ∃ out node, open_buffer { LOCKING := true } calm_system calm_locking
        { one_path "/x" 33188 with open_fails := true } (one_file "/x" [104, 105, 10])
        three_buffers 4 [] [] "/x" true = some out ∧
      (open_file calm_system { one_path "/x" 33188 with open_fails := true } out.fs
        (real_dir_from_tilde calm_system "/x") true).1 = -1 ∧
      out.retval = true ∧ out.read = none ∧
      Listed out.bl (4 :: [1, 2, 3].rotate 1) ∧
      (∀ b ∈ [1, 2, 3],
        (out.bl.heap b).map Node.buffer = (three_buffers.heap b).map Node.buffer) ∧
      out.bl.openfile = some 4 ∧ out.bl.heap 4 = some node ∧
      node.buffer.filename = "" ∧ node.buffer.lines = [[]] ∧
      node.buffer.modified = false :=
  C24_failed_open_leaves_new_buffer { LOCKING := true } calm_system calm_locking
    { one_path "/x" 33188 with open_fails := true } (one_file "/x" [104, 105, 10])
    three_buffers [1, 2, 3] 4 [] [] "/x" { st_mode := 33188 } three_buffers_ring rfl
    (by decide) (by decide) rfl (by decide) (by decide) (by decide) (by decide) rfl
    (fun _ _ => by decide)

/-! ## Files of the wrong type -/

set_option maxRecDepth 100000 in
/-- C25, as the code has it: `/p` is a FIFO that delivers `hi` and a newline.
With three buffers open, `open_buffer` returns `TRUE` for it, having made a
fourth buffer, named it `/p` and read the two lines into it, and with
`LOCKING` set it has also taken the lock. -/
theorem C25_fifo_counterexample :
    S_ISFIFO 4516 = true ∧ ((one_path "/p" 4516).stat "/p").isSome = true ∧
    three_buffers.heap 4 = none ∧
    (open_buffer {} calm_system calm_locking (one_path "/p" 4516)
      (one_file "/p" [104, 105, 10]) three_buffers 4 [] [] "/p" true).map
      (fun out => (out.retval, out.bl.openfile, out.read.isSome)) =
      some (true, some 4, true) ∧
    (open_buffer {} calm_system calm_locking (one_path "/p" 4516)
      (one_file "/p" [104, 105, 10]) three_buffers 4 [] [] "/p" true).map
      (fun out => (out.bl.heap 4).map (fun node => (node.buffer.filename, node.buffer.lines))) =
      some (some ("/p", [[104, 105], []])) ∧
    (open_buffer { LOCKING := true } calm_system calm_locking (one_path "/p" 4516)
      (one_file "/p" [104, 105, 10]) three_buffers 4 [] [] "/p" true).map
      (fun out => (out.retval, out.locked.map (fun l => l.retval),
        (out.fs "//.p.swp").isSome)) =
      some (true, some 1, true) ∧
    (open_buffer { LOCKING := true } calm_system calm_locking (one_path "/p" 4516)
      (one_file "/p" [104, 105, 10]) three_buffers 4 [] [] "/p" true).map
      (fun out => (out.bl.heap 4).map
        (fun node => (node.buffer.lock_filename, node.buffer.lines))) =
      some (some (some "//.p.swp", [[104, 105], []])) := by
  refine ⟨by decide, by decide, rfl, by decide, by decide, by decide, by decide⟩

/-- C25, amended: for a non-empty name that names an existing directory,
character device or block device, `open_buffer` returns `FALSE`; the list of
buffers and the file system are as before, and neither `do_lockfile` nor
`read_file` has been called. -/
theorem C25_directories_and_devices_rejected (flags : Flags) (sys : System) (lk : Locking)
    (op : Opening) (fs : FileSystem) (bl : BufferList) (newnode : Nat)
    (lockprog lockuser : List UInt8) (filename : String) (new_buffer : Bool) (fileinfo : Stat)
    (hname : filename ≠ "")
    (hstat : op.stat (real_dir_from_tilde sys filename) = some fileinfo)
    (hkind : S_ISDIR fileinfo.st_mode = true ∨ S_ISCHR fileinfo.st_mode = true ∨
      S_ISBLK fileinfo.st_mode = true) :
    ∃ out, open_buffer flags sys lk op fs bl newnode lockprog lockuser filename new_buffer =
        some out ∧
      out.retval = false ∧ out.bl = bl ∧ out.fs = fs ∧ out.locked = none ∧ out.read = none := by
  refine ⟨⟨false, bl, fs, none, none⟩, ?_, rfl, rfl, rfl, rfl, rfl⟩
  unfold open_buffer
  by_cases hout : outside_of_confinement sys filename false = true
  · rw [if_pos hout]
  · rw [if_neg hout]
    simp only [hname, ne_eq, not_false_eq_true, if_true, hstat, Option.map_some',
      Option.getD_some]
    by_cases hdir : S_ISDIR fileinfo.st_mode = true
    · rw [if_pos hdir]
    · rw [if_neg hdir]
      rcases hkind with h | h | h
      · exact absurd h hdir
      · rw [if_pos (by rw [h]; rfl)]
      · rw [if_pos (by rw [h, Bool.or_true])]

theorem C25_directories_and_devices_rejected_witness :
    ∃ out, open_buffer { LOCKING := true } calm_system calm_locking (one_path "/dev/tty" 8630)
        (one_file "/dev/tty" [104, 105, 10]) three_buffers 4 [] [] "/dev/tty" true = some out ∧
      out.retval = false ∧ out.bl = three_buffers ∧
      out.fs = one_file "/dev/tty" [104, 105, 10] ∧ out.locked = none ∧ out.read = none :=
  C25_directories_and_devices_rejected { LOCKING := true } calm_system calm_locking
    (one_path "/dev/tty" 8630) (one_file "/dev/tty" [104, 105, 10]) three_buffers 4 [] []
    "/dev/tty" true { st_mode := 8630 } (by decide) (by decide) (Or.inr (Or.inl (by decide)))

end Nano
